import Mathlib

/-!
StepTimer: the deadline-ordered callback scheduler of RepRapFirmware.

A shallow embedding of `src/Movement/StepTimer.cpp`.

* A timer object is identified by its address, a natural number.
* The intrusive chain `pendingList -> next -> next -> ... -> nullptr` is represented by
  the list of the addresses it visits, head first.  Unlinking, linking at a position and
  popping the head are the list operations that the pointer assignments perform on an
  acyclic chain.
* Ticks are `uint32_t`: natural numbers, subtraction is taken modulo `2^32` and a cast to
  `int32_t` reinterprets the low 32 bits as a two's complement number.
* The free running counter is an oracle: `tcCV k` is the value that the `k`-th call of
  `GetTimerTicks` finds in the counter, `reads` counts the calls made so far.  A call of
  `ScheduleCallbackFromIsr` that arms the interrupt reads the counter twice, and the two
  readings may differ.
* `cpu_irq_save` / `cpu_irq_restore` in `ScheduleTimerInterrupt` restore the flag they saved
  and are left out; the read of the status register that clears a pending match is left out.
* `MinInterruptInterval` is declared in `StepTimer.h`; it is a parameter `mii` here.
* The loop of `StepTimer::Interrupt` runs on fuel, one unit per pass; `none` means that the
  fuel ran out before the loop returned.
* `STEP_TC_HANDLER` takes the compare-match bit of the status word it reads as an argument.
* `ChangeBasePriority` / `RestoreBasePriority` come from the RTOS interface and act on the
  field `basePri` only; `NvicPriorityStep` is a parameter.  The wrappers `ScheduleCallback` and
  `CancelCallback` yield the states they pass through, statement by statement.
* A callback is code outside `StepTimer.cpp`.  `InterruptBody` calls the stored function,
  which computes on its arguments and cannot touch the pending list: it describes callbacks
  that do not use the scheduler.  `Reentrant.InterruptBody` takes the effect of the call as an
  arbitrary function on the scheduler state, so the callback may schedule and cancel.
* The build with two chained 16-bit counters is the namespace `Chained`: the two counter
  registers are oracles indexed by the number of register reads made so far.
-/

namespace StepTimer

/-! ## Tick arithmetic -/

/-- The type `StepTimer::Ticks`, a `uint32_t`. -/
abbrev Ticks := Nat

/-- Unsigned 32-bit subtraction `a - b`. -/
def sub32 (a b : Nat) : Nat := (a % 2 ^ 32 + 2 ^ 32 - b % 2 ^ 32) % 2 ^ 32

/-- The cast `(int32_t)x` of an unsigned 32-bit value. -/
def toInt32 (x : Nat) : Int :=
  if x % 2 ^ 32 < 2 ^ 31 then ((x % 2 ^ 32 : Nat) : Int) else ((x % 2 ^ 32 : Nat) : Int) - 2 ^ 32

/-- The signed difference `(int32_t)(a - b)` used by every comparison of ticks. -/
def sdiff (a b : Nat) : Int := toInt32 (sub32 a b)

/-! ## Data model -/

/-- A callback `bool (*)(CallbackParameter, Ticks&)`: from the parameter, the due tick it is
handed by reference and the state of the rest of the firmware it computes its result, the due
tick it leaves behind and the new state of the rest of the firmware.  Such a callback cannot
touch the pending list or another timer. -/
abbrev TimerCallbackFunction := Nat → Ticks → Nat → Bool × Ticks × Nat

/-- The fields of a `StepTimer` object; `next` is carried by the pending list. -/
structure Timer where
  whenDue : Ticks
  callback : Option TimerCallbackFunction
  cbParam : Nat
  active : Bool

/-- The scheduler state: the timer objects by address, the pending list, the step counter
and its compare channel, the base priority, the rest of the firmware as seen by callbacks,
and a log of the timers whose callback has been invoked. -/
structure State where
  timers : Nat → Timer
  pendingList : List Nat
  tcCV : Nat → Nat
  reads : Nat
  tcRB : Nat
  cpbsEnabled : Bool
  basePri : Nat
  world : Nat
  calls : List Nat

/-- The constructor `StepTimer::StepTimer()`: no callback, not active; the due tick and the
parameter are left as they were. -/
def Timer.construct (t : Timer) : Timer :=
  { t with callback := none, active := false }

/-- Store `when` in the `whenDue` field of the timer at address `this`. -/
def State.setWhenDue (s : State) (this : Nat) (when : Ticks) : State :=
  { s with timers := Function.update s.timers this { s.timers this with whenDue := when } }

/-- Store `b` in the `active` field of the timer at address `this`. -/
def State.setActive (s : State) (this : Nat) (b : Bool) : State :=
  { s with timers := Function.update s.timers this { s.timers this with active := b } }

/-- The due tick of the timer at address `x`. -/
def State.due (s : State) (x : Nat) : Ticks := (s.timers x).whenDue

/-- The value that the `k`-th read of the counter from now on finds (`k = 0` is the next). -/
def State.tick (s : State) (k : Nat) : Ticks := s.tcCV (s.reads + k) % 2 ^ 32

/-! ## Hardware tick source -/

/-- `StepTimer::GetTimerTicks`: the 32-bit tick count a call returns.  The hardware counter is
an input of the program, so the value comes from the oracle `tcCV`; each call consumes one
reading. -/
def GetTimerTicks (s : State) : Ticks × State :=
  (s.tcCV s.reads % 2 ^ 32, { s with reads := s.reads + 1 })

/-- `StepTimer::ScheduleTimerInterrupt`: arm the compare interrupt at `tim`, or return `true`
when `tim` is imminent or has passed. -/
def ScheduleTimerInterrupt (mii : Nat) (s : State) (tim : Ticks) : Bool × State :=
  let r := GetTimerTicks s
  let diff := sdiff tim r.1
  if diff < toInt32 mii then (true, r.2)
  else (false, { r.2 with tcRB := tim, cpbsEnabled := true })

/-- `StepTimer::DisableTimerInterrupt`. -/
def DisableTimerInterrupt (s : State) : State :=
  { s with cpbsEnabled := false }

/-! ## Scheduler -/

/-- The scan of `CancelCallbackFromIsr`: walk the chain up to the first link that points at
`this` and make it point at the successor of `this`; `none` when the end is reached. -/
def unlink (this : Nat) : List Nat → Option (List Nat)
  | [] => none
  | x :: xs => if x = this then some xs else (unlink this xs).map (fun l => x :: l)

/-- `StepTimer::CancelCallbackFromIsr`. -/
def CancelCallbackFromIsr (s : State) (this : Nat) : State :=
  match unlink this s.pendingList with
  | some l => ({ s with pendingList := l }).setActive this false
  | none => s

/-- The walk `while (*ppst != nullptr && advance(*ppst)) ppst = &(*ppst)->next` followed by
`next = *ppst; *ppst = this`. -/
def linkAfterWalk (advance : Nat → Bool) (this : Nat) : List Nat → List Nat
  | [] => [this]
  | x :: xs => if advance x then x :: linkAfterWalk advance this xs else this :: x :: xs

/-- The test `*ppst == nullptr || howSoon < (int32_t)((*ppst)->whenDue - now)`. -/
def dueBeforeHead (s : State) (howSoon : Int) (now : Ticks) : Bool :=
  match s.pendingList with
  | [] => true
  | h :: _ => decide (howSoon < sdiff (s.due h) now)

/-- `StepTimer::ScheduleCallbackFromIsr`. -/
def ScheduleCallbackFromIsr (mii : Nat) (s : State) (this : Nat) (when : Ticks) :
    Bool × State :=
  let s1 := if (s.timers this).active then CancelCallbackFromIsr s this else s
  let s2 := s1.setWhenDue this when
  let r := GetTimerTicks s2
  let now := r.1
  let s3 := r.2
  let howSoon := sdiff when now
  if dueBeforeHead s3 howSoon now then
    let a := ScheduleTimerInterrupt mii s3 when
    if a.1 then (true, a.2)
    else (false, ({ a.2 with pendingList := this :: a.2.pendingList }).setActive this true)
  else
    let l := linkAfterWalk (fun x => decide (sdiff (s3.due x) now < howSoon)) this s3.pendingList
    (false, ({ s3 with pendingList := l }).setActive this true)

/-! ## Interrupt dispatch loop -/

/-- One pass through the body of the `for (;;)` loop of `StepTimer::Interrupt`.  The flag is
`true` when the loop goes round again and `false` when the function returns. -/
def InterruptBody (mii : Nat) (s : State) : State × Bool :=
  match s.pendingList with
  | [] => (s, false)
  | tmr :: rest =>
    let a := ScheduleTimerInterrupt mii s (s.due tmr)
    if !a.1 then (a.2, false)
    else
      let s1 := ({ a.2 with pendingList := rest }).setActive tmr false
      match (s1.timers tmr).callback with
      | none => (s1, true)
      | some cb =>
        let c := cb (s1.timers tmr).cbParam (s1.due tmr) s1.world
        let s2 := ({ s1 with world := c.2.2, calls := s1.calls ++ [tmr] }).setWhenDue tmr c.2.1
        if c.1 then
          let l := linkAfterWalk (fun x => decide (sdiff (s2.due tmr) (s2.due x) > 0)) tmr
            s2.pendingList
          (({ s2 with pendingList := l }).setActive tmr true, true)
        else (s2, true)

/-- `StepTimer::Interrupt`, run for at most `fuel` passes of its loop; `none` when the loop
has not returned by then. -/
def Interrupt (mii : Nat) : Nat → State → Option State
  | 0, _ => none
  | fuel + 1, s =>
    let b := InterruptBody mii s
    if b.2 then Interrupt mii fuel b.1 else some b.1

/-! ## States and runs -/

/-- The state at boot: no timer is pending or active, the compare interrupt is disabled. -/
def initial (tcCV : Nat → Nat) (timers : Nat → Timer) : State :=
  { timers := fun x => (timers x).construct
    pendingList := []
    tcCV := tcCV
    reads := 0
    tcRB := 0
    cpbsEnabled := false
    basePri := 0
    world := 0
    calls := [] }

/-- A timer object as found in memory before its constructor runs. -/
def rawTimer : Timer := { whenDue := 0, callback := none, cbParam := 0, active := false }

/-- Membership invariant: a timer is linked at most once, and it is active exactly when it is
linked. -/
def MembershipInv (s : State) : Prop :=
  s.pendingList.Nodup ∧ ∀ x, (s.timers x).active = true ↔ x ∈ s.pendingList

/-- The pending list is in non-decreasing order of `(int32_t)(whenDue - now)`. -/
def SortedAt (s : State) (now : Ticks) : Prop :=
  s.pendingList.Pairwise (fun a b => sdiff (s.due a) now ≤ sdiff (s.due b) now)

/-- `StepTimer::SetCallback`. -/
def SetCallback (s : State) (this : Nat) (cb : Option TimerCallbackFunction) (param : Nat) :
    State :=
  let t : Timer := { s.timers this with callback := cb, cbParam := param }
  { s with timers := Function.update s.timers this t }

/-! ## Sequences of calls -/

/-- A call made by a client of the scheduler. -/
inductive Call where
  | schedule (this : Nat) (when : Ticks)
  | cancel (this : Nat)

/-- The state after a call. -/
def Call.apply (mii : Nat) (s : State) : Call → State
  | Call.schedule this when => (ScheduleCallbackFromIsr mii s this when).2
  | Call.cancel this => CancelCallbackFromIsr s this

/-- The clock value used by the most recent schedule call: a schedule call replaces it by the
tick it reads, a cancel call reads no clock. -/
def Call.snapshot (s : State) (last : Ticks) : Call → Ticks
  | Call.schedule _ _ => (GetTimerTicks s).1
  | Call.cancel _ => last

/-- Run a sequence of calls from state `s`, where `last` is the clock value used by the most
recent schedule call before the sequence. -/
def runCalls (mii : Nat) : State → Ticks → List Call → State × Ticks
  | s, last, [] => (s, last)
  | s, last, c :: cs => runCalls mii (c.apply mii s) (c.snapshot s last) cs

/-- Between the snapshots `last` and `now` no signed difference between the clock and the due
tick of a pending timer other than `this` wraps: the difference to `last` less the advance of
the clock is still a 32-bit signed number. -/
def NoWrap (s : State) (this : Nat) (last now : Ticks) : Prop :=
  ∀ x ∈ s.pendingList, x ≠ this →
    -(2 ^ 31 : Int) ≤ sdiff (s.due x) last - sdiff now last ∧
      sdiff (s.due x) last - sdiff now last < 2 ^ 31

/-- No signed difference wraps between consecutive snapshots along a sequence of calls. -/
def WrapFree (mii : Nat) : State → Ticks → List Call → Prop
  | _, _, [] => True
  | s, last, Call.schedule this when :: cs =>
    NoWrap s this last (GetTimerTicks s).1 ∧
      WrapFree mii (ScheduleCallbackFromIsr mii s this when).2 (GetTimerTicks s).1 cs
  | s, last, Call.cancel this :: cs => WrapFree mii (CancelCallbackFromIsr s this) last cs

/-- Schedule the timers of a list one after another, each for its tick; the results of the
calls and the final state. -/
def scheduleAll (mii : Nat) : State → List (Nat × Ticks) → List Bool × State
  | s, [] => ([], s)
  | s, e :: es =>
    let r := ScheduleCallbackFromIsr mii s e.1 e.2
    let q := scheduleAll mii r.2 es
    (r.1 :: q.1, q.2)

/-! ## Interrupt handler, normal-context wrappers and the chained counter -/

/-- `STEP_TC_HANDLER`, run with at most `fuel` passes of the dispatch loop.  `cpbsStatus` is the
RB compare bit that the handler finds in the status register; it is masked with the enabled
interrupts, and on a compare match the handler disables the interrupt and dispatches. -/
def STEP_TC_HANDLER (mii : Nat) (fuel : Nat) (s : State) (cpbsStatus : Bool) : Option State :=
  if cpbsStatus && s.cpbsEnabled then Interrupt mii fuel (DisableTimerInterrupt s) else some s

namespace Chained

/-- The `do ... while (true)` loop of the chained `StepTimer::GetTimerTicks` of SAM4S and
SAME70.  `upper k` and `lower k` are what the `k`-th register read of the call would find in
the counter value register of the upper and of the lower channel; `k` is the number of
reads made so far and `highWord` the last high word read.  The result is the tick count and
the number of register reads made; `none` when the loop has not returned after `fuel`
rounds. -/
def readLoop (upper lower : Nat → Nat) : Nat → Nat → Nat → Option (Nat × Nat)
  | 0, _, _ => none
  | fuel + 1, k, highWord =>
    let lowWord := lower k % 2 ^ 16
    let highWordAgain := upper (k + 1) % 2 ^ 16
    if highWordAgain = highWord then some ((highWord <<< 16) % 2 ^ 32 ||| lowWord, k + 2)
    else readLoop upper lower fuel (k + 2) highWordAgain

/-- The chained `StepTimer::GetTimerTicks`: read the high word, then loop. -/
def GetTimerTicks (upper lower : Nat → Nat) (fuel : Nat) : Option (Nat × Nat) :=
  readLoop upper lower fuel 1 (upper 0 % 2 ^ 16)

/-- The registers of two chained 16-bit channels that together count `c k` at the `k`-th
register read: the upper channel holds the high 16 bits. -/
def upperOf (c : Nat → Nat) : Nat → Nat := fun k => c k / 2 ^ 16 % 2 ^ 16

/-- The lower channel holds the low 16 bits. -/
def lowerOf (c : Nat → Nat) : Nat → Nat := fun k => c k % 2 ^ 16

end Chained

/-! ## Dispatch of due timers -/

/-- The callback of timer `x`, if it has one, never asks for the timer to be scheduled
again. -/
def Quiet (s : State) (x : Nat) : Prop :=
  ∀ cb, (s.timers x).callback = some cb → ∀ p d w, (cb p d w).1 = false

/-- Timer `x` has a callback. -/
def hasCallback (s : State) (x : Nat) : Bool := (s.timers x).callback.isSome

/-- The timers of a list are found due one after another, the first by the `i`-th arm check
from now on, the next by the one after it, and so on. -/
def DueInTurn (mii : Nat) (s : State) : Nat → List Nat → Prop
  | _, [] => True
  | i, x :: xs => sdiff (s.due x) (s.tick i) < toInt32 mii ∧ DueInTurn mii s (i + 1) xs

/-- The longest front of a list whose timers are found due in turn, starting with the
`i`-th arm check from now on. -/
def dueFront (mii : Nat) (s : State) : Nat → List Nat → List Nat
  | _, [] => []
  | i, x :: xs =>
    if sdiff (s.due x) (s.tick i) < toInt32 mii then x :: dueFront mii s (i + 1) xs else []

/-! ## Reachable states -/

/-- The states reached from boot by setting callbacks, scheduling, cancelling and complete
runs of the interrupt handler. -/
inductive Reachable (mii : Nat) : State → Prop
  | boot (tcCV : Nat → Nat) (timers : Nat → Timer) : Reachable mii (initial tcCV timers)
  | setCallback (s : State) (this : Nat) (cb : Option TimerCallbackFunction) (param : Nat) :
      Reachable mii s → Reachable mii (SetCallback s this cb param)
  | schedule (s : State) (this : Nat) (when : Ticks) :
      Reachable mii s → Reachable mii (ScheduleCallbackFromIsr mii s this when).2
  | cancel (s : State) (this : Nat) :
      Reachable mii s → Reachable mii (CancelCallbackFromIsr s this)
  | handler (s s' : State) (fuel : Nat) (cpbsStatus : Bool) :
      Reachable mii s → STEP_TC_HANDLER mii fuel s cpbsStatus = some s' → Reachable mii s'

/-! ## Callbacks that use the scheduler -/

/-- What a call `tmr->callback(tmr->cbParam, tmr->whenDue)` does when the callback is free to
use the scheduler: from the address `tmr` of the timer whose due tick it is handed by
reference and the state it finds, the result of the call and the state it leaves.  Such a
callback may call `ScheduleCallbackFromIsr` and `CancelCallbackFromIsr` on any timer, read the
counter and store through the reference. -/
abbrev CallbackEffect := Nat → State → Bool × State

/-- The effect of a call of the function stored in the timer object, which computes on its
arguments only: the due tick and the rest of the firmware are replaced by what it leaves. -/
def storedCallback : CallbackEffect := fun tmr s =>
  match (s.timers tmr).callback with
  | none => (false, s)
  | some cb =>
    let c := cb (s.timers tmr).cbParam (s.due tmr) s.world
    (c.1, ({ s with world := c.2.2 }).setWhenDue tmr c.2.1)

namespace Reentrant

/-- One pass through the body of the `for (;;)` loop of `StepTimer::Interrupt` when the call
of the callback has the effect `run`: the stored pointer is tested for null, the call is
logged, and after the call the loop goes on with the pending list and the timer objects as
the callback has left them.  The flag is `true` when the loop goes round again.  The list
describes the chain of the source as long as the callback keeps it well formed
(`KeepsChain`). -/
def InterruptBody (run : CallbackEffect) (mii : Nat) (s : State) : State × Bool :=
  match s.pendingList with
  | [] => (s, false)
  | tmr :: rest =>
    let a := ScheduleTimerInterrupt mii s (s.due tmr)
    if !a.1 then (a.2, false)
    else
      let s1 := ({ a.2 with pendingList := rest }).setActive tmr false
      match (s1.timers tmr).callback with
      | none => (s1, true)
      | some _ =>
        let c := run tmr { s1 with calls := s1.calls ++ [tmr] }
        if c.1 then
          let l := linkAfterWalk (fun x => decide (sdiff (c.2.due tmr) (c.2.due x) > 0)) tmr
            c.2.pendingList
          (({ c.2 with pendingList := l }).setActive tmr true, true)
        else (c.2, true)

/-- `StepTimer::Interrupt` with callbacks of effect `run`, for at most `fuel` passes of its
loop; `none` when the loop has not returned by then. -/
def Interrupt (run : CallbackEffect) (mii : Nat) : Nat → State → Option State
  | 0, _ => none
  | fuel + 1, s =>
    let b := InterruptBody run mii s
    if b.2 then Interrupt run mii fuel b.1 else some b.1

/-- `STEP_TC_HANDLER` with callbacks of effect `run`. -/
def STEP_TC_HANDLER (run : CallbackEffect) (mii : Nat) (fuel : Nat) (s : State)
    (cpbsStatus : Bool) : Option State :=
  if cpbsStatus && s.cpbsEnabled then Interrupt run mii fuel (DisableTimerInterrupt s)
  else some s

/-- The states reached from boot by setting callbacks, scheduling, cancelling and complete
runs of the interrupt handler, whatever the callbacks do. -/
inductive Reachable (mii : Nat) : State → Prop
  | boot (tcCV : Nat → Nat) (timers : Nat → Timer) : Reachable mii (initial tcCV timers)
  | setCallback (s : State) (this : Nat) (cb : Option TimerCallbackFunction) (param : Nat) :
      Reachable mii s → Reachable mii (SetCallback s this cb param)
  | schedule (s : State) (this : Nat) (when : Ticks) :
      Reachable mii s → Reachable mii (ScheduleCallbackFromIsr mii s this when).2
  | cancel (s : State) (this : Nat) :
      Reachable mii s → Reachable mii (CancelCallbackFromIsr s this)
  | handler (run : CallbackEffect) (s s' : State) (fuel : Nat) (cpbsStatus : Bool) :
      Reachable mii s → STEP_TC_HANDLER run mii fuel s cpbsStatus = some s' → Reachable mii s'

/-- The states reached from boot by setting callbacks, by scheduling and cancelling timers
other than the current head of the pending list, and by complete runs of the interrupt handler
whose callbacks leave a disabled compare interrupt disabled. -/
inductive ReachableSparingHead (mii : Nat) : State → Prop
  | boot (tcCV : Nat → Nat) (timers : Nat → Timer) :
      ReachableSparingHead mii (initial tcCV timers)
  | setCallback (s : State) (this : Nat) (cb : Option TimerCallbackFunction) (param : Nat) :
      ReachableSparingHead mii s → ReachableSparingHead mii (SetCallback s this cb param)
  | schedule (s : State) (this : Nat) (when : Ticks) :
      ReachableSparingHead mii s → s.pendingList.head? ≠ some this →
        ReachableSparingHead mii (ScheduleCallbackFromIsr mii s this when).2
  | cancel (s : State) (this : Nat) :
      ReachableSparingHead mii s → s.pendingList.head? ≠ some this →
        ReachableSparingHead mii (CancelCallbackFromIsr s this)
  | handler (run : CallbackEffect) (s s' : State) (fuel : Nat) (cpbsStatus : Bool) :
      ReachableSparingHead mii s →
      (∀ x t, t.cpbsEnabled = false → (run x t).2.cpbsEnabled = false) →
      STEP_TC_HANDLER run mii fuel s cpbsStatus = some s' → ReachableSparingHead mii s'

end Reentrant

/-- The state in which the callback of the head is called: the head is unlinked and inactive
and the call is logged. -/
def Reentrant.atCall (s : State) (tmr : Nat) (rest : List Nat) : State :=
  { ({ s with reads := s.reads + 1, pendingList := rest }).setActive tmr false with
    calls := s.calls ++ [tmr] }

/-- The callback effect `run` keeps the chain well formed: called for a timer that is not
linked, in a state that satisfies the membership invariant, it leaves a state that satisfies
the invariant, and it does not return `true` with the timer linked.  Calls of
`ScheduleCallbackFromIsr` and `CancelCallbackFromIsr` keep the invariant.  A callback that
links its own timer and then returns `true` does not keep the chain well formed: the loop
links the timer a second time, which closes the chain of the source into a cycle, where the
list holds the timer twice. -/
def KeepsChain (run : CallbackEffect) : Prop :=
  ∀ x t, MembershipInv t → x ∉ t.pendingList →
    MembershipInv (run x t).2 ∧ ((run x t).1 = true → x ∉ (run x t).2.pendingList)

/-! ## Due ticks that stay ahead of the counter -/

/-- The callback of timer `x`, if it has one, returns `false` when it is handed the parameter
and the due tick that `x` has in `s`, whatever the rest of the firmware is. -/
def ReturnsFalse (s : State) (x : Nat) : Prop :=
  ∀ cb, (s.timers x).callback = some cb →
    ∀ w, (cb (s.timers x).cbParam (s.due x) w).1 = false

/-- The reads of the counter from the `k`-th to the `n`-th, counted from state `s` with the
next read as the `0`-th, find the tick `d` at least `MinInterruptInterval` ahead. -/
def StaysAhead (mii : Nat) (s : State) (k n : Nat) (d : Ticks) : Prop :=
  ∀ i, k ≤ i → i ≤ n → toInt32 mii ≤ sdiff d (s.tick i)

/-- Whenever the callback of timer `y`, handed the due tick that `y` has in `s`, asks for
another schedule, the due tick it leaves satisfies `P`, whatever the rest of the firmware
is. -/
def Leaves (s : State) (y : Nat) (P : Ticks → Prop) : Prop :=
  ∀ cb, (s.timers y).callback = some cb →
    ∀ w, (cb (s.timers y).cbParam (s.due y) w).1 = true →
      P (cb (s.timers y).cbParam (s.due y) w).2.1

/-! ## Concrete scenarios -/

/-- A counter that every read finds at `now`. -/
def frozenAt (now : Nat) : Nat → Nat := fun _ => now

/-- Boot with the counter standing at `now`. -/
def bootAt (now : Nat) : State := initial (frozenAt now) (fun _ => rawTimer)

/-- Timers `1`, `2`, `3` scheduled for ticks 100, 150, 120 in that order at tick 0, with a
minimum interrupt interval of 6. -/
def scenarioABC : State :=
  (ScheduleCallbackFromIsr 6
    (ScheduleCallbackFromIsr 6 (ScheduleCallbackFromIsr 6 (bootAt 0) 1 100).2 2 150).2 3 120).2

/-- A counter that the first two reads find at 900 and all later reads at 1000. -/
def lateClock : Nat → Nat := fun k => if k < 2 then 900 else 1000

/-- Timer `1` was scheduled for tick 1001 when the counter stood at 900 and is still pending
now that the counter stands at 1000. -/
def lateHead : State :=
  (ScheduleCallbackFromIsr 6 (initial lateClock (fun _ => rawTimer)) 1 1001).2

/-- Timer `1` scheduled for tick 100 at tick 0. -/
def oneAt100 : State := (ScheduleCallbackFromIsr 6 (bootAt 0) 1 100).2

/-- A callback that asks to be scheduled again 100 ticks after its due tick. -/
def everyHundred : TimerCallbackFunction := fun _ due w => (true, (due + 100) % 2 ^ 32, w + 1)

/-- A callback that does not ask to be scheduled again. -/
def oneShot : TimerCallbackFunction := fun _ due w => (false, due, w + 1)

/-- A counter that the first four reads find at 0 and all later reads at 130. -/
def dispatchClock : Nat → Nat := fun k => if k < 4 then 0 else 130

/-- Timers `1`, `2`, `3` pending for ticks 100, 150, 120 with the counter at 130; timer `1`
repeats every 100 ticks, timer `3` fires once, timer `2` has no callback. -/
def dispatchScenario : State :=
  (ScheduleCallbackFromIsr 6
    (ScheduleCallbackFromIsr 6
      (ScheduleCallbackFromIsr 6
        (SetCallback (SetCallback (initial dispatchClock (fun _ => rawTimer))
          1 (some everyHundred) 0) 3 (some oneShot) 0)
        1 100).2 2 150).2 3 120).2

/-- With the counter at 900, then 1000: schedule timer `1` for 1001, timer `2` for 1003,
timer `3` for 1002, then cancel timer `1`. -/
def lateCalls : List Call :=
  [Call.schedule 1 1001, Call.schedule 2 1003, Call.schedule 3 1002, Call.cancel 1]

/-- Timers `1`, `2`, `3` pending for ticks 100, 150, 120 with the counter at 130; timer `1`
fires once, the others have no callback. -/
def drainScenario : State :=
  (ScheduleCallbackFromIsr 6
    (ScheduleCallbackFromIsr 6
      (ScheduleCallbackFromIsr 6
        (SetCallback (initial dispatchClock (fun _ => rawTimer)) 1 (some oneShot) 0)
        1 100).2 2 150).2 3 120).2

/-- A callback that asks to be scheduled again and leaves the due tick as it is. -/
def stubborn : TimerCallbackFunction := fun _ due w => (true, due, w)

/-- Timer `1` pending for tick 100 with the counter at 130, its callback `stubborn`. -/
def stuckScenario : State :=
  (ScheduleCallbackFromIsr 6
    (SetCallback (initial (fun k => if k < 2 then 0 else 130) (fun _ => rawTimer))
      1 (some stubborn) 0) 1 100).2

/-- A callback that asks to be scheduled again `2^31 + 1` ticks after its due tick. -/
def farAhead : TimerCallbackFunction := fun _ due w => (true, (due + (2 ^ 31 + 1)) % 2 ^ 32, w)

/-- Timers `1` and `2` pending for ticks 100 and 101 with the counter at 102; the callback of
timer `1` is `farAhead`, timer `2` fires once. -/
def starveScenario : State :=
  (ScheduleCallbackFromIsr 6
    (ScheduleCallbackFromIsr 6
      (SetCallback (SetCallback (initial (fun k => if k < 3 then 0 else 102)
        (fun _ => rawTimer)) 1 (some farAhead) 0) 2 (some oneShot) 0)
      1 100).2 2 101).2

/-- A callback that asks to be scheduled again for tick `100 + 2^31`. -/
def edgeJump : TimerCallbackFunction := fun _ _ w => (true, 100 + 2 ^ 31, w)

/-- Timers `1` and `2` pending for ticks 90 and 100 with the counter at `100 + 2^30`; the
callback of timer `1` is `edgeJump`. -/
def edgeScenario : State :=
  (ScheduleCallbackFromIsr 6
    (ScheduleCallbackFromIsr 6
      (SetCallback (initial (fun k => if k < 3 then 0 else 100 + 2 ^ 30) (fun _ => rawTimer))
        1 (some edgeJump) 0)
      1 90).2 2 100).2

/-- A counter that stands at `65534` at the first register read, advances by one tick per read
for ten reads, rolling over its low word after the second, and then stops. -/
def rolloverCounter : Nat → Nat := fun k => if k < 10 then 65534 + k else 65544

/-! ## Scenarios with callbacks that use the scheduler -/

/-- A function pointer that is not null and does nothing.  Where the effect of the call is
given by a `CallbackEffect`, only the null test looks at the stored pointer. -/
def someFunction : TimerCallbackFunction := fun _ due w => (false, due, w)

/-- A callback that, the first time it is called, schedules its own timer for tick 106 and
returns `false`; later calls do nothing. -/
def rearmOnce : CallbackEffect := fun tmr s =>
  if s.world = 0 then (false, (ScheduleCallbackFromIsr 6 { s with world := 1 } tmr 106).2)
  else (false, s)

/-- Timer `1`, with a callback, scheduled for tick 100 at tick 0; the next three reads find
the counter at 100 and the reads after them at 101. -/
def rearmScenario : State :=
  (ScheduleCallbackFromIsr 6
    (SetCallback
      (initial (fun k => if k < 2 then 0 else if k < 5 then 100 else 101) (fun _ => rawTimer))
      1 (some someFunction) 0) 1 100).2

/-- A callback that schedules timer `2` for tick 500 and returns `false`. -/
def chainCallback : CallbackEffect := fun _ s => (false, (ScheduleCallbackFromIsr 6 s 2 500).2)

/-- Timer `1`, with a callback, scheduled for tick 100 at tick 0, with the counter at 100
from then on. -/
def chainScenario : State :=
  (ScheduleCallbackFromIsr 6
    (SetCallback (initial (fun k => if k < 2 then 0 else 100) (fun _ => rawTimer))
      1 (some someFunction) 0) 1 100).2

/-- A callback that cancels timer `3` and returns `false`. -/
def cancelThird : CallbackEffect := fun _ s => (false, CancelCallbackFromIsr s 3)

/-- Timers `1`, `2`, `3` pending for ticks 100, 150, 120 with the counter at 130; timer `1` has
a callback. -/
def cancelScenario : State :=
  (ScheduleCallbackFromIsr 6
    (ScheduleCallbackFromIsr 6
      (ScheduleCallbackFromIsr 6
        (SetCallback (initial dispatchClock (fun _ => rawTimer)) 1 (some someFunction) 0)
        1 100).2 2 150).2 3 120).2

/-- Timers `1` and `2`, which fire once, pending for ticks 100 and 110; the next read finds the
counter at 100 and the reads after it at 120. -/
def creepScenario : State :=
  (ScheduleCallbackFromIsr 6
    (ScheduleCallbackFromIsr 6
      (SetCallback (SetCallback
        (initial (fun k => if k < 3 then 0 else if k < 4 then 100 else 120) (fun _ => rawTimer))
        1 (some oneShot) 0) 2 (some oneShot) 0)
      1 100).2 2 110).2

/-- A callback that schedules its own timer for tick 200 and returns `false`. -/
def selfScheduling : CallbackEffect := fun tmr s =>
  (false, (ScheduleCallbackFromIsr 6 s tmr 200).2)

/-- Timers `1` and `2` pending for ticks 100 and 150 with the counter at 130; timer `1` has a
callback. -/
def selfScenario : State :=
  (ScheduleCallbackFromIsr 6
    (ScheduleCallbackFromIsr 6
      (SetCallback (initial (fun k => if k < 3 then 0 else 130) (fun _ => rawTimer))
        1 (some someFunction) 0)
      1 100).2 2 150).2

/-- A callback that asks to be scheduled again 100 ticks after its due tick the first time it
is called, and returns `false` after that. -/
def onceMore : TimerCallbackFunction := fun _ due w =>
  if w = 0 then (true, (due + 100) % 2 ^ 32, 1) else (false, due, w)

/-- Timer `1`, with the callback `onceMore`, pending for tick 100; the next read finds the
counter at 130 and the reads after it at 250. -/
def overtakenScenario : State :=
  (ScheduleCallbackFromIsr 6
    (SetCallback
      (initial (fun k => if k < 2 then 0 else if k < 3 then 130 else 250) (fun _ => rawTimer))
      1 (some onceMore) 0) 1 100).2

/-- The callback of timer `1` stores 200 through the reference and returns `true`; the
callback of any other timer cancels timer `1` and returns `false`. -/
def cancelPeer : CallbackEffect := fun tmr s =>
  if tmr = 1 then (true, s.setWhenDue 1 200) else (false, CancelCallbackFromIsr s 1)

/-- Timers `1` and `2`, both with a callback, pending for ticks 100 and 101 with the counter
at 130. -/
def peerScenario : State :=
  (ScheduleCallbackFromIsr 6
    (ScheduleCallbackFromIsr 6
      (SetCallback (SetCallback (initial (fun k => if k < 3 then 0 else 130)
        (fun _ => rawTimer)) 1 (some someFunction) 0) 2 (some someFunction) 0)
      1 100).2 2 101).2

/-- Timers `1`, `2`, `3` pending for ticks 100, 150, 120; timers `1` and `3` repeat every 100
ticks, timer `2` has no callback.  The next read finds the counter at 130 and every read
after it finds it one tick further. -/
def repeatScenario : State :=
  (ScheduleCallbackFromIsr 6
    (ScheduleCallbackFromIsr 6
      (ScheduleCallbackFromIsr 6
        (SetCallback (SetCallback
          (initial (fun k => if k < 4 then 0 else 126 + k) (fun _ => rawTimer))
          1 (some everyHundred) 0) 3 (some everyHundred) 0)
        1 100).2 2 150).2 3 120).2

/-! ## Tick arithmetic lemmas -/

theorem toInt32_of_lt {x : Nat} (h : x < 2 ^ 31) : toInt32 x = (x : Int) := by
  unfold toInt32
  have h1 : x % 2 ^ 32 = x := Nat.mod_eq_of_lt (by omega)
  rw [h1, if_pos h]

theorem sdiff_add_of_lt {now off : Nat} (hoff : off < 2 ^ 31) :
    sdiff ((now + off) % 2 ^ 32) now = (off : Int) := by
  unfold sdiff toInt32 sub32
  split_ifs <;> omega

theorem sdiff_bounds (a b : Nat) : -(2 ^ 31 : Int) ≤ sdiff a b ∧ sdiff a b < 2 ^ 31 := by
  unfold sdiff toInt32 sub32
  split_ifs <;> omega

/-! ## The pending list as a list -/

theorem unlink_eq (this : Nat) (l : List Nat) :
    unlink this l = if this ∈ l then some (l.erase this) else none := by
  induction l with
  | nil => simp [unlink]
  | cons x xs ih =>
    by_cases hx : x = this
    · subst hx; simp [unlink]
    · have hx2 : ¬ this = x := fun h => hx h.symm
      by_cases hm : this ∈ xs
      · simp [unlink, hx, hx2, ih, hm, List.erase_cons_tail]
      · simp [unlink, hx, hx2, ih, hm]

theorem linkAfterWalk_eq (advance : Nat → Bool) (this : Nat) (l : List Nat) :
    linkAfterWalk advance this l = l.takeWhile advance ++ this :: l.dropWhile advance := by
  induction l with
  | nil => simp [linkAfterWalk]
  | cons x xs ih =>
    by_cases hx : advance x = true
    · simp [linkAfterWalk, hx, ih, List.takeWhile_cons, List.dropWhile_cons]
    · simp [linkAfterWalk, hx, List.takeWhile_cons, List.dropWhile_cons]

theorem linkAfterWalk_perm (advance : Nat → Bool) (this : Nat) (l : List Nat) :
    (linkAfterWalk advance this l).Perm (this :: l) := by
  rw [linkAfterWalk_eq]
  have h := List.takeWhile_append_dropWhile advance l
  calc (l.takeWhile advance ++ this :: l.dropWhile advance).Perm
        (this :: (l.takeWhile advance ++ l.dropWhile advance)) := List.perm_middle
    _ = this :: l := by rw [h]

theorem mem_linkAfterWalk (advance : Nat → Bool) (this x : Nat) (l : List Nat) :
    x ∈ linkAfterWalk advance this l ↔ x = this ∨ x ∈ l := by
  rw [(linkAfterWalk_perm advance this l).mem_iff]; simp

theorem erase_linkAfterWalk (advance : Nat → Bool) (this : Nat) (l : List Nat)
    (h : this ∉ l) : (linkAfterWalk advance this l).erase this = l := by
  induction l with
  | nil => simp [linkAfterWalk]
  | cons x xs ih =>
    have hx : ¬ x = this := fun e => h (by simp [e])
    have hxs : this ∉ xs := fun e => h (by simp [e])
    by_cases ha : advance x = true
    · simp [linkAfterWalk, ha, List.erase_cons_tail, hx, ih hxs]
    · simp [linkAfterWalk, ha]

/-! ## Field access after a store -/

@[simp] theorem setActive_pendingList (s : State) (x : Nat) (b : Bool) :
    (s.setActive x b).pendingList = s.pendingList := rfl
@[simp] theorem setActive_tcCV (s : State) (x : Nat) (b : Bool) :
    (s.setActive x b).tcCV = s.tcCV := rfl
@[simp] theorem setActive_reads (s : State) (x : Nat) (b : Bool) :
    (s.setActive x b).reads = s.reads := rfl
@[simp] theorem setActive_tcRB (s : State) (x : Nat) (b : Bool) :
    (s.setActive x b).tcRB = s.tcRB := rfl
@[simp] theorem setActive_cpbsEnabled (s : State) (x : Nat) (b : Bool) :
    (s.setActive x b).cpbsEnabled = s.cpbsEnabled := rfl
@[simp] theorem setActive_basePri (s : State) (x : Nat) (b : Bool) :
    (s.setActive x b).basePri = s.basePri := rfl
@[simp] theorem setActive_world (s : State) (x : Nat) (b : Bool) :
    (s.setActive x b).world = s.world := rfl
@[simp] theorem setActive_calls (s : State) (x : Nat) (b : Bool) :
    (s.setActive x b).calls = s.calls := rfl
@[simp] theorem setActive_timers_self (s : State) (x : Nat) (b : Bool) :
    (s.setActive x b).timers x = { s.timers x with active := b } := by
  simp [State.setActive]
@[simp] theorem setActive_timers_ne (s : State) {x y : Nat} (b : Bool) (h : y ≠ x) :
    (s.setActive x b).timers y = s.timers y := by
  simp [State.setActive, Function.update, h]
@[simp] theorem setActive_due (s : State) (x y : Nat) (b : Bool) :
    (s.setActive x b).due y = s.due y := by
  by_cases h : y = x
  · subst h; simp [State.due]
  · simp [State.due, h]

@[simp] theorem setWhenDue_pendingList (s : State) (x : Nat) (w : Nat) :
    (s.setWhenDue x w).pendingList = s.pendingList := rfl
@[simp] theorem setWhenDue_tcCV (s : State) (x : Nat) (w : Nat) :
    (s.setWhenDue x w).tcCV = s.tcCV := rfl
@[simp] theorem setWhenDue_reads (s : State) (x : Nat) (w : Nat) :
    (s.setWhenDue x w).reads = s.reads := rfl
@[simp] theorem setWhenDue_tcRB (s : State) (x : Nat) (w : Nat) :
    (s.setWhenDue x w).tcRB = s.tcRB := rfl
@[simp] theorem setWhenDue_cpbsEnabled (s : State) (x : Nat) (w : Nat) :
    (s.setWhenDue x w).cpbsEnabled = s.cpbsEnabled := rfl
@[simp] theorem setWhenDue_basePri (s : State) (x : Nat) (w : Nat) :
    (s.setWhenDue x w).basePri = s.basePri := rfl
@[simp] theorem setWhenDue_world (s : State) (x : Nat) (w : Nat) :
    (s.setWhenDue x w).world = s.world := rfl
@[simp] theorem setWhenDue_calls (s : State) (x : Nat) (w : Nat) :
    (s.setWhenDue x w).calls = s.calls := rfl
@[simp] theorem setWhenDue_timers_self (s : State) (x : Nat) (w : Nat) :
    (s.setWhenDue x w).timers x = { s.timers x with whenDue := w } := by
  simp [State.setWhenDue]
@[simp] theorem setWhenDue_timers_ne (s : State) {x y : Nat} (w : Nat) (h : y ≠ x) :
    (s.setWhenDue x w).timers y = s.timers y := by
  simp [State.setWhenDue, Function.update, h]
@[simp] theorem setWhenDue_due_self (s : State) (x : Nat) (w : Nat) :
    (s.setWhenDue x w).due x = w := by
  simp [State.due]
@[simp] theorem setWhenDue_due_ne (s : State) {x y : Nat} (w : Nat) (h : y ≠ x) :
    (s.setWhenDue x w).due y = s.due y := by
  simp [State.due, h]

/-! ## Cancel -/

theorem cancel_of_not_mem (s : State) (this : Nat) (h : this ∉ s.pendingList) :
    CancelCallbackFromIsr s this = s := by
  simp [CancelCallbackFromIsr, unlink_eq, h]

theorem cancel_of_mem (s : State) (this : Nat) (h : this ∈ s.pendingList) :
    CancelCallbackFromIsr s this =
      ({ s with pendingList := s.pendingList.erase this }).setActive this false := by
  simp [CancelCallbackFromIsr, unlink_eq, h]

theorem cancel_pendingList (s : State) (this : Nat) :
    (CancelCallbackFromIsr s this).pendingList = s.pendingList.erase this := by
  by_cases h : this ∈ s.pendingList
  · rw [cancel_of_mem s this h]; rfl
  · rw [cancel_of_not_mem s this h, List.erase_of_not_mem h]

theorem cancel_timers_ne (s : State) {this x : Nat} (h : x ≠ this) :
    (CancelCallbackFromIsr s this).timers x = s.timers x := by
  by_cases hm : this ∈ s.pendingList
  · rw [cancel_of_mem s this hm]; simp [h]
  · rw [cancel_of_not_mem s this hm]

theorem cancel_due (s : State) (this x : Nat) :
    (CancelCallbackFromIsr s this).due x = s.due x := by
  by_cases hm : this ∈ s.pendingList
  · rw [cancel_of_mem s this hm]; simp [State.due]
    by_cases h : x = this
    · subst h; simp
    · simp [h]
  · rw [cancel_of_not_mem s this hm]

theorem cancel_active_self (s : State) (this : Nat) (h : this ∈ s.pendingList) :
    ((CancelCallbackFromIsr s this).timers this).active = false := by
  rw [cancel_of_mem s this h]; simp

theorem cancel_membershipInv (s : State) (this : Nat) (h : MembershipInv s) :
    MembershipInv (CancelCallbackFromIsr s this) := by
  by_cases hm : this ∈ s.pendingList
  · rw [cancel_of_mem s this hm]
    refine ⟨h.1.erase this, fun x => ?_⟩
    by_cases hx : x = this
    · subst hx
      simp [h.1.not_mem_erase]
    · simp [hx, h.2 x, List.mem_erase_of_ne hx]
  · rw [cancel_of_not_mem s this hm]; exact h

/-! ## Schedule -/

theorem prior_schedule_removed (s : State) (this : Nat) (h : MembershipInv s) :
    (if (s.timers this).active then CancelCallbackFromIsr s this else s) =
      CancelCallbackFromIsr s this := by
  by_cases ha : (s.timers this).active = true
  · simp [ha]
  · have hm : this ∉ s.pendingList := fun hm => ha ((h.2 this).2 hm)
    simp [ha, cancel_of_not_mem s this hm]

theorem cancel_reads (s : State) (this : Nat) : (CancelCallbackFromIsr s this).reads = s.reads := by
  by_cases hm : this ∈ s.pendingList
  · rw [cancel_of_mem s this hm]; rfl
  · rw [cancel_of_not_mem s this hm]

theorem cancel_tcCV (s : State) (this : Nat) : (CancelCallbackFromIsr s this).tcCV = s.tcCV := by
  by_cases hm : this ∈ s.pendingList
  · rw [cancel_of_mem s this hm]; rfl
  · rw [cancel_of_not_mem s this hm]

theorem cancel_tcRB (s : State) (this : Nat) : (CancelCallbackFromIsr s this).tcRB = s.tcRB := by
  by_cases hm : this ∈ s.pendingList
  · rw [cancel_of_mem s this hm]; rfl
  · rw [cancel_of_not_mem s this hm]

theorem cancel_cpbsEnabled (s : State) (this : Nat) :
    (CancelCallbackFromIsr s this).cpbsEnabled = s.cpbsEnabled := by
  by_cases hm : this ∈ s.pendingList
  · rw [cancel_of_mem s this hm]; rfl
  · rw [cancel_of_not_mem s this hm]

/-- Under the membership invariant `ScheduleCallbackFromIsr` has three outcomes, told apart by
the head test and the arm check. -/
theorem schedule_eq (mii : Nat) (s : State) (this when : Nat) (h : MembershipInv s) :
    ScheduleCallbackFromIsr mii s this when =
      (if dueBeforeHead ((CancelCallbackFromIsr s this).setWhenDue this when)
            (sdiff when (s.tick 0)) (s.tick 0) then
         if sdiff when (s.tick 1) < toInt32 mii then
           (true, { (CancelCallbackFromIsr s this).setWhenDue this when with
                      reads := s.reads + 2 })
         else
           (false, ({ (CancelCallbackFromIsr s this).setWhenDue this when with
                        reads := s.reads + 2, tcRB := when, cpbsEnabled := true,
                        pendingList := this :: (CancelCallbackFromIsr s this).pendingList
                     }).setActive this true)
       else
         (false, ({ (CancelCallbackFromIsr s this).setWhenDue this when with
                      reads := s.reads + 1,
                      pendingList := linkAfterWalk
                        (fun x => decide (sdiff
                          (((CancelCallbackFromIsr s this).setWhenDue this when).due x)
                          (s.tick 0) < sdiff when (s.tick 0)))
                        this (CancelCallbackFromIsr s this).pendingList
                    }).setActive this true)) := by
  have hr := cancel_reads s this
  have ht := cancel_tcCV s this
  have e0 : s.tcCV s.reads % 2 ^ 32 = s.tick 0 := rfl
  have e1 : s.tcCV (s.reads + 1) % 2 ^ 32 = s.tick 1 := rfl
  unfold ScheduleCallbackFromIsr
  rw [prior_schedule_removed s this h]
  have e : ∀ (c : State) (a : Int) (n : Nat),
      dueBeforeHead (GetTimerTicks c).2 a n = dueBeforeHead c a n := fun _ _ _ => rfl
  simp only [e]
  simp only [GetTimerTicks, setWhenDue_tcCV, setWhenDue_reads, hr, ht, e0]
  by_cases h1 : dueBeforeHead ((CancelCallbackFromIsr s this).setWhenDue this when)
            (sdiff when (s.tick 0)) (s.tick 0) = true
  · rw [if_pos h1, if_pos h1]
    by_cases h2 : sdiff when (s.tick 1) < toInt32 mii
    · simp only [ScheduleTimerInterrupt, GetTimerTicks, e1, h2, if_true]
    · simp only [ScheduleTimerInterrupt, GetTimerTicks, e1, h2, if_false]
      rfl
  · rw [if_neg h1, if_neg h1]
    rfl

theorem cancel_active_of_inv (s : State) (this : Nat) (h : MembershipInv s) :
    ((CancelCallbackFromIsr s this).timers this).active = false := by
  by_cases hm : this ∈ s.pendingList
  · exact cancel_active_self s this hm
  · rw [cancel_of_not_mem s this hm]
    by_contra ha
    exact hm ((h.2 this).1 (by simpa using ha))

theorem not_mem_erase_of_inv (s : State) (this : Nat) (h : MembershipInv s) :
    this ∉ s.pendingList.erase this := h.1.not_mem_erase

theorem prepared_due_ne (s : State) {this x : Nat} (when : Nat) (hx : x ≠ this) :
    ((CancelCallbackFromIsr s this).setWhenDue this when).due x = s.due x := by
  rw [setWhenDue_due_ne _ _ hx, cancel_due]

theorem dueBeforeHead_iff (s : State) (a : Int) (now : Nat) :
    dueBeforeHead s a now = true ↔
      (s.pendingList = [] ∨ ∃ h, s.pendingList.head? = some h ∧ a < sdiff (s.due h) now) := by
  unfold dueBeforeHead
  cases hl : s.pendingList with
  | nil => simp
  | cons x xs => simp

theorem dueBeforeHead_prepared (s : State) (this when : Nat) (a : Int) (now : Nat)
    (h : MembershipInv s) :
    dueBeforeHead ((CancelCallbackFromIsr s this).setWhenDue this when) a now = true ↔
      (s.pendingList.erase this = [] ∨
        ∃ x, (s.pendingList.erase this).head? = some x ∧ a < sdiff (s.due x) now) := by
  rw [dueBeforeHead_iff, setWhenDue_pendingList, cancel_pendingList]
  constructor
  · rintro (h0 | ⟨x, hx, hlt⟩)
    · exact Or.inl h0
    · have hxm : x ∈ s.pendingList.erase this := List.mem_of_mem_head? hx
      have hne : x ≠ this := fun e => not_mem_erase_of_inv s this h (e ▸ hxm)
      rw [prepared_due_ne s when hne] at hlt
      exact Or.inr ⟨x, hx, hlt⟩
  · rintro (h0 | ⟨x, hx, hlt⟩)
    · exact Or.inl h0
    · have hxm : x ∈ s.pendingList.erase this := List.mem_of_mem_head? hx
      have hne : x ≠ this := fun e => not_mem_erase_of_inv s this h (e ▸ hxm)
      refine Or.inr ⟨x, hx, ?_⟩
      rw [prepared_due_ne s when hne]; exact hlt

theorem linkAfterWalk_congr {p q : Nat → Bool} (this : Nat) (l : List Nat)
    (h : ∀ x ∈ l, p x = q x) : linkAfterWalk p this l = linkAfterWalk q this l := by
  induction l with
  | nil => rfl
  | cons x xs ih =>
    have hx := h x (by simp)
    have hxs := ih (fun y hy => h y (by simp [hy]))
    simp [linkAfterWalk, hx, hxs]

/-- The pending list that `ScheduleCallbackFromIsr` leaves behind. -/
theorem schedule_pendingList (mii : Nat) (s : State) (this when : Nat) (h : MembershipInv s) :
    (ScheduleCallbackFromIsr mii s this when).2.pendingList =
      (if dueBeforeHead ((CancelCallbackFromIsr s this).setWhenDue this when)
            (sdiff when (s.tick 0)) (s.tick 0) then
         if sdiff when (s.tick 1) < toInt32 mii then
           s.pendingList.erase this
         else this :: s.pendingList.erase this
       else linkAfterWalk
          (fun x => decide (sdiff (s.due x) (s.tick 0)
            < sdiff when (s.tick 0))) this (s.pendingList.erase this)) := by
  rw [schedule_eq mii s this when h]
  split_ifs
  · simp [cancel_pendingList]
  · simp [cancel_pendingList]
  · simp only [setActive_pendingList, cancel_pendingList]
    apply linkAfterWalk_congr
    intro x hx
    have hne : x ≠ this := fun e => not_mem_erase_of_inv s this h (e ▸ hx)
    rw [prepared_due_ne s when hne]

/-- The result of `ScheduleCallbackFromIsr`. -/
theorem schedule_result (mii : Nat) (s : State) (this when : Nat) (h : MembershipInv s) :
    (ScheduleCallbackFromIsr mii s this when).1 =
      (dueBeforeHead ((CancelCallbackFromIsr s this).setWhenDue this when)
            (sdiff when (s.tick 0)) (s.tick 0) &&
        decide (sdiff when (s.tick 1) < toInt32 mii)) := by
  rw [schedule_eq mii s this when h]
  split_ifs with h1 h2 <;> simp [*]

/-- The timer objects that `ScheduleCallbackFromIsr` leaves behind. -/
theorem schedule_timers_ne (mii : Nat) (s : State) (this when : Nat) (h : MembershipInv s)
    {x : Nat} (hx : x ≠ this) :
    (ScheduleCallbackFromIsr mii s this when).2.timers x = s.timers x := by
  rw [schedule_eq mii s this when h]
  split_ifs
  · show ((CancelCallbackFromIsr s this).setWhenDue this when).timers x = _
    rw [setWhenDue_timers_ne _ _ hx, cancel_timers_ne s hx]
  · rw [setActive_timers_ne _ _ hx]
    show ((CancelCallbackFromIsr s this).setWhenDue this when).timers x = _
    rw [setWhenDue_timers_ne _ _ hx, cancel_timers_ne s hx]
  · rw [setActive_timers_ne _ _ hx]
    show ((CancelCallbackFromIsr s this).setWhenDue this when).timers x = _
    rw [setWhenDue_timers_ne _ _ hx, cancel_timers_ne s hx]

theorem schedule_whenDue_self (mii : Nat) (s : State) (this when : Nat) (h : MembershipInv s) :
    ((ScheduleCallbackFromIsr mii s this when).2.timers this).whenDue = when := by
  rw [schedule_eq mii s this when h]
  split_ifs
  · show (((CancelCallbackFromIsr s this).setWhenDue this when).timers this).whenDue = _
    simp
  · rw [setActive_timers_self]
    show (((CancelCallbackFromIsr s this).setWhenDue this when).timers this).whenDue = _
    simp
  · rw [setActive_timers_self]
    show (((CancelCallbackFromIsr s this).setWhenDue this when).timers this).whenDue = _
    simp

theorem schedule_active_self (mii : Nat) (s : State) (this when : Nat) (h : MembershipInv s) :
    ((ScheduleCallbackFromIsr mii s this when).2.timers this).active =
      !(ScheduleCallbackFromIsr mii s this when).1 := by
  rw [schedule_eq mii s this when h]
  split_ifs
  · show (((CancelCallbackFromIsr s this).setWhenDue this when).timers this).active = _
    simp [cancel_active_of_inv s this h]
  · simp
  · simp

theorem schedule_due_ne (mii : Nat) (s : State) (this when : Nat) (h : MembershipInv s)
    {x : Nat} (hx : x ≠ this) :
    (ScheduleCallbackFromIsr mii s this when).2.due x = s.due x := by
  simp [State.due, schedule_timers_ne mii s this when h hx]

theorem schedule_due_self (mii : Nat) (s : State) (this when : Nat) (h : MembershipInv s) :
    (ScheduleCallbackFromIsr mii s this when).2.due this = when :=
  schedule_whenDue_self mii s this when h

theorem schedule_mem_iff (mii : Nat) (s : State) (this when : Nat) (h : MembershipInv s)
    (x : Nat) :
    x ∈ (ScheduleCallbackFromIsr mii s this when).2.pendingList ↔
      (x = this ∧ (ScheduleCallbackFromIsr mii s this when).1 = false) ∨
        (x ≠ this ∧ x ∈ s.pendingList) := by
  have hn := not_mem_erase_of_inv s this h
  rw [schedule_pendingList mii s this when h, schedule_result mii s this when h]
  by_cases hx : x = this
  · subst hx
    split_ifs with h1 h2 <;> simp [*, hn, mem_linkAfterWalk]
  · split_ifs with h1 h2 <;>
      simp [*, hx, mem_linkAfterWalk, List.mem_erase_of_ne hx]

theorem schedule_nodup (mii : Nat) (s : State) (this when : Nat) (h : MembershipInv s) :
    (ScheduleCallbackFromIsr mii s this when).2.pendingList.Nodup := by
  have hn := not_mem_erase_of_inv s this h
  have hd : (s.pendingList.erase this).Nodup := h.1.erase this
  rw [schedule_pendingList mii s this when h]
  split_ifs
  · exact hd
  · exact List.nodup_cons.2 ⟨hn, hd⟩
  · exact (linkAfterWalk_perm _ this _).nodup_iff.2 (List.nodup_cons.2 ⟨hn, hd⟩)

theorem schedule_membershipInv (mii : Nat) (s : State) (this when : Nat)
    (h : MembershipInv s) :
    MembershipInv (ScheduleCallbackFromIsr mii s this when).2 := by
  refine ⟨schedule_nodup mii s this when h, fun x => ?_⟩
  rw [schedule_mem_iff mii s this when h x]
  by_cases hx : x = this
  · subst hx
    rw [schedule_active_self mii s x when h]
    cases (ScheduleCallbackFromIsr mii s x when).1 <;> simp
  · rw [schedule_timers_ne mii s this when h hx, h.2 x]
    simp [hx]

theorem initial_membershipInv (tcCV : Nat → Nat) (timers : Nat → Timer) :
    MembershipInv (initial tcCV timers) := by
  refine ⟨List.nodup_nil, fun x => ?_⟩
  simp [initial, Timer.construct]

theorem scenarioABC_membershipInv : MembershipInv scenarioABC :=
  schedule_membershipInv 6 _ 3 120
    (schedule_membershipInv 6 _ 2 150
      (schedule_membershipInv 6 _ 1 100 (initial_membershipInv _ _)))

theorem arm_result (mii : Nat) (s : State) (tim : Nat) :
    (ScheduleTimerInterrupt mii s tim).1 = decide (sdiff tim (s.tick 0) < toInt32 mii) := by
  have e0 : s.tcCV s.reads % 2 ^ 32 = s.tick 0 := rfl
  unfold ScheduleTimerInterrupt
  simp only [GetTimerTicks, e0]
  split_ifs with h <;> simp [h]

theorem schedule_list_of_true (mii : Nat) (s : State) (this when : Nat)
    (h : MembershipInv s) (ht : (ScheduleCallbackFromIsr mii s this when).1 = true) :
    (ScheduleCallbackFromIsr mii s this when).2.pendingList = s.pendingList.erase this := by
  rw [schedule_result mii s this when h, Bool.and_eq_true, decide_eq_true_iff] at ht
  rw [schedule_pendingList mii s this when h, if_pos ht.1, if_pos ht.2]

theorem schedule_perm_of_false (mii : Nat) (s : State) (this when : Nat)
    (h : MembershipInv s) (hf : (ScheduleCallbackFromIsr mii s this when).1 = false) :
    (ScheduleCallbackFromIsr mii s this when).2.pendingList.Perm
      (this :: s.pendingList.erase this) := by
  rw [schedule_result mii s this when h] at hf
  rw [schedule_pendingList mii s this when h]
  split_ifs with h1 h2
  · simp [h1, h2] at hf
  · exact List.Perm.refl _
  · exact linkAfterWalk_perm _ _ _

/-- Where `ScheduleCallbackFromIsr` links the timer when it returns `false`: behind a prefix
of timers that are all strictly sooner, in front of a timer that is not sooner. -/
theorem schedule_position (mii : Nat) (s : State) (this when : Nat) (hinv : MembershipInv s)
    (hf : (ScheduleCallbackFromIsr mii s this when).1 = false) :
    ∃ pre post, s.pendingList.erase this = pre ++ post ∧
      (ScheduleCallbackFromIsr mii s this when).2.pendingList = pre ++ this :: post ∧
      (∀ x ∈ pre, sdiff (s.due x) (s.tick 0) < sdiff when (s.tick 0)) ∧
      (∀ y, post.head? = some y → sdiff when (s.tick 0) ≤ sdiff (s.due y) (s.tick 0)) := by
  have hres := schedule_result mii s this when hinv
  rw [hf] at hres
  rw [schedule_pendingList mii s this when hinv]
  split_ifs with h1 h2
  · simp [h1, h2] at hres
  · refine ⟨[], s.pendingList.erase this, rfl, rfl, by simp, fun y hy => ?_⟩
    rcases (dueBeforeHead_prepared s this when _ _ hinv).1 h1 with h0 | ⟨x, hx, hlt⟩
    · rw [h0] at hy; simp at hy
    · rw [hx] at hy
      cases hy
      exact le_of_lt hlt
  · refine ⟨_, _, (List.takeWhile_append_dropWhile _ _).symm, linkAfterWalk_eq _ _ _,
      fun x hx => ?_, fun y hy => ?_⟩
    · simpa using List.mem_takeWhile_imp hx
    · have := List.head?_dropWhile_not
        (fun x => decide (sdiff (s.due x) (s.tick 0) < sdiff when (s.tick 0)))
        (s.pendingList.erase this)
      rw [hy] at this
      simpa using this

/-! ## The membership invariant -/

theorem membershipInv_congr {s s' : State} (ht : s'.timers = s.timers)
    (hl : s'.pendingList = s.pendingList) (h : MembershipInv s) : MembershipInv s' := by
  unfold MembershipInv
  rw [ht, hl]
  exact h

theorem arm_timers (mii : Nat) (s : State) (tim : Nat) :
    (ScheduleTimerInterrupt mii s tim).2.timers = s.timers := by
  simp only [ScheduleTimerInterrupt]
  split_ifs <;> rfl

theorem arm_pendingList (mii : Nat) (s : State) (tim : Nat) :
    (ScheduleTimerInterrupt mii s tim).2.pendingList = s.pendingList := by
  simp only [ScheduleTimerInterrupt]
  split_ifs <;> rfl

theorem setCallback_membershipInv (s : State) (this : Nat) (cb : Option TimerCallbackFunction)
    (param : Nat) (h : MembershipInv s) : MembershipInv (SetCallback s this cb param) := by
  refine ⟨h.1, fun x => ?_⟩
  show _ ↔ x ∈ s.pendingList
  rw [← h.2 x]
  by_cases hx : x = this
  · subst hx; simp [SetCallback]
  · simp [SetCallback, Function.update, hx]

theorem membershipInv_of_empty (s : State) (hl : s.pendingList = [])
    (ha : ∀ x, (s.timers x).active = false) : MembershipInv s := by
  refine ⟨by rw [hl]; exact List.nodup_nil, fun x => ?_⟩
  rw [hl, ha x]
  simp

/-- Popping the head of the pending list and clearing its active flag. -/
theorem membershipInv_pop (s : State) (tmr : Nat) (rest : List Nat)
    (hl : s.pendingList = tmr :: rest) (h : MembershipInv s) :
    MembershipInv (({ s with pendingList := rest }).setActive tmr false) := by
  have hnd : (tmr :: rest).Nodup := hl ▸ h.1
  have hn : tmr ∉ rest := (List.nodup_cons.1 hnd).1
  refine ⟨(List.nodup_cons.1 hnd).2, fun x => ?_⟩
  by_cases hx : x = tmr
  · subst hx; simp [hn]
  · have := h.2 x
    rw [hl] at this
    simp [hx, this]

/-- Storing a due tick does not affect membership. -/
theorem membershipInv_setWhenDue (s : State) (x w : Nat) (h : MembershipInv s) :
    MembershipInv (s.setWhenDue x w) := by
  refine ⟨h.1, fun y => ?_⟩
  rw [setWhenDue_pendingList, ← h.2 y]
  by_cases hy : y = x
  · subst hy; simp
  · simp [hy]

/-- Linking an unlinked timer somewhere in the list and setting its active flag. -/
theorem membershipInv_link (s : State) (tmr : Nat) (advance : Nat → Bool)
    (hn : tmr ∉ s.pendingList) (h : MembershipInv s) :
    MembershipInv (({ s with pendingList := linkAfterWalk advance tmr s.pendingList }).setActive
      tmr true) := by
  refine ⟨(linkAfterWalk_perm _ tmr _).nodup_iff.2 (List.nodup_cons.2 ⟨hn, h.1⟩), fun x => ?_⟩
  by_cases hx : x = tmr
  · subst hx; simp [mem_linkAfterWalk]
  · simp [hx, mem_linkAfterWalk, h.2 x]

theorem interruptBody_membershipInv (mii : Nat) (s : State) (h : MembershipInv s) :
    MembershipInv (InterruptBody mii s).1 := by
  unfold InterruptBody
  cases hl : s.pendingList with
  | nil => simpa using h
  | cons tmr rest =>
    have harm : MembershipInv (ScheduleTimerInterrupt mii s (s.due tmr)).2 :=
      membershipInv_congr (arm_timers mii s _) (arm_pendingList mii s _) h
    have hl2 : (ScheduleTimerInterrupt mii s (s.due tmr)).2.pendingList = tmr :: rest := by
      rw [arm_pendingList, hl]
    have hn : tmr ∉ rest := by
      have hnd : (tmr :: rest).Nodup := hl ▸ h.1
      exact (List.nodup_cons.1 hnd).1
    have hpop := membershipInv_pop _ tmr rest hl2 harm
    simp only
    split_ifs with hdue
    · exact harm
    · split
      · exact hpop
      · rename_i cb hcb
        split_ifs with hc
        · refine membershipInv_link _ tmr _ ?_ (membershipInv_setWhenDue _ _ _
            (membershipInv_congr rfl rfl hpop))
          exact hn
        · exact membershipInv_setWhenDue _ _ _ (membershipInv_congr rfl rfl hpop)

theorem interrupt_membershipInv (mii : Nat) (fuel : Nat) :
    ∀ (s s' : State), MembershipInv s → Interrupt mii fuel s = some s' → MembershipInv s' := by
  induction fuel with
  | zero => intro s s' _ h; simp [Interrupt] at h
  | succ n ih =>
    intro s s' hinv h
    simp only [Interrupt] at h
    have hb := interruptBody_membershipInv mii s hinv
    split_ifs at h with hc
    · exact ih _ _ hb h
    · cases h; exact hb

theorem dispatchScenario_membershipInv : MembershipInv dispatchScenario :=
  schedule_membershipInv 6 _ 3 120
    (schedule_membershipInv 6 _ 2 150
      (schedule_membershipInv 6 _ 1 100
        (setCallback_membershipInv _ _ _ _
          (setCallback_membershipInv _ _ _ _ (initial_membershipInv _ _)))))

/-! ## Sortedness -/

theorem sdiff_shift (d last now : Nat)
    (h1 : -(2 ^ 31 : Int) ≤ sdiff d last - sdiff now last)
    (h2 : sdiff d last - sdiff now last < 2 ^ 31) :
    sdiff d now = sdiff d last - sdiff now last := by
  unfold sdiff toInt32 sub32 at *
  split_ifs at * <;> omega

/-- When `ScheduleCallbackFromIsr` returns `false` the list it leaves is the result of the
ordering walk over the list without the timer, also when the timer became the new head. -/
theorem schedule_list_of_false (mii : Nat) (s : State) (this when : Nat)
    (hinv : MembershipInv s) (hf : (ScheduleCallbackFromIsr mii s this when).1 = false) :
    (ScheduleCallbackFromIsr mii s this when).2.pendingList =
      linkAfterWalk (fun x => decide (sdiff (s.due x) (s.tick 0) < sdiff when (s.tick 0)))
        this (s.pendingList.erase this) := by
  have hres := schedule_result mii s this when hinv
  rw [hf] at hres
  rw [schedule_pendingList mii s this when hinv]
  split_ifs with h1 h2
  · simp [h1, h2] at hres
  · rcases (dueBeforeHead_prepared s this when _ _ hinv).1 h1 with h0 | ⟨x, hx, hlt⟩
    · rw [h0]; rfl
    · cases hL : s.pendingList.erase this with
      | nil => rfl
      | cons y ys =>
        rw [hL] at hx
        simp only [List.head?_cons, Option.some.injEq] at hx
        subst hx
        have : ¬ sdiff (s.due y) (s.tick 0) < sdiff when (s.tick 0) := not_lt.2 (le_of_lt hlt)
        simp [linkAfterWalk, this]
  · rfl

/-- Linking a key into a list sorted by key, behind a prefix of smaller keys and in front of
a key that is not smaller, gives a sorted list. -/
theorem pairwise_link (k : Nat → Int) (this : Nat) (pre post : List Nat)
    (hs : (pre ++ post).Pairwise (fun a b => k a ≤ k b))
    (hpre : ∀ x ∈ pre, k x < k this)
    (hpost : ∀ y, post.head? = some y → k this ≤ k y) :
    (pre ++ this :: post).Pairwise (fun a b => k a ≤ k b) := by
  rw [List.pairwise_append] at hs ⊢
  obtain ⟨h1, h2, h3⟩ := hs
  have hall : ∀ y ∈ post, k this ≤ k y := by
    cases post with
    | nil => intro y hy; simp at hy
    | cons z zs =>
      intro y hy
      have hz := hpost z rfl
      rcases List.mem_cons.1 hy with e | hm
      · rw [e]; exact hz
      · exact le_trans hz (List.rel_of_pairwise_cons h2 hm)
  refine ⟨h1, List.pairwise_cons.2 ⟨hall, h2⟩, fun a ha b hb => ?_⟩
  rcases List.mem_cons.1 hb with e | hm
  · rw [e]; exact le_of_lt (hpre a ha)
  · exact h3 a ha b hm

theorem cancel_sortedAt (s : State) (this now : Nat) (h : SortedAt s now) :
    SortedAt (CancelCallbackFromIsr s this) now := by
  unfold SortedAt at *
  rw [cancel_pendingList]
  simp only [cancel_due]
  exact h.sublist (List.erase_sublist _ _)

/-- One schedule call keeps the list sorted relative to the tick it reads, provided the list
without the timer is sorted relative to that tick. -/
theorem schedule_sortedAt_of_erase (mii : Nat) (s : State) (this when : Nat)
    (hinv : MembershipInv s)
    (hs : (s.pendingList.erase this).Pairwise
      (fun a b => sdiff (s.due a) (s.tick 0) ≤ sdiff (s.due b) (s.tick 0))) :
    SortedAt (ScheduleCallbackFromIsr mii s this when).2 (s.tick 0) := by
  have hn := not_mem_erase_of_inv s this hinv
  unfold SortedAt
  cases hr : (ScheduleCallbackFromIsr mii s this when).1 with
  | true =>
    rw [schedule_list_of_true mii s this when hinv hr]
    refine hs.imp_of_mem ?_
    intro a b ha hb hab
    have hane : a ≠ this := fun e => hn (e ▸ ha)
    have hbne : b ≠ this := fun e => hn (e ▸ hb)
    rw [schedule_due_ne mii s this when hinv hane, schedule_due_ne mii s this when hinv hbne]
    exact hab
  | false =>
    obtain ⟨pre, post, h1, h2, h3, h4⟩ := schedule_position mii s this when hinv hr
    rw [h2]
    rw [h1] at hs hn
    have hpre_ne : ∀ x ∈ pre, x ≠ this := fun x hx e => hn (by simp [← e, hx])
    have hpost_ne : ∀ x ∈ post, x ≠ this := fun x hx e => hn (by simp [← e, hx])
    apply pairwise_link (fun x => sdiff ((ScheduleCallbackFromIsr mii s this when).2.due x)
      (s.tick 0)) this pre post
    · refine hs.imp_of_mem ?_
      intro a b ha hb hab
      have hane : a ≠ this := by
        rcases List.mem_append.1 ha with h | h
        · exact hpre_ne a h
        · exact hpost_ne a h
      have hbne : b ≠ this := by
        rcases List.mem_append.1 hb with h | h
        · exact hpre_ne b h
        · exact hpost_ne b h
      simp only [schedule_due_ne mii s this when hinv hane,
        schedule_due_ne mii s this when hinv hbne]
      exact hab
    · intro x hx
      simp only [schedule_due_ne mii s this when hinv (hpre_ne x hx),
        schedule_due_self mii s this when hinv]
      exact h3 x hx
    · intro y hy
      have hym : y ∈ post := List.mem_of_mem_head? hy
      simp only [schedule_due_ne mii s this when hinv (hpost_ne y hym),
        schedule_due_self mii s this when hinv]
      exact h4 y hy

theorem schedule_sortedAt (mii : Nat) (s : State) (this when : Nat)
    (hinv : MembershipInv s) (hs : SortedAt s (s.tick 0)) :
    SortedAt (ScheduleCallbackFromIsr mii s this when).2 (s.tick 0) :=
  schedule_sortedAt_of_erase mii s this when hinv (hs.sublist (List.erase_sublist _ _))

/-- Sortedness carries over from one snapshot of the clock to the next when no signed
difference wraps in between. -/
theorem erase_sorted_of_noWrap (s : State) (this last now : Nat) (hinv : MembershipInv s)
    (hs : SortedAt s last) (hw : NoWrap s this last now) :
    (s.pendingList.erase this).Pairwise
      (fun a b => sdiff (s.due a) now ≤ sdiff (s.due b) now) := by
  have hn := not_mem_erase_of_inv s this hinv
  have hsub : (s.pendingList.erase this).Pairwise
      (fun a b => sdiff (s.due a) last ≤ sdiff (s.due b) last) :=
    hs.sublist (List.erase_sublist _ _)
  refine hsub.imp_of_mem ?_
  intro a b ha hb hab
  have hane : a ≠ this := fun e => hn (e ▸ ha)
  have hbne : b ≠ this := fun e => hn (e ▸ hb)
  have hwa := hw a (List.mem_of_mem_erase ha) hane
  have hwb := hw b (List.mem_of_mem_erase hb) hbne
  rw [sdiff_shift _ _ _ hwa.1 hwa.2, sdiff_shift _ _ _ hwb.1 hwb.2]
  omega

theorem wrapFree_of_append (mii : Nat) (cs cs' : List Call) :
    ∀ (s : State) (last : Nat), WrapFree mii s last (cs ++ cs') → WrapFree mii s last cs := by
  induction cs with
  | nil => intro s last _; trivial
  | cons c cs ih =>
    intro s last h
    cases c with
    | schedule this when => exact ⟨h.1, ih _ _ h.2⟩
    | cancel this => exact ih _ _ h

theorem runCalls_sorted (mii : Nat) (cs : List Call) :
    ∀ (s : State) (last : Nat), MembershipInv s → SortedAt s last → WrapFree mii s last cs →
      MembershipInv (runCalls mii s last cs).1 ∧
        SortedAt (runCalls mii s last cs).1 (runCalls mii s last cs).2 := by
  induction cs with
  | nil => intro s last hinv hs _; exact ⟨hinv, hs⟩
  | cons c cs ih =>
    intro s last hinv hs hw
    cases c with
    | schedule this when =>
      exact ih _ _ (schedule_membershipInv mii s this when hinv)
        (schedule_sortedAt_of_erase mii s this when hinv
          (erase_sorted_of_noWrap s this last _ hinv hs hw.1)) hw.2
    | cancel this =>
      exact ih _ _ (cancel_membershipInv s this hinv) (cancel_sortedAt s this last hs) hw

/-! ## A clock that stands still -/

theorem schedule_tcCV (mii : Nat) (s : State) (this when : Nat) (h : MembershipInv s) :
    (ScheduleCallbackFromIsr mii s this when).2.tcCV = s.tcCV := by
  rw [schedule_eq mii s this when h]
  split_ifs
  · show ((CancelCallbackFromIsr s this).setWhenDue this when).tcCV = _
    rw [setWhenDue_tcCV, cancel_tcCV]
  · rw [setActive_tcCV]
    show ((CancelCallbackFromIsr s this).setWhenDue this when).tcCV = _
    rw [setWhenDue_tcCV, cancel_tcCV]
  · rw [setActive_tcCV]
    show ((CancelCallbackFromIsr s this).setWhenDue this when).tcCV = _
    rw [setWhenDue_tcCV, cancel_tcCV]

theorem schedule_reads (mii : Nat) (s : State) (this when : Nat) (h : MembershipInv s) :
    (ScheduleCallbackFromIsr mii s this when).2.reads = s.reads + 1 ∨
      (ScheduleCallbackFromIsr mii s this when).2.reads = s.reads + 2 := by
  rw [schedule_eq mii s this when h]
  split_ifs
  · exact Or.inr rfl
  · exact Or.inr rfl
  · exact Or.inl rfl

theorem schedule_frozen (mii : Nat) (s : State) (this when now : Nat) (h : MembershipInv s)
    (hc : ∀ k, s.tick k = now) : ∀ k, (ScheduleCallbackFromIsr mii s this when).2.tick k = now := by
  intro k
  unfold State.tick at *
  rw [schedule_tcCV mii s this when h]
  rcases schedule_reads mii s this when h with e | e
  · rw [e, Nat.add_assoc]; exact hc (1 + k)
  · rw [e, Nat.add_assoc]; exact hc (2 + k)

/-- A tick that is at least the minimum interval ahead at the arm check is never refused. -/
theorem schedule_false_of_far (mii : Nat) (s : State) (this when : Nat) (h : MembershipInv s)
    (hfar : toInt32 mii ≤ sdiff when (s.tick 1)) :
    (ScheduleCallbackFromIsr mii s this when).1 = false := by
  rw [schedule_result mii s this when h]
  have : ¬ sdiff when (s.tick 1) < toInt32 mii := not_lt.2 hfar
  simp [this]

/-! ## Positions in the list after the ordering walk -/

theorem link_behind_of_prefix (q : Nat → Bool) (this y : Nat) (pre suf : List Nat)
    (hpre : ∀ x ∈ pre, q x = true) (hy : q y = true) :
    ∃ l2 l3, linkAfterWalk q this (pre ++ y :: suf) = pre ++ y :: l2 ++ this :: l3 := by
  induction pre with
  | nil =>
    refine ⟨suf.takeWhile q, suf.dropWhile q, ?_⟩
    simp [linkAfterWalk, hy, linkAfterWalk_eq]
  | cons x xs ih =>
    obtain ⟨l2, l3, h⟩ := ih (fun z hz => hpre z (by simp [hz]))
    refine ⟨l2, l3, ?_⟩
    have hx := hpre x (by simp)
    simp [linkAfterWalk, hx, h]

theorem link_in_front_of (q : Nat → Bool) (this y : Nat) (l : List Nat)
    (hy : y ∈ l) (hq : q y = false) :
    ∃ l1 l2 l3, linkAfterWalk q this l = l1 ++ this :: l2 ++ y :: l3 := by
  have hsplit := List.takeWhile_append_dropWhile q l
  have hnt : y ∉ l.takeWhile q := fun hm => by
    have := List.mem_takeWhile_imp hm
    rw [hq] at this
    exact Bool.noConfusion this
  have hd : y ∈ l.dropWhile q := by
    rw [← hsplit, List.mem_append] at hy
    exact hy.resolve_left hnt
  obtain ⟨l2, l3, e⟩ := List.append_of_mem hd
  exact ⟨l.takeWhile q, l2, l3, by rw [linkAfterWalk_eq, e]; simp⟩

theorem erase_around (a b : Nat) (hab : a ≠ b) (pre suf : List Nat) :
    ∃ pre' suf', (pre ++ a :: suf).erase b = pre' ++ a :: suf' ∧ ∀ x ∈ pre', x ∈ pre := by
  by_cases hb : b ∈ pre
  · refine ⟨pre.erase b, suf, List.erase_append_left _ hb, fun x hx => List.mem_of_mem_erase hx⟩
  · refine ⟨pre, suf.erase b, ?_, fun x hx => hx⟩
    rw [List.erase_append_right _ hb, List.erase_cons_tail]
    simpa using hab

/-- Scheduling a timer for a tick `p` ahead and then another for a tick `d > p` ahead, with
the counter standing still: the second is linked behind the first. -/
theorem sooner_then_later (mii now : Nat) (s : State) (a b wa wb : Nat) (p d : Nat)
    (hinv : MembershipInv s) (hab : a ≠ b) (hclock : ∀ k, s.tick k = now)
    (hp : mii ≤ p) (hpd : p < d) (hd : d < 2 ^ 31)
    (hwa : sdiff wa now = p) (hwb : sdiff wb now = d) :
    (scheduleAll mii s [(a, wa), (b, wb)]).1 = [false, false] ∧
    ∃ l1 l2 l3, (scheduleAll mii s [(a, wa), (b, wb)]).2.pendingList
      = l1 ++ a :: l2 ++ b :: l3 := by
  have hmii : toInt32 mii = (mii : Int) := toInt32_of_lt (by omega)
  have hf1 : (ScheduleCallbackFromIsr mii s a wa).1 = false := by
    apply schedule_false_of_far mii s a wa hinv
    rw [hclock 1, hwa, hmii]; exact_mod_cast hp
  have hinv1 := schedule_membershipInv mii s a wa hinv
  have hc1 := schedule_frozen mii s a wa now hinv hclock
  have hf2 : (ScheduleCallbackFromIsr mii (ScheduleCallbackFromIsr mii s a wa).2 b wb).1
      = false := by
    apply schedule_false_of_far mii _ b wb hinv1
    rw [hc1 1, hwb, hmii]; exact_mod_cast (by omega : mii ≤ d)
  have hl1 := schedule_list_of_false mii s a wa hinv hf1
  have hl2 := schedule_list_of_false mii _ b wb hinv1 hf2
  rw [hclock 0, linkAfterWalk_eq] at hl1
  rw [hc1 0, hl1] at hl2
  obtain ⟨pre', suf', he, hsub⟩ := erase_around a b hab
    ((s.pendingList.erase a).takeWhile (fun x => decide (sdiff (s.due x) now < sdiff wa now)))
    ((s.pendingList.erase a).dropWhile (fun x => decide (sdiff (s.due x) now < sdiff wa now)))
  rw [he] at hl2
  have hn := not_mem_erase_of_inv s a hinv
  obtain ⟨l2, l3, hlink⟩ := link_behind_of_prefix
    (fun x => decide (sdiff ((ScheduleCallbackFromIsr mii s a wa).2.due x) now < sdiff wb now))
    b a pre' suf'
    (by
      intro x hx
      have hxT := hsub x hx
      have hq := List.mem_takeWhile_imp hxT
      have hxL := List.takeWhile_subset _ hxT
      have hne : x ≠ a := fun e => hn (e ▸ hxL)
      beta_reduce
      rw [schedule_due_ne mii s a wa hinv hne]
      simp only [decide_eq_true_eq] at hq ⊢
      rw [hwa] at hq
      rw [hwb]
      have : (p : Int) < d := by exact_mod_cast hpd
      exact lt_trans hq this)
    (by
      beta_reduce
      rw [schedule_due_self mii s a wa hinv, hwa, hwb]
      simpa using hpd)
  refine ⟨?_, pre', l2, l3, ?_⟩
  · simp [scheduleAll, hf1, hf2]
  · simp only [scheduleAll]
    rw [hl2, hlink]

/-- Scheduling a timer for a tick `d` ahead and then another for a tick `p < d` ahead, with
the counter standing still: the second is linked in front of the first. -/
theorem later_then_sooner (mii now : Nat) (s : State) (a b wa wb : Nat) (p d : Nat)
    (hinv : MembershipInv s) (hab : a ≠ b) (hclock : ∀ k, s.tick k = now)
    (hp : mii ≤ p) (hpd : p < d) (hd : d < 2 ^ 31)
    (hwa : sdiff wa now = p) (hwb : sdiff wb now = d) :
    (scheduleAll mii s [(b, wb), (a, wa)]).1 = [false, false] ∧
    ∃ l1 l2 l3, (scheduleAll mii s [(b, wb), (a, wa)]).2.pendingList
      = l1 ++ a :: l2 ++ b :: l3 := by
  have hmii : toInt32 mii = (mii : Int) := toInt32_of_lt (by omega)
  have hf1 : (ScheduleCallbackFromIsr mii s b wb).1 = false := by
    apply schedule_false_of_far mii s b wb hinv
    rw [hclock 1, hwb, hmii]; exact_mod_cast (by omega : mii ≤ d)
  have hinv1 := schedule_membershipInv mii s b wb hinv
  have hc1 := schedule_frozen mii s b wb now hinv hclock
  have hf2 : (ScheduleCallbackFromIsr mii (ScheduleCallbackFromIsr mii s b wb).2 a wa).1
      = false := by
    apply schedule_false_of_far mii _ a wa hinv1
    rw [hc1 1, hwa, hmii]; exact_mod_cast hp
  have hl2 := schedule_list_of_false mii _ a wa hinv1 hf2
  rw [hc1 0] at hl2
  have hbm : b ∈ (ScheduleCallbackFromIsr mii s b wb).2.pendingList.erase a :=
    (List.mem_erase_of_ne (Ne.symm hab)).2
      ((schedule_mem_iff mii s b wb hinv b).2 (Or.inl ⟨rfl, hf1⟩))
  obtain ⟨l1, l2, l3, hlink⟩ := link_in_front_of
    (fun x => decide (sdiff ((ScheduleCallbackFromIsr mii s b wb).2.due x) now < sdiff wa now))
    a b _ hbm
    (by
      beta_reduce
      rw [schedule_due_self mii s b wb hinv, hwa, hwb]
      simpa using le_of_lt hpd)
  refine ⟨?_, l1, l2, l3, ?_⟩
  · simp [scheduleAll, hf1, hf2]
  · simp only [scheduleAll]
    rw [hl2, hlink]

theorem eq_pair_of_split (a b : Nat) (l l1 l2 l3 : List Nat) (h : l = l1 ++ a :: l2 ++ b :: l3)
    (hlen : l.length = 2) : l = [a, b] := by
  subst h
  simp only [List.length_append, List.length_cons] at hlen
  have h1 : l1 = [] := List.length_eq_zero.1 (by omega)
  have h2 : l2 = [] := List.length_eq_zero.1 (by omega)
  have h3 : l3 = [] := List.length_eq_zero.1 (by omega)
  subst h1 h2 h3
  rfl

theorem scheduleAll_pair_length (mii : Nat) (s : State) (x y wx wy : Nat)
    (hinv : MembershipInv s) (hl : s.pendingList = [])
    (hf : (scheduleAll mii s [(x, wx), (y, wy)]).1 = [false, false]) (hxy : x ≠ y) :
    (scheduleAll mii s [(x, wx), (y, wy)]).2.pendingList.length = 2 := by
  simp only [scheduleAll, List.cons.injEq, and_true] at hf
  have h1 := schedule_perm_of_false mii s x wx hinv hf.1
  have hinv1 := schedule_membershipInv mii s x wx hinv
  have h2 := schedule_perm_of_false mii _ y wy hinv1 hf.2
  simp only [scheduleAll]
  rw [h2.length_eq, List.length_cons, (h1.erase y).length_eq, hl]
  simp [List.erase_cons_tail, hxy]

theorem bootAt_tick (n : Nat) (h : n < 2 ^ 32) : ∀ k, (bootAt n).tick k = n := by
  intro k
  simp only [State.tick, bootAt, initial, frozenAt]
  exact Nat.mod_eq_of_lt h

/-! ## Ordered insertion -/

/-- Linking a key into a list strictly sorted by key, behind a prefix of smaller keys and in
front of a larger key, gives a strictly sorted list. -/
theorem pairwise_link_lt (k : Nat → Int) (this : Nat) (pre post : List Nat)
    (hs : (pre ++ post).Pairwise (fun a b => k a < k b))
    (hpre : ∀ x ∈ pre, k x < k this)
    (hpost : ∀ y, post.head? = some y → k this < k y) :
    (pre ++ this :: post).Pairwise (fun a b => k a < k b) := by
  rw [List.pairwise_append] at hs ⊢
  obtain ⟨h1, h2, h3⟩ := hs
  have hall : ∀ y ∈ post, k this < k y := by
    cases post with
    | nil => intro y hy; simp at hy
    | cons z zs =>
      intro y hy
      have hz := hpost z rfl
      rcases List.mem_cons.1 hy with e | hm
      · rw [e]; exact hz
      · exact lt_trans hz (List.rel_of_pairwise_cons h2 hm)
  refine ⟨h1, List.pairwise_cons.2 ⟨hall, h2⟩, fun a ha b hb => ?_⟩
  rcases List.mem_cons.1 hb with e | hm
  · rw [e]; exact hpre a ha
  · exact h3 a ha b hm

/-- One more timer scheduled onto a strictly sorted list of timers with other due offsets. -/
theorem schedule_ordered_step (mii now : Nat) (s : State) (done : List (Nat × Nat))
    (e : Nat × Nat) (hinv : MembershipInv s) (hclock : ∀ k, s.tick k = now)
    (hperm : s.pendingList.Perm (done.map Prod.fst))
    (hsorted : s.pendingList.Pairwise (fun x y => sdiff (s.due x) now < sdiff (s.due y) now))
    (hdue : ∀ e' ∈ done, s.due e'.1 = (now + e'.2) % 2 ^ 32)
    (hid : e.1 ∉ done.map Prod.fst) (hoff : e.2 ∉ done.map Prod.snd)
    (hdone : ∀ e' ∈ done, e'.2 < 2 ^ 31) (he : mii ≤ e.2 ∧ e.2 < 2 ^ 31) :
    (ScheduleCallbackFromIsr mii s e.1 ((now + e.2) % 2 ^ 32)).1 = false ∧
    (ScheduleCallbackFromIsr mii s e.1 ((now + e.2) % 2 ^ 32)).2.pendingList.Perm
      ((done ++ [e]).map Prod.fst) ∧
    (ScheduleCallbackFromIsr mii s e.1 ((now + e.2) % 2 ^ 32)).2.pendingList.Pairwise
      (fun x y =>
        sdiff ((ScheduleCallbackFromIsr mii s e.1 ((now + e.2) % 2 ^ 32)).2.due x) now <
        sdiff ((ScheduleCallbackFromIsr mii s e.1 ((now + e.2) % 2 ^ 32)).2.due y) now) ∧
    (∀ e' ∈ done ++ [e],
      (ScheduleCallbackFromIsr mii s e.1 ((now + e.2) % 2 ^ 32)).2.due e'.1
        = (now + e'.2) % 2 ^ 32) := by
  have hmii : toInt32 mii = (mii : Int) := toInt32_of_lt (by omega)
  have hkey : sdiff ((now + e.2) % 2 ^ 32) now = (e.2 : Int) := sdiff_add_of_lt he.2
  have hnl : e.1 ∉ s.pendingList := fun hm => hid (hperm.mem_iff.1 hm)
  have hL : s.pendingList.erase e.1 = s.pendingList := List.erase_of_not_mem hnl
  have hf : (ScheduleCallbackFromIsr mii s e.1 ((now + e.2) % 2 ^ 32)).1 = false := by
    apply schedule_false_of_far mii s _ _ hinv
    rw [hclock 1, hkey, hmii]; exact_mod_cast he.1
  have hkeys : ∀ y ∈ s.pendingList, ∃ e' ∈ done, e'.1 = y ∧ sdiff (s.due y) now = (e'.2 : Int) := by
    intro y hy
    obtain ⟨e', he', rfl⟩ := List.mem_map.1 (hperm.mem_iff.1 hy)
    exact ⟨e', he', rfl, by rw [hdue e' he']; exact sdiff_add_of_lt (hdone e' he')⟩
  obtain ⟨pre, post, h1, h2, h3, h4⟩ := schedule_position mii s e.1 _ hinv hf
  rw [hL] at h1
  rw [hclock 0, hkey] at h3 h4
  have hne : ∀ x ∈ s.pendingList, x ≠ e.1 := fun x hx e0 => hnl (e0 ▸ hx)
  have hdue_old : ∀ x ∈ s.pendingList,
      (ScheduleCallbackFromIsr mii s e.1 ((now + e.2) % 2 ^ 32)).2.due x = s.due x :=
    fun x hx => schedule_due_ne mii s e.1 _ hinv (hne x hx)
  have hdue_new := schedule_due_self mii s e.1 ((now + e.2) % 2 ^ 32) hinv
  refine ⟨hf, ?_, ?_, ?_⟩
  · have hp := schedule_perm_of_false mii s e.1 _ hinv hf
    rw [hL] at hp
    rw [List.map_append]
    refine hp.trans ?_
    refine (List.Perm.cons _ hperm).trans ?_
    simpa using (List.perm_append_singleton e.1 (done.map Prod.fst)).symm
  · rw [h2]
    apply pairwise_link_lt (fun x =>
      sdiff ((ScheduleCallbackFromIsr mii s e.1 ((now + e.2) % 2 ^ 32)).2.due x) now) e.1 pre post
    · rw [← h1]
      refine hsorted.imp_of_mem ?_
      intro a b ha hb hab
      simp only [hdue_old a ha, hdue_old b hb]
      exact hab
    · intro x hx
      have hxm : x ∈ s.pendingList := by rw [h1]; exact List.mem_append_left _ hx
      simp only [hdue_old x hxm, hdue_new, hkey]
      exact h3 x hx
    · intro y hy
      have hym : y ∈ s.pendingList := by
        rw [h1]; exact List.mem_append_right _ (List.mem_of_mem_head? hy)
      simp only [hdue_old y hym, hdue_new, hkey]
      obtain ⟨e', he', _, hk⟩ := hkeys y hym
      have hle := h4 y hy
      rw [hk] at hle ⊢
      have hneq : e'.2 ≠ e.2 := fun e0 => hoff (List.mem_map.2 ⟨e', he', e0⟩)
      omega
  · intro e' he'
    rcases List.mem_append.1 he' with hd | hs
    · have hne' : e'.1 ≠ e.1 := fun e0 => hid (List.mem_map.2 ⟨e', hd, e0⟩)
      rw [schedule_due_ne mii s e.1 _ hinv hne']
      exact hdue e' hd
    · rw [List.mem_singleton.1 hs]
      exact hdue_new

theorem scheduleAll_ordered (mii now : Nat) (es : List (Nat × Nat)) :
    ∀ (s : State) (done : List (Nat × Nat)),
      MembershipInv s → (∀ k, s.tick k = now) →
      s.pendingList.Perm (done.map Prod.fst) →
      s.pendingList.Pairwise (fun x y => sdiff (s.due x) now < sdiff (s.due y) now) →
      (∀ e ∈ done, s.due e.1 = (now + e.2) % 2 ^ 32) →
      ((done ++ es).map Prod.fst).Nodup → ((done ++ es).map Prod.snd).Nodup →
      (∀ e ∈ done ++ es, mii ≤ e.2 ∧ e.2 < 2 ^ 31) →
      (∀ b ∈ (scheduleAll mii s (es.map (fun e => (e.1, (now + e.2) % 2 ^ 32)))).1,
        b = false) ∧
      (scheduleAll mii s (es.map (fun e => (e.1, (now + e.2) % 2 ^ 32)))).1.length
        = es.length ∧
      MembershipInv (scheduleAll mii s (es.map (fun e => (e.1, (now + e.2) % 2 ^ 32)))).2 ∧
      (scheduleAll mii s (es.map (fun e => (e.1, (now + e.2) % 2 ^ 32)))).2.pendingList.Perm
        ((done ++ es).map Prod.fst) ∧
      (scheduleAll mii s (es.map (fun e => (e.1, (now + e.2) % 2 ^ 32)))).2.pendingList.Pairwise
        (fun x y =>
          sdiff ((scheduleAll mii s (es.map (fun e => (e.1, (now + e.2) % 2 ^ 32)))).2.due x)
            now <
          sdiff ((scheduleAll mii s (es.map (fun e => (e.1, (now + e.2) % 2 ^ 32)))).2.due y)
            now) ∧
      (∀ e ∈ done ++ es,
        (scheduleAll mii s (es.map (fun e => (e.1, (now + e.2) % 2 ^ 32)))).2.due e.1
          = (now + e.2) % 2 ^ 32) := by
  induction es with
  | nil =>
    intro s done hinv _ hperm hsorted hdue _ _ _
    simp only [List.map_nil, scheduleAll, List.append_nil]
    exact ⟨by simp, rfl, hinv, hperm, hsorted, hdue⟩
  | cons e es ih =>
    intro s done hinv hclock hperm hsorted hdue hids hoffs hrange
    have hid : e.1 ∉ done.map Prod.fst := by
      rw [List.map_append, List.map_cons] at hids
      have := (List.nodup_cons.1 (List.nodup_middle.1 hids)).1
      exact fun h => this (List.mem_append_left _ h)
    have hoff : e.2 ∉ done.map Prod.snd := by
      rw [List.map_append, List.map_cons] at hoffs
      have := (List.nodup_cons.1 (List.nodup_middle.1 hoffs)).1
      exact fun h => this (List.mem_append_left _ h)
    have he := hrange e (by simp)
    have hdone : ∀ e' ∈ done, e'.2 < 2 ^ 31 :=
      fun e' h => (hrange e' (List.mem_append_left _ h)).2
    obtain ⟨hf, hp1, hs1, hd1⟩ := schedule_ordered_step mii now s done e hinv hclock hperm
      hsorted hdue hid hoff hdone he
    have hinv1 := schedule_membershipInv mii s e.1 ((now + e.2) % 2 ^ 32) hinv
    have hc1 := schedule_frozen mii s e.1 ((now + e.2) % 2 ^ 32) now hinv hclock
    have happ : (done ++ [e]) ++ es = done ++ e :: es := by simp
    obtain ⟨r1, r2, r3, r4, r5, r6⟩ := ih _ (done ++ [e]) hinv1 hc1 hp1 hs1 hd1
      (by rw [happ]; exact hids) (by rw [happ]; exact hoffs) (by rw [happ]; exact hrange)
    rw [happ] at r4 r6
    simp only [List.map_cons, scheduleAll]
    refine ⟨?_, ?_, r3, r4, r5, r6⟩
    · intro b hb
      rcases List.mem_cons.1 hb with h0 | h0
      · rw [h0]; exact hf
      · exact r1 b h0
    · simp only [List.length_cons, r2]

/-! ## The arm check -/

theorem arm_true (mii : Nat) (s : State) (tim : Nat)
    (h : sdiff tim (s.tick 0) < toInt32 mii) :
    ScheduleTimerInterrupt mii s tim = (true, { s with reads := s.reads + 1 }) := by
  have e0 : s.tcCV s.reads % 2 ^ 32 = s.tick 0 := rfl
  simp only [ScheduleTimerInterrupt, GetTimerTicks, e0, h, if_true]

theorem arm_false (mii : Nat) (s : State) (tim : Nat)
    (h : ¬ sdiff tim (s.tick 0) < toInt32 mii) :
    ScheduleTimerInterrupt mii s tim =
      (false, { s with reads := s.reads + 1, tcRB := tim, cpbsEnabled := true }) := by
  have e0 : s.tcCV s.reads % 2 ^ 32 = s.tick 0 := rfl
  simp only [ScheduleTimerInterrupt, GetTimerTicks, e0, h, if_false]

/-! ## One pass of the dispatch loop -/

theorem interruptBody_nil (mii : Nat) (s : State) (hl : s.pendingList = []) :
    InterruptBody mii s = (s, false) := by
  simp only [InterruptBody, hl]

theorem interruptBody_not_due (mii : Nat) (s : State) (tmr : Nat) (rest : List Nat)
    (hl : s.pendingList = tmr :: rest)
    (h : ¬ sdiff (s.due tmr) (s.tick 0) < toInt32 mii) :
    InterruptBody mii s =
      ({ s with reads := s.reads + 1, tcRB := s.due tmr, cpbsEnabled := true }, false) := by
  simp only [InterruptBody, hl, arm_false mii s _ h]
  rfl

/-- The state after the head has been unlinked and marked inactive. -/
theorem interruptBody_due_none (mii : Nat) (s : State) (tmr : Nat) (rest : List Nat)
    (hl : s.pendingList = tmr :: rest)
    (h : sdiff (s.due tmr) (s.tick 0) < toInt32 mii)
    (hcb : (s.timers tmr).callback = none) :
    InterruptBody mii s =
      (({ s with reads := s.reads + 1, pendingList := rest }).setActive tmr false, true) := by
  simp only [InterruptBody, hl, arm_true mii s _ h]
  simp [hcb]

/-- A pass that finds the head due and whose callback, if any, does not ask for another
schedule: the head is unlinked and inactive, everything else stays. -/
theorem interruptBody_dispatch_quiet (mii : Nat) (s : State) (tmr : Nat) (rest : List Nat)
    (hl : s.pendingList = tmr :: rest)
    (h : sdiff (s.due tmr) (s.tick 0) < toInt32 mii) (hq : Quiet s tmr) :
    (InterruptBody mii s).2 = true ∧
    (InterruptBody mii s).1.pendingList = rest ∧
    (InterruptBody mii s).1.calls = s.calls ++ (if hasCallback s tmr then [tmr] else []) ∧
    (∀ x, x ≠ tmr → (InterruptBody mii s).1.timers x = s.timers x) ∧
    ((InterruptBody mii s).1.timers tmr).active = false ∧
    ((InterruptBody mii s).1.timers tmr).callback = (s.timers tmr).callback ∧
    (InterruptBody mii s).1.reads = s.reads + 1 ∧
    (InterruptBody mii s).1.tcCV = s.tcCV ∧
    (InterruptBody mii s).1.tcRB = s.tcRB ∧
    (InterruptBody mii s).1.cpbsEnabled = s.cpbsEnabled ∧
    (InterruptBody mii s).1.basePri = s.basePri := by
  cases hcb : (s.timers tmr).callback with
  | none =>
    rw [interruptBody_due_none mii s tmr rest hl h hcb]
    refine ⟨rfl, rfl, ?_, fun x hx => setActive_timers_ne _ _ hx, ?_, ?_, rfl, rfl, rfl, rfl, rfl⟩
    · simp [hasCallback, hcb]
    · simp
    · simp [hcb]
  | some cb =>
    have hf := hq cb hcb
    simp only [InterruptBody, hl, arm_true mii s _ h]
    simp [hcb, hf, hasCallback, State.due]
    intro x hx
    rw [setWhenDue_timers_ne _ _ hx]
    exact setActive_timers_ne _ _ hx

/-- A pass that finds the head due and whose callback asks for another schedule: the head is
linked again where the pairwise walk stops, active, with the due tick the callback left. -/
theorem interruptBody_dispatch_again (mii : Nat) (s : State) (tmr : Nat) (rest : List Nat)
    (cb : TimerCallbackFunction)
    (hl : s.pendingList = tmr :: rest) (hn : tmr ∉ rest)
    (h : sdiff (s.due tmr) (s.tick 0) < toInt32 mii)
    (hcb : (s.timers tmr).callback = some cb)
    (hc : (cb (s.timers tmr).cbParam (s.due tmr) s.world).1 = true) :
    (InterruptBody mii s).2 = true ∧
    (InterruptBody mii s).1.pendingList =
      linkAfterWalk (fun x => decide (sdiff (cb (s.timers tmr).cbParam (s.due tmr) s.world).2.1
        (s.due x) > 0)) tmr rest ∧
    (InterruptBody mii s).1.calls = s.calls ++ [tmr] ∧
    (∀ x, x ≠ tmr → (InterruptBody mii s).1.timers x = s.timers x) ∧
    ((InterruptBody mii s).1.timers tmr).active = true ∧
    ((InterruptBody mii s).1.timers tmr).whenDue
      = (cb (s.timers tmr).cbParam (s.due tmr) s.world).2.1 ∧
    ((InterruptBody mii s).1.timers tmr).callback = (s.timers tmr).callback ∧
    (InterruptBody mii s).1.reads = s.reads + 1 ∧
    (InterruptBody mii s).1.tcCV = s.tcCV ∧
    (InterruptBody mii s).1.tcRB = s.tcRB ∧
    (InterruptBody mii s).1.cpbsEnabled = s.cpbsEnabled ∧
    (InterruptBody mii s).1.basePri = s.basePri := by
  have hc2 : (cb (s.timers tmr).cbParam (s.timers tmr).whenDue s.world).1 = true := hc
  simp only [InterruptBody, hl, arm_true mii s _ h]
  simp [hcb, hc2, State.due]
  refine ⟨?_, ?_⟩
  · apply linkAfterWalk_congr
    intro x hx
    have hne : x ≠ tmr := fun e => hn (e ▸ hx)
    simp [hne]
  · intro x hx
    rw [setActive_timers_ne _ _ hx]
    show (State.setWhenDue _ tmr _).timers x = _
    rw [setWhenDue_timers_ne _ _ hx]
    exact setActive_timers_ne _ _ hx

/-! ## Draining the timers that are due -/

theorem interrupt_succ (mii fuel : Nat) (s : State) :
    Interrupt mii (fuel + 1) s =
      if (InterruptBody mii s).2 then Interrupt mii fuel (InterruptBody mii s).1
      else some (InterruptBody mii s).1 := rfl

theorem tick_after_read (s s1 : State) (ht : s1.tcCV = s.tcCV) (hr : s1.reads = s.reads + 1)
    (k : Nat) : s1.tick k = s.tick (k + 1) := by
  unfold State.tick
  rw [ht, hr, Nat.add_assoc, Nat.add_comm 1 k]

theorem dueInTurn_after_read (mii : Nat) (s s1 : State) (l : List Nat)
    (hdue : ∀ x ∈ l, s1.due x = s.due x) (htick : ∀ k, s1.tick k = s.tick (k + 1)) :
    ∀ i, DueInTurn mii s (i + 1) l → DueInTurn mii s1 i l := by
  induction l with
  | nil => intro i _; trivial
  | cons x xs ih =>
    intro i h
    refine ⟨?_, ih (fun y hy => hdue y (List.mem_cons_of_mem _ hy)) (i + 1) h.2⟩
    rw [hdue x (List.mem_cons_self _ _), htick i]
    exact h.1

/-- The dispatch loop on a list whose front is found due in turn, with callbacks that do not
ask for another schedule, and whose remainder is empty or starts with a timer that the next
arm check finds not due: the loop returns after exactly one pass per timer of the front and
one more; it leaves the remainder as the list, has invoked the callbacks of the front in list
order, and has armed the interrupt for the head of the remainder. -/
theorem interrupt_drain (mii : Nat) (front back : List Nat) :
    ∀ s : State, s.pendingList = front ++ back → s.pendingList.Nodup →
      DueInTurn mii s 0 front → (∀ x ∈ front, Quiet s x) →
      (∀ h, back.head? = some h → toInt32 mii ≤ sdiff (s.due h) (s.tick front.length)) →
      ∃ s' : State,
        (∀ fuel, front.length < fuel → Interrupt mii fuel s = some s') ∧
        (∀ fuel, fuel ≤ front.length → Interrupt mii fuel s = none) ∧
        s'.pendingList = back ∧
        s'.calls = s.calls ++ front.filter (hasCallback s) ∧
        (∀ x ∈ front, (s'.timers x).active = false) ∧
        (∀ x, x ∉ front → s'.timers x = s.timers x) ∧
        s'.tcCV = s.tcCV ∧ s'.basePri = s.basePri ∧
        (back = [] → s'.reads = s.reads + front.length ∧ s'.tcRB = s.tcRB ∧
          s'.cpbsEnabled = s.cpbsEnabled) ∧
        (∀ h, back.head? = some h → s'.reads = s.reads + front.length + 1 ∧
          s'.tcRB = s.due h ∧ s'.cpbsEnabled = true) := by
  induction front with
  | nil =>
    intro s hl _ _ _ hback
    simp only [List.nil_append] at hl
    cases back with
    | nil =>
      refine ⟨s, ?_, ?_, hl, by simp, by simp, fun _ _ => rfl, rfl, rfl, fun _ => ⟨rfl, rfl, rfl⟩,
        by simp⟩
      · intro fuel hf
        obtain ⟨n, rfl⟩ := Nat.exists_eq_succ_of_ne_zero (Nat.pos_iff_ne_zero.1 hf)
        rw [interrupt_succ, interruptBody_nil mii s hl]
        rfl
      · intro fuel hf
        have : fuel = 0 := Nat.le_zero.1 hf
        subst this
        rfl
    | cons h t =>
      have hnd : ¬ sdiff (s.due h) (s.tick 0) < toInt32 mii := not_lt.2 (hback h rfl)
      refine ⟨{ s with reads := s.reads + 1, tcRB := s.due h, cpbsEnabled := true }, ?_, ?_, hl,
        by simp, by simp, fun _ _ => rfl, rfl, rfl, by simp, ?_⟩
      · intro fuel hf
        obtain ⟨n, rfl⟩ := Nat.exists_eq_succ_of_ne_zero (Nat.pos_iff_ne_zero.1 hf)
        rw [interrupt_succ, interruptBody_not_due mii s h t hl hnd]
        rfl
      · intro fuel hf
        have : fuel = 0 := Nat.le_zero.1 hf
        subst this
        rfl
      · intro h' hh'
        simp only [List.head?_cons, Option.some.injEq] at hh'
        subst hh'
        exact ⟨rfl, rfl, rfl⟩
  | cons x xs ih =>
    intro s hl hnd hdue hquiet hback
    have hl' : s.pendingList = x :: (xs ++ back) := by rw [hl]; rfl
    have hnd' : (x :: (xs ++ back)).Nodup := hl' ▸ hnd
    have hx : x ∉ xs ++ back := (List.nodup_cons.1 hnd').1
    have hxxs : x ∉ xs := fun h => hx (List.mem_append_left _ h)
    obtain ⟨b2, b3, b4, b5, b6, _, b8, b9, b10, b11, b12⟩ :=
      interruptBody_dispatch_quiet mii s x (xs ++ back) hl' hdue.1
        (hquiet x (List.mem_cons_self _ _))
    have hne : ∀ y ∈ xs ++ back, y ≠ x := fun y hy e => hx (e ▸ hy)
    have hdue1 : ∀ y ∈ xs ++ back, (InterruptBody mii s).1.due y = s.due y := by
      intro y hy
      simp only [State.due, b5 y (hne y hy)]
    have htick := tick_after_read s (InterruptBody mii s).1 b9 b8
    obtain ⟨s', c1, c2, c3, c4, c5, c6, c7, c8, c9, c10⟩ := ih (InterruptBody mii s).1 b3
      (b3 ▸ (List.nodup_cons.1 hnd').2)
      (dueInTurn_after_read mii s _ xs (fun y hy => hdue1 y (List.mem_append_left _ hy))
        htick 0 hdue.2)
      (by
        intro y hy cb hcb
        rw [b5 y (hne y (List.mem_append_left _ hy))] at hcb
        exact hquiet y (List.mem_cons_of_mem _ hy) cb hcb)
      (by
        intro h hh
        have hm : h ∈ xs ++ back := List.mem_append_right _ (List.mem_of_mem_head? hh)
        rw [hdue1 h hm, htick]
        exact hback h hh)
    refine ⟨s', ?_, ?_, c3, ?_, ?_, ?_, c7.trans b9, c8.trans b12, ?_, ?_⟩
    · intro fuel hf
      cases fuel with
      | zero => exact absurd hf (Nat.not_lt_zero _)
      | succ n =>
        rw [interrupt_succ, if_pos b2]
        exact c1 n (by simpa using hf)
    · intro fuel hf
      cases fuel with
      | zero => rfl
      | succ n =>
        rw [interrupt_succ, if_pos b2]
        exact c2 n (by simpa using hf)
    · rw [c4, b4, List.append_assoc]
      congr 1
      have hfil : xs.filter (hasCallback (InterruptBody mii s).1) = xs.filter (hasCallback s) := by
        apply List.filter_congr
        intro y hy
        simp only [hasCallback, b5 y (hne y (List.mem_append_left _ hy))]
      rw [hfil, List.filter_cons]
      split_ifs <;> rfl
    · intro y hy
      rcases List.mem_cons.1 hy with e | hm
      · rw [e, c6 x hxxs]; exact b6
      · exact c5 y hm
    · intro y hy
      have hyx : y ≠ x := fun e => hy (e ▸ List.mem_cons_self _ _)
      have hyxs : y ∉ xs := fun h => hy (List.mem_cons_of_mem _ h)
      rw [c6 y hyxs, b5 y hyx]
    · intro hb
      obtain ⟨r1, r2, r3⟩ := c9 hb
      refine ⟨?_, r2.trans b10, r3.trans b11⟩
      rw [r1, b8, List.length_cons]; omega
    · intro h hh
      obtain ⟨r1, r2, r3⟩ := c10 h hh
      have hm : h ∈ xs ++ back := List.mem_append_right _ (List.mem_of_mem_head? hh)
      refine ⟨?_, r2.trans (hdue1 h hm), r3⟩
      rw [r1, b8, List.length_cons]; omega

theorem dueInTurn_of_frozen (mii now : Nat) (s : State) (l : List Nat)
    (hclock : ∀ k, s.tick k = now) (h : ∀ x ∈ l, sdiff (s.due x) now < toInt32 mii) :
    ∀ i, DueInTurn mii s i l := by
  induction l with
  | nil => intro i; trivial
  | cons x xs ih =>
    intro i
    refine ⟨?_, ih (fun y hy => h y (List.mem_cons_of_mem _ hy)) (i + 1)⟩
    rw [hclock i]
    exact h x (List.mem_cons_self _ _)

theorem dueInTurn_dueFront (mii : Nat) (s : State) (l : List Nat) :
    ∀ i, DueInTurn mii s i (dueFront mii s i l) := by
  induction l with
  | nil => intro i; trivial
  | cons x xs ih =>
    intro i
    unfold dueFront
    split_ifs with h
    · exact ⟨h, ih (i + 1)⟩
    · trivial

theorem dueFront_split (mii : Nat) (s : State) (l : List Nat) :
    ∀ i, ∃ back, l = dueFront mii s i l ++ back ∧
      ∀ h, back.head? = some h →
        toInt32 mii ≤ sdiff (s.due h) (s.tick (i + (dueFront mii s i l).length)) := by
  induction l with
  | nil => intro i; exact ⟨[], rfl, by simp⟩
  | cons x xs ih =>
    intro i
    unfold dueFront
    split_ifs with h
    · obtain ⟨back, h1, h2⟩ := ih (i + 1)
      refine ⟨back, by rw [List.cons_append, ← h1], fun y hy => ?_⟩
      have := h2 y hy
      rw [List.length_cons, ← Nat.add_assoc, Nat.add_right_comm]
      exact this
    · refine ⟨x :: xs, rfl, fun y hy => ?_⟩
      simp only [List.head?_cons, Option.some.injEq] at hy
      subst hy
      simpa using not_lt.1 h

/-- Every state from which the dispatch loop keeps popping the same timer. -/
theorem interrupt_stuck (mii : Nat) (tmr : Nat) (cb : TimerCallbackFunction)
    (hcb : ∀ p d w, (cb p d w).1 = true ∧ (cb p d w).2.1 = d) (fuel : Nat) :
    ∀ s : State, s.pendingList = [tmr] → (s.timers tmr).callback = some cb →
      (∀ k, sdiff (s.due tmr) (s.tick k) < toInt32 mii) → Interrupt mii fuel s = none := by
  induction fuel with
  | zero => intro s _ _ _; rfl
  | succ n ih =>
    intro s hl hc hdue
    obtain ⟨b1, b2, _, _, _, b6, b7, b8, b9, _, _, _⟩ :=
      interruptBody_dispatch_again mii s tmr [] cb hl (by simp) (hdue 0) hc (hcb _ _ _).1
    rw [interrupt_succ, if_pos b1]
    have hd : (InterruptBody mii s).1.due tmr = s.due tmr := by
      show ((InterruptBody mii s).1.timers tmr).whenDue = _
      rw [b6]; exact (hcb _ _ _).2
    apply ih
    · rw [b2]; rfl
    · rw [b7]; exact hc
    · intro k
      rw [hd, tick_after_read s _ b9 b8 k]
      exact hdue (k + 1)

/-! ## The pairwise test and the test relative to the clock -/

/-- When the signed differences of two ticks from the clock are less than `2^31` apart, the
pairwise test of the reinsertion and the test of the ordering walk agree. -/
theorem pairwise_test_iff (a b now : Nat)
    (h1 : -(2 ^ 31 : Int) < sdiff a now - sdiff b now)
    (h2 : sdiff a now - sdiff b now < 2 ^ 31) :
    sdiff a b > 0 ↔ sdiff b now < sdiff a now := by
  rw [sdiff_shift a now b (le_of_lt h1) h2]
  constructor <;> intro h <;> omega

theorem dueFront_due_of_frozen (mii now : Nat) (s : State) (hclock : ∀ k, s.tick k = now)
    (l : List Nat) : ∀ i, ∀ x ∈ dueFront mii s i l, sdiff (s.due x) now < toInt32 mii := by
  induction l with
  | nil => intro i x hx; simp [dueFront] at hx
  | cons y ys ih =>
    intro i x hx
    unfold dueFront at hx
    split_ifs at hx with h
    · rcases List.mem_cons.1 hx with e | hm
      · rw [e, ← hclock i]; exact h
      · exact ih (i + 1) x hm
    · simp at hx

/-- A pass of the loop that invokes a callback invokes that of the head, which the arm check
has found due. -/
theorem interruptBody_calls (mii : Nat) (s : State)
    (h : (InterruptBody mii s).1.calls ≠ s.calls) :
    ∃ tmr rest, s.pendingList = tmr :: rest ∧
      sdiff (s.due tmr) (s.tick 0) < toInt32 mii ∧
      (InterruptBody mii s).1.calls = s.calls ++ [tmr] := by
  cases hl : s.pendingList with
  | nil => rw [interruptBody_nil mii s hl] at h; exact absurd rfl h
  | cons tmr rest =>
    by_cases hd : sdiff (s.due tmr) (s.tick 0) < toInt32 mii
    · refine ⟨tmr, rest, rfl, hd, ?_⟩
      cases hcb : (s.timers tmr).callback with
      | none =>
        rw [interruptBody_due_none mii s tmr rest hl hd hcb] at h
        exact absurd rfl h
      | some cb =>
        simp only [InterruptBody, hl, arm_true mii s _ hd, Bool.not_true, Bool.false_eq_true,
          if_false, setActive_timers_self, hcb]
        split_ifs <;> rfl
    · rw [interruptBody_not_due mii s tmr rest hl hd] at h
      exact absurd rfl h

/-! ## Reinsertion by the dispatch loop -/

/-- The list after the reinsertion is the one the ordering walk of `ScheduleCallbackFromIsr`
would build, provided the new due tick and every pending due tick are less than `2^31` ticks
apart. -/
theorem reinsert_walk_eq (s : State) (tmr d now : Nat) (rest : List Nat)
    (hwin : ∀ x ∈ rest, -(2 ^ 31 : Int) < sdiff d now - sdiff (s.due x) now ∧
      sdiff d now - sdiff (s.due x) now < 2 ^ 31) :
    linkAfterWalk (fun x => decide (sdiff d (s.due x) > 0)) tmr rest =
      linkAfterWalk (fun x => decide (sdiff (s.due x) now < sdiff d now)) tmr rest := by
  apply linkAfterWalk_congr
  intro x hx
  have := pairwise_test_iff d (s.due x) now (hwin x hx).1 (hwin x hx).2
  simp only [decide_eq_decide]
  exact this

/-- A pass that reinserts the head leaves the list sorted relative to `now`. -/
theorem interruptBody_again_sorted (mii now : Nat) (s : State) (tmr : Nat) (rest : List Nat)
    (cb : TimerCallbackFunction)
    (hl : s.pendingList = tmr :: rest) (hnd : s.pendingList.Nodup)
    (h : sdiff (s.due tmr) (s.tick 0) < toInt32 mii)
    (hcb : (s.timers tmr).callback = some cb)
    (hc : (cb (s.timers tmr).cbParam (s.due tmr) s.world).1 = true)
    (hs : SortedAt s now)
    (hwin : ∀ x ∈ rest,
      -(2 ^ 31 : Int) < sdiff (cb (s.timers tmr).cbParam (s.due tmr) s.world).2.1 now
          - sdiff (s.due x) now ∧
      sdiff (cb (s.timers tmr).cbParam (s.due tmr) s.world).2.1 now - sdiff (s.due x) now
        < 2 ^ 31) :
    SortedAt (InterruptBody mii s).1 now := by
  have hnd' : (tmr :: rest).Nodup := hl ▸ hnd
  have hn : tmr ∉ rest := (List.nodup_cons.1 hnd').1
  obtain ⟨_, b2, _, b4, _, b6, _⟩ :=
    interruptBody_dispatch_again mii s tmr rest cb hl hn h hcb hc
  have hrest : rest.Pairwise (fun a b => sdiff (s.due a) now ≤ sdiff (s.due b) now) := by
    have : (tmr :: rest).Pairwise (fun a b => sdiff (s.due a) now ≤ sdiff (s.due b) now) := by
      have hs' := hs
      unfold SortedAt at hs'
      rw [hl] at hs'
      exact hs'
    exact (List.pairwise_cons.1 this).2
  have hdue_ne : ∀ x ∈ rest, (InterruptBody mii s).1.due x = s.due x := by
    intro x hx
    have hne : x ≠ tmr := fun e => hn (e ▸ hx)
    simp only [State.due, b4 x hne]
  have hdue_self : (InterruptBody mii s).1.due tmr
      = (cb (s.timers tmr).cbParam (s.due tmr) s.world).2.1 := b6
  unfold SortedAt
  rw [b2, reinsert_walk_eq s tmr _ now rest hwin, linkAfterWalk_eq]
  apply pairwise_link (fun x => sdiff ((InterruptBody mii s).1.due x) now) tmr
  · rw [List.takeWhile_append_dropWhile]
    refine hrest.imp_of_mem ?_
    intro a b ha hb hab
    simp only [hdue_ne a ha, hdue_ne b hb]
    exact hab
  · intro x hx
    have hq := List.mem_takeWhile_imp hx
    simp only [hdue_ne x (List.takeWhile_subset _ hx), hdue_self]
    simpa using hq
  · intro y hy
    have hym : y ∈ rest := (List.dropWhile_sublist _).subset (List.mem_of_mem_head? hy)
    have := List.head?_dropWhile_not
      (fun x => decide (sdiff (s.due x) now
        < sdiff (cb (s.timers tmr).cbParam (s.due tmr) s.world).2.1 now)) rest
    rw [hy] at this
    simp only [hdue_ne y hym, hdue_self]
    simpa using this

/-! ## The base priority is not looked at by the scheduler -/

theorem assemble_eq (c hw : Nat) (hc : c < 2 ^ 32) (hhw : c / 2 ^ 16 = hw) :
    (hw <<< 16) % 2 ^ 32 ||| (c % 2 ^ 16) = c := by
  have hlt : hw < 2 ^ 16 := by omega
  have h1 : hw <<< 16 = 2 ^ 16 * hw := by rw [Nat.shiftLeft_eq, Nat.mul_comm]
  have h2 : (2 ^ 16 * hw) % 2 ^ 32 = 2 ^ 16 * hw := Nat.mod_eq_of_lt (by omega)
  rw [h1, h2, ← Nat.mul_add_lt_is_or (Nat.mod_lt _ (by norm_num)) hw, ← hhw]
  exact Nat.div_add_mod c (2 ^ 16)

theorem assemble_eq_or (c hw : Nat) (hc : c < 2 ^ 32) (hhw : c / 2 ^ 16 = hw) :
    (hw <<< 16) ||| (c % 2 ^ 16) = c := by
  have hlt : hw < 2 ^ 16 := by omega
  have h1 : hw <<< 16 = 2 ^ 16 * hw := by rw [Nat.shiftLeft_eq, Nat.mul_comm]
  rw [h1, ← Nat.mul_add_lt_is_or (Nat.mod_lt _ (by norm_num)) hw, ← hhw]
  exact Nat.div_add_mod c (2 ^ 16)

theorem upperOf_eq (c : Nat → Nat) (h32 : ∀ k, c k < 2 ^ 32) (k : Nat) :
    Chained.upperOf c k = c k / 2 ^ 16 := by
  have := h32 k
  unfold Chained.upperOf
  omega

/-- Whenever the loop returns it returns the counter value at its last read of the low word,
between two reads that found the same high word. -/
theorem readLoop_spec (c : Nat → Nat) (hmono : ∀ k, c k ≤ c (k + 1)) (h32 : ∀ k, c k < 2 ^ 32)
    (fuel : Nat) :
    ∀ (k hw v n : Nat), hw = Chained.upperOf c k →
      Chained.readLoop (Chained.upperOf c) (Chained.lowerOf c) fuel (k + 1) hw = some (v, n) →
      k + 3 ≤ n ∧ v = c (n - 2) ∧ Chained.upperOf c (n - 3) = Chained.upperOf c (n - 1) := by
  induction fuel with
  | zero => intro k hw v n _ h; simp [Chained.readLoop] at h
  | succ f ih =>
    intro k hw v n hhw h
    simp only [Chained.readLoop] at h
    have hu : ∀ j, Chained.upperOf c j % 2 ^ 16 = Chained.upperOf c j := by
      intro j
      unfold Chained.upperOf
      omega
    have hlo : Chained.lowerOf c (k + 1) % 2 ^ 16 = c (k + 1) % 2 ^ 16 := by
      unfold Chained.lowerOf
      omega
    rw [hu, hlo] at h
    split_ifs at h with he
    · simp only [Option.some.injEq, Prod.mk.injEq] at h
      obtain ⟨hv, hn⟩ := h
      subst hn
      have e3 : k + 1 + 2 - 3 = k := by omega
      have e2 : k + 1 + 2 - 2 = k + 1 := by omega
      have e1 : k + 1 + 2 - 1 = k + 1 + 1 := by omega
      rw [e3, e2, e1]
      refine ⟨by omega, ?_, ?_⟩
      · rw [← hv]
        apply assemble_eq _ _ (h32 _)
        have h0 := upperOf_eq c h32 k
        have h2 := upperOf_eq c h32 (k + 1 + 1)
        have m1 := hmono k
        have m2 := hmono (k + 1)
        rw [hhw, h0] at he ⊢
        rw [h2] at he
        have d1 : c k / 2 ^ 16 ≤ c (k + 1) / 2 ^ 16 := Nat.div_le_div_right m1
        have d2 : c (k + 1) / 2 ^ 16 ≤ c (k + 1 + 1) / 2 ^ 16 := Nat.div_le_div_right m2
        omega
      · rw [← hhw]; exact he.symm
    · obtain ⟨r1, r2, r3⟩ := ih (k + 1 + 1) _ v n rfl h
      exact ⟨by omega, r2, r3⟩

/-! ## What a pass of the dispatch loop does to the hardware -/

/-- A pass that goes round again leaves the interrupt enable as it was. -/
theorem interruptBody_continue (mii : Nat) (s : State) (h : (InterruptBody mii s).2 = true) :
    (InterruptBody mii s).1.cpbsEnabled = s.cpbsEnabled := by
  cases hl : s.pendingList with
  | nil => rw [interruptBody_nil mii s hl] at h; exact Bool.noConfusion h
  | cons tmr rest =>
    by_cases hd : sdiff (s.due tmr) (s.tick 0) < toInt32 mii
    · cases hcb : (s.timers tmr).callback with
      | none => rw [interruptBody_due_none mii s tmr rest hl hd hcb]; rfl
      | some cb =>
        simp only [InterruptBody, hl, arm_true mii s _ hd, Bool.not_true, Bool.false_eq_true,
          if_false, setActive_timers_self, hcb]
        split_ifs <;> rfl
    · rw [interruptBody_not_due mii s tmr rest hl hd] at h
      exact Bool.noConfusion h

/-- A pass that returns found the list empty, or has armed the interrupt at the due tick of
the head and changed nothing else but the count of clock reads. -/
theorem interruptBody_return (mii : Nat) (s : State) (h : (InterruptBody mii s).2 = false) :
    ((InterruptBody mii s).1 = s ∧ s.pendingList = []) ∨
    ∃ tmr rest, s.pendingList = tmr :: rest ∧
      (InterruptBody mii s).1 =
        { s with reads := s.reads + 1, tcRB := s.due tmr, cpbsEnabled := true } := by
  cases hl : s.pendingList with
  | nil => rw [interruptBody_nil mii s hl]; exact Or.inl ⟨rfl, rfl⟩
  | cons tmr rest =>
    by_cases hd : sdiff (s.due tmr) (s.tick 0) < toInt32 mii
    · exfalso
      cases hcb : (s.timers tmr).callback with
      | none =>
        rw [interruptBody_due_none mii s tmr rest hl hd hcb] at h
        exact Bool.noConfusion h
      | some cb =>
        simp only [InterruptBody, hl, arm_true mii s _ hd, Bool.not_true, Bool.false_eq_true,
          if_false, setActive_timers_self, hcb] at h
        split_ifs at h
    · exact Or.inr ⟨tmr, rest, rfl, by rw [interruptBody_not_due mii s tmr rest hl hd, hl]⟩

/-- When `StepTimer::Interrupt` returns, the list is empty or the interrupt is enabled. -/
theorem interrupt_returns_armed (mii : Nat) (fuel : Nat) :
    ∀ s s' : State, Interrupt mii fuel s = some s' →
      s'.pendingList = [] ∨ s'.cpbsEnabled = true := by
  induction fuel with
  | zero => intro s s' h; simp [Interrupt] at h
  | succ n ih =>
    intro s s' h
    rw [interrupt_succ] at h
    split_ifs at h with hc
    · exact ih _ _ h
    · have hc' : (InterruptBody mii s).2 = false := by simpa using hc
      cases h
      rcases interruptBody_return mii s hc' with ⟨e, hl⟩ | ⟨tmr, rest, _, e⟩
      · rw [e]; exact Or.inl hl
      · rw [e]; exact Or.inr rfl

/-- When `StepTimer::Interrupt` is entered with the interrupt disabled and returns with it
enabled, the compare register is the due tick of the head. -/
theorem interrupt_armed_at_head (mii : Nat) (fuel : Nat) :
    ∀ s s' : State, s.cpbsEnabled = false → Interrupt mii fuel s = some s' →
      s'.cpbsEnabled = true → ∃ h, s'.pendingList.head? = some h ∧ s'.tcRB = s'.due h := by
  induction fuel with
  | zero => intro s s' _ h; simp [Interrupt] at h
  | succ n ih =>
    intro s s' hoff h hon
    rw [interrupt_succ] at h
    split_ifs at h with hc
    · exact ih _ _ ((interruptBody_continue mii s hc).trans hoff) h hon
    · have hc' : (InterruptBody mii s).2 = false := by simpa using hc
      cases h
      rcases interruptBody_return mii s hc' with ⟨e, _⟩ | ⟨tmr, rest, hl, e⟩
      · rw [e, hoff] at hon; exact Bool.noConfusion hon
      · rw [e]
        exact ⟨tmr, by show s.pendingList.head? = _; rw [hl]; rfl, rfl⟩

/-! ## Reachable states -/

theorem disable_membershipInv (s : State) (h : MembershipInv s) :
    MembershipInv (DisableTimerInterrupt s) := membershipInv_congr rfl rfl h

theorem handler_membershipInv (mii fuel : Nat) (s s' : State) (b : Bool)
    (h : MembershipInv s) (hr : STEP_TC_HANDLER mii fuel s b = some s') : MembershipInv s' := by
  unfold STEP_TC_HANDLER at hr
  split_ifs at hr
  · exact interrupt_membershipInv mii fuel _ _ (disable_membershipInv s h) hr
  · cases hr; exact h

theorem reachable_membershipInv (mii : Nat) (s : State) (h : Reachable mii s) :
    MembershipInv s := by
  induction h with
  | boot tcCV timers => exact initial_membershipInv _ _
  | setCallback s this cb param _ ih => exact setCallback_membershipInv s this cb param ih
  | schedule s this when _ ih => exact schedule_membershipInv mii s this when ih
  | cancel s this _ ih => exact cancel_membershipInv s this ih
  | handler s s' fuel b _ hr ih => exact handler_membershipInv mii fuel s s' b ih hr

/-! ## The hardware after a schedule call -/

theorem schedule_tcRB (mii : Nat) (s : State) (this when : Nat) (h : MembershipInv s) :
    (ScheduleCallbackFromIsr mii s this when).2.tcRB =
      (if dueBeforeHead ((CancelCallbackFromIsr s this).setWhenDue this when)
            (sdiff when (s.tick 0)) (s.tick 0) then
         if sdiff when (s.tick 1) < toInt32 mii then s.tcRB else when
       else s.tcRB) := by
  rw [schedule_eq mii s this when h]
  split_ifs
  · show ((CancelCallbackFromIsr s this).setWhenDue this when).tcRB = _
    rw [setWhenDue_tcRB, cancel_tcRB]
  · rfl
  · rw [setActive_tcRB]
    show ((CancelCallbackFromIsr s this).setWhenDue this when).tcRB = _
    rw [setWhenDue_tcRB, cancel_tcRB]

theorem schedule_cpbsEnabled (mii : Nat) (s : State) (this when : Nat) (h : MembershipInv s) :
    (ScheduleCallbackFromIsr mii s this when).2.cpbsEnabled =
      (if dueBeforeHead ((CancelCallbackFromIsr s this).setWhenDue this when)
            (sdiff when (s.tick 0)) (s.tick 0) then
         if sdiff when (s.tick 1) < toInt32 mii then s.cpbsEnabled else true
       else s.cpbsEnabled) := by
  rw [schedule_eq mii s this when h]
  split_ifs
  · show ((CancelCallbackFromIsr s this).setWhenDue this when).cpbsEnabled = _
    rw [setWhenDue_cpbsEnabled, cancel_cpbsEnabled]
  · rfl
  · rw [setActive_cpbsEnabled]
    show ((CancelCallbackFromIsr s this).setWhenDue this when).cpbsEnabled = _
    rw [setWhenDue_cpbsEnabled, cancel_cpbsEnabled]

theorem erase_ne_nil {l : List Nat} {a : Nat} (h : l.erase a ≠ []) : l ≠ [] := by
  intro e
  rw [e] at h
  exact h rfl

/-- A schedule call keeps the interrupt enabled while a timer is pending. -/
theorem schedule_wake (mii : Nat) (s : State) (this when : Nat) (hinv : MembershipInv s)
    (hw : s.pendingList ≠ [] → s.cpbsEnabled = true) :
    (ScheduleCallbackFromIsr mii s this when).2.pendingList ≠ [] →
      (ScheduleCallbackFromIsr mii s this when).2.cpbsEnabled = true := by
  rw [schedule_pendingList mii s this when hinv, schedule_cpbsEnabled mii s this when hinv]
  split_ifs with h1 h2
  · intro hne; exact hw (erase_ne_nil hne)
  · intro _; rfl
  · intro _
    apply hw
    rw [dueBeforeHead_prepared s this when _ _ hinv] at h1
    exact erase_ne_nil (fun e => h1 (Or.inl e))

theorem cancel_wake (s : State) (this : Nat)
    (hw : s.pendingList ≠ [] → s.cpbsEnabled = true) :
    (CancelCallbackFromIsr s this).pendingList ≠ [] →
      (CancelCallbackFromIsr s this).cpbsEnabled = true := by
  rw [cancel_pendingList, cancel_cpbsEnabled]
  intro hne
  exact hw (erase_ne_nil hne)

theorem handler_wake (mii fuel : Nat) (s s' : State) (b : Bool)
    (hw : s.pendingList ≠ [] → s.cpbsEnabled = true)
    (hr : STEP_TC_HANDLER mii fuel s b = some s') :
    s'.pendingList ≠ [] → s'.cpbsEnabled = true := by
  unfold STEP_TC_HANDLER at hr
  split_ifs at hr
  · intro hne
    exact (interrupt_returns_armed mii fuel _ _ hr).resolve_left hne
  · cases hr; exact hw

theorem sdiff_eq_mod (a b now : Nat) (h : sdiff a now = sdiff b now) :
    a % 2 ^ 32 = b % 2 ^ 32 := by
  unfold sdiff toInt32 sub32 at h
  split_ifs at h <;> omega

theorem setCallback_due (s : State) (this : Nat) (cb : Option TimerCallbackFunction)
    (param x : Nat) : (SetCallback s this cb param).due x = s.due x := by
  by_cases hx : x = this
  · subst hx; simp [SetCallback, State.due]
  · simp [SetCallback, State.due, Function.update, hx]

/-! ## One pass of the dispatch loop with callbacks that use the scheduler -/

theorem reentrant_body_nil (run : CallbackEffect) (mii : Nat) (s : State)
    (hl : s.pendingList = []) : Reentrant.InterruptBody run mii s = (s, false) := by
  simp only [Reentrant.InterruptBody, hl]

theorem reentrant_body_not_due (run : CallbackEffect) (mii : Nat) (s : State) (tmr : Nat)
    (rest : List Nat) (hl : s.pendingList = tmr :: rest)
    (h : ¬ sdiff (s.due tmr) (s.tick 0) < toInt32 mii) :
    Reentrant.InterruptBody run mii s =
      ({ s with reads := s.reads + 1, tcRB := s.due tmr, cpbsEnabled := true }, false) := by
  simp only [Reentrant.InterruptBody, hl, arm_false mii s _ h]
  rfl

theorem reentrant_body_due_none (run : CallbackEffect) (mii : Nat) (s : State) (tmr : Nat)
    (rest : List Nat) (hl : s.pendingList = tmr :: rest)
    (h : sdiff (s.due tmr) (s.tick 0) < toInt32 mii)
    (hcb : (s.timers tmr).callback = none) :
    Reentrant.InterruptBody run mii s =
      (({ s with reads := s.reads + 1, pendingList := rest }).setActive tmr false, true) := by
  simp only [Reentrant.InterruptBody, hl, arm_true mii s _ h]
  simp [hcb]

theorem reentrant_body_due_some (run : CallbackEffect) (mii : Nat) (s : State) (tmr : Nat)
    (rest : List Nat) (cb : TimerCallbackFunction) (hl : s.pendingList = tmr :: rest)
    (h : sdiff (s.due tmr) (s.tick 0) < toInt32 mii)
    (hcb : (s.timers tmr).callback = some cb) :
    Reentrant.InterruptBody run mii s =
      if (run tmr (Reentrant.atCall s tmr rest)).1 then
        (({ (run tmr (Reentrant.atCall s tmr rest)).2 with
            pendingList := linkAfterWalk
              (fun x => decide (sdiff ((run tmr (Reentrant.atCall s tmr rest)).2.due tmr)
                ((run tmr (Reentrant.atCall s tmr rest)).2.due x) > 0)) tmr
              (run tmr (Reentrant.atCall s tmr rest)).2.pendingList }).setActive tmr true, true)
      else ((run tmr (Reentrant.atCall s tmr rest)).2, true) := by
  simp only [Reentrant.InterruptBody, hl, arm_true mii s _ h]
  simp only [Bool.not_true, Bool.false_eq_true, if_false, setActive_timers_self, hcb]
  rfl

theorem reentrant_body_stored (mii : Nat) (s : State) :
    Reentrant.InterruptBody storedCallback mii s = InterruptBody mii s := by
  cases hl : s.pendingList with
  | nil => rw [reentrant_body_nil _ mii s hl, interruptBody_nil mii s hl]
  | cons tmr rest =>
    by_cases hd : sdiff (s.due tmr) (s.tick 0) < toInt32 mii
    · cases hcb : (s.timers tmr).callback with
      | none =>
        rw [reentrant_body_due_none _ mii s tmr rest hl hd hcb,
          interruptBody_due_none mii s tmr rest hl hd hcb]
      | some cb =>
        rw [reentrant_body_due_some _ mii s tmr rest cb hl hd hcb]
        have e : storedCallback tmr (Reentrant.atCall s tmr rest)
            = ((cb (s.timers tmr).cbParam (s.due tmr) s.world).1,
                ({ ({ s with reads := s.reads + 1, pendingList := rest }).setActive tmr false
                    with world := (cb (s.timers tmr).cbParam (s.due tmr) s.world).2.2,
                         calls := s.calls ++ [tmr] }).setWhenDue tmr
                  (cb (s.timers tmr).cbParam (s.due tmr) s.world).2.1) := by
          simp only [storedCallback, Reentrant.atCall, setActive_timers_self, hcb, State.due]
          rfl
        rw [e]
        simp only [InterruptBody, hl, arm_true mii s _ hd]
        simp [hcb, State.due]
    · rw [reentrant_body_not_due _ mii s tmr rest hl hd,
        interruptBody_not_due mii s tmr rest hl hd]

theorem reentrant_interrupt_stored (mii : Nat) (fuel : Nat) :
    ∀ s : State, Reentrant.Interrupt storedCallback mii fuel s = Interrupt mii fuel s := by
  induction fuel with
  | zero => intro s; rfl
  | succ n ih =>
    intro s
    simp only [Reentrant.Interrupt, Interrupt, reentrant_body_stored, ih]

theorem reentrant_handler_stored (mii fuel : Nat) (s : State) (b : Bool) :
    Reentrant.STEP_TC_HANDLER storedCallback mii fuel s b = STEP_TC_HANDLER mii fuel s b := by
  simp only [Reentrant.STEP_TC_HANDLER, STEP_TC_HANDLER, reentrant_interrupt_stored]

/-- The states reached with callbacks that compute on their arguments only are among those
reached with callbacks of any effect. -/
theorem reentrant_of_reachable (mii : Nat) (s : State) (h : Reachable mii s) :
    Reentrant.Reachable mii s := by
  induction h with
  | boot tcCV timers => exact Reentrant.Reachable.boot _ _
  | setCallback s this cb param _ ih => exact Reentrant.Reachable.setCallback s this cb param ih
  | schedule s this when _ ih => exact Reentrant.Reachable.schedule s this when ih
  | cancel s this _ ih => exact Reentrant.Reachable.cancel s this ih
  | handler s s' fuel b _ hr ih =>
    exact Reentrant.Reachable.handler storedCallback s s' fuel b ih
      (by rw [reentrant_handler_stored]; exact hr)

/-! ## The interrupt enable under callbacks that use the scheduler -/

/-- A schedule call keeps the interrupt enabled while a timer is pending, in any state. -/
theorem schedule_wake_any (mii : Nat) (s : State) (this when : Nat)
    (hw : s.pendingList ≠ [] → s.cpbsEnabled = true) :
    (ScheduleCallbackFromIsr mii s this when).2.pendingList ≠ [] →
      (ScheduleCallbackFromIsr mii s this when).2.cpbsEnabled = true := by
  have h1 : (if (s.timers this).active = true then CancelCallbackFromIsr s this else s).pendingList
      ≠ [] → (if (s.timers this).active = true then CancelCallbackFromIsr s this
        else s).cpbsEnabled = true := by
    split_ifs
    · exact cancel_wake s this hw
    · exact hw
  unfold ScheduleCallbackFromIsr
  simp only []
  generalize (if (s.timers this).active = true then CancelCallbackFromIsr s this else s) = s1
    at h1 ⊢
  have e1 : (GetTimerTicks (s1.setWhenDue this when)).2.pendingList = s1.pendingList := rfl
  have e2 : (GetTimerTicks (s1.setWhenDue this when)).2.cpbsEnabled = s1.cpbsEnabled := rfl
  generalize GetTimerTicks (s1.setWhenDue this when) = r at e1 e2 ⊢
  by_cases hd : dueBeforeHead r.2 (sdiff when r.1) r.1 = true
  · rw [if_pos hd]
    by_cases ha : sdiff when (r.2.tick 0) < toInt32 mii
    · rw [arm_true mii r.2 when ha]
      simp only [if_true]
      intro hne
      exact (e2 ▸ h1 (e1 ▸ hne) : r.2.cpbsEnabled = true)
    · rw [arm_false mii r.2 when ha]
      intro _
      rfl
  · rw [if_neg hd]
    intro _
    have hne : s1.pendingList ≠ [] := by
      intro e
      apply hd
      simp [dueBeforeHead, e1, e]
    exact (e2 ▸ h1 hne : r.2.cpbsEnabled = true)

theorem reentrant_interrupt_succ (run : CallbackEffect) (mii fuel : Nat) (s : State) :
    Reentrant.Interrupt run mii (fuel + 1) s =
      if (Reentrant.InterruptBody run mii s).2 then
        Reentrant.Interrupt run mii fuel (Reentrant.InterruptBody run mii s).1
      else some (Reentrant.InterruptBody run mii s).1 := rfl

/-- A pass that returns found the list empty, or has armed the interrupt at the due tick of
the head and changed nothing else but the count of clock reads. -/
theorem reentrant_body_return (run : CallbackEffect) (mii : Nat) (s : State)
    (h : (Reentrant.InterruptBody run mii s).2 = false) :
    ((Reentrant.InterruptBody run mii s).1 = s ∧ s.pendingList = []) ∨
    ∃ tmr rest, s.pendingList = tmr :: rest ∧
      (Reentrant.InterruptBody run mii s).1 =
        { s with reads := s.reads + 1, tcRB := s.due tmr, cpbsEnabled := true } := by
  cases hl : s.pendingList with
  | nil => rw [reentrant_body_nil run mii s hl]; exact Or.inl ⟨rfl, rfl⟩
  | cons tmr rest =>
    by_cases hd : sdiff (s.due tmr) (s.tick 0) < toInt32 mii
    · exfalso
      cases hcb : (s.timers tmr).callback with
      | none =>
        rw [reentrant_body_due_none run mii s tmr rest hl hd hcb] at h
        exact Bool.noConfusion h
      | some cb =>
        rw [reentrant_body_due_some run mii s tmr rest cb hl hd hcb] at h
        split_ifs at h
    · exact Or.inr ⟨tmr, rest, rfl, by rw [reentrant_body_not_due run mii s tmr rest hl hd, hl]⟩

/-- A pass that goes round again leaves a disabled interrupt disabled when the callback does. -/
theorem reentrant_body_continue (run : CallbackEffect) (mii : Nat) (s : State)
    (hrun : ∀ x t, t.cpbsEnabled = false → (run x t).2.cpbsEnabled = false)
    (hoff : s.cpbsEnabled = false)
    (h : (Reentrant.InterruptBody run mii s).2 = true) :
    (Reentrant.InterruptBody run mii s).1.cpbsEnabled = false := by
  cases hl : s.pendingList with
  | nil => rw [reentrant_body_nil run mii s hl] at h; exact Bool.noConfusion h
  | cons tmr rest =>
    by_cases hd : sdiff (s.due tmr) (s.tick 0) < toInt32 mii
    · cases hcb : (s.timers tmr).callback with
      | none => rw [reentrant_body_due_none run mii s tmr rest hl hd hcb]; exact hoff
      | some cb =>
        have hc := hrun tmr (Reentrant.atCall s tmr rest) hoff
        rw [reentrant_body_due_some run mii s tmr rest cb hl hd hcb]
        split_ifs
        · exact hc
        · exact hc
    · rw [reentrant_body_not_due run mii s tmr rest hl hd] at h
      exact Bool.noConfusion h

/-- When `StepTimer::Interrupt` returns, the list is empty or the interrupt is enabled,
whatever the callbacks have done. -/
theorem reentrant_interrupt_returns_armed (run : CallbackEffect) (mii : Nat) (fuel : Nat) :
    ∀ s s' : State, Reentrant.Interrupt run mii fuel s = some s' →
      s'.pendingList = [] ∨ s'.cpbsEnabled = true := by
  induction fuel with
  | zero => intro s s' h; simp [Reentrant.Interrupt] at h
  | succ n ih =>
    intro s s' h
    rw [reentrant_interrupt_succ] at h
    split_ifs at h with hc
    · exact ih _ _ h
    · have hc' : (Reentrant.InterruptBody run mii s).2 = false := by simpa using hc
      cases h
      rcases reentrant_body_return run mii s hc' with ⟨e, hl⟩ | ⟨tmr, rest, _, e⟩
      · rw [e]; exact Or.inl hl
      · rw [e]; exact Or.inr rfl

/-- When `StepTimer::Interrupt` is entered with the interrupt disabled, its callbacks leave a
disabled interrupt disabled, and it returns with the interrupt enabled, then the compare
register is the due tick of the head. -/
theorem reentrant_interrupt_armed_at_head (run : CallbackEffect) (mii : Nat)
    (hrun : ∀ x t, t.cpbsEnabled = false → (run x t).2.cpbsEnabled = false) (fuel : Nat) :
    ∀ s s' : State, s.cpbsEnabled = false → Reentrant.Interrupt run mii fuel s = some s' →
      s'.cpbsEnabled = true → ∃ h, s'.pendingList.head? = some h ∧ s'.tcRB = s'.due h := by
  induction fuel with
  | zero => intro s s' _ h; simp [Reentrant.Interrupt] at h
  | succ n ih =>
    intro s s' hoff h hon
    rw [reentrant_interrupt_succ] at h
    split_ifs at h with hc
    · exact ih _ _ (reentrant_body_continue run mii s hrun hoff hc) h hon
    · have hc' : (Reentrant.InterruptBody run mii s).2 = false := by simpa using hc
      cases h
      rcases reentrant_body_return run mii s hc' with ⟨e, _⟩ | ⟨tmr, rest, hl, e⟩
      · rw [e, hoff] at hon; exact Bool.noConfusion hon
      · rw [e]
        exact ⟨tmr, by show s.pendingList.head? = _; rw [hl]; rfl, rfl⟩

theorem reentrant_handler_wake (run : CallbackEffect) (mii fuel : Nat) (s s' : State) (b : Bool)
    (hw : s.pendingList ≠ [] → s.cpbsEnabled = true)
    (hr : Reentrant.STEP_TC_HANDLER run mii fuel s b = some s') :
    s'.pendingList ≠ [] → s'.cpbsEnabled = true := by
  unfold Reentrant.STEP_TC_HANDLER at hr
  split_ifs at hr
  · intro hne
    exact (reentrant_interrupt_returns_armed run mii fuel _ _ hr).resolve_left hne
  · cases hr; exact hw

theorem reentrant_handler_armed (run : CallbackEffect) (mii fuel : Nat) (s s' : State) (b : Bool)
    (hrun : ∀ x t, t.cpbsEnabled = false → (run x t).2.cpbsEnabled = false)
    (ha : s.cpbsEnabled = true →
      ∃ h, s.pendingList.head? = some h ∧ s.tcRB % 2 ^ 32 = s.due h % 2 ^ 32)
    (hr : Reentrant.STEP_TC_HANDLER run mii fuel s b = some s') :
    s'.cpbsEnabled = true →
      ∃ h, s'.pendingList.head? = some h ∧ s'.tcRB % 2 ^ 32 = s'.due h % 2 ^ 32 := by
  unfold Reentrant.STEP_TC_HANDLER at hr
  split_ifs at hr
  · intro hon
    obtain ⟨h, hh, ht⟩ := reentrant_interrupt_armed_at_head run mii hrun fuel _ _ rfl hr hon
    exact ⟨h, hh, by rw [ht]⟩
  · cases hr; exact ha

theorem erase_head_of_ne (l : List Nat) (this : Nat) (h : l.head? ≠ some this) :
    (l.erase this).head? = l.head? := by
  cases l with
  | nil => rfl
  | cons y ys =>
    have hy : y ≠ this := fun e => h (by rw [e]; rfl)
    rw [List.erase_cons_tail (by simpa using hy)]
    rfl

/-- Cancelling a timer that is not the head keeps the compare register at the due tick of the
head while the interrupt is enabled. -/
theorem cancel_armed_sparing (s : State) (this : Nat) (hh : s.pendingList.head? ≠ some this)
    (ha : s.cpbsEnabled = true →
      ∃ h, s.pendingList.head? = some h ∧ s.tcRB % 2 ^ 32 = s.due h % 2 ^ 32) :
    (CancelCallbackFromIsr s this).cpbsEnabled = true →
      ∃ h, (CancelCallbackFromIsr s this).pendingList.head? = some h ∧
        (CancelCallbackFromIsr s this).tcRB % 2 ^ 32
          = (CancelCallbackFromIsr s this).due h % 2 ^ 32 := by
  rw [cancel_cpbsEnabled, cancel_pendingList, cancel_tcRB, erase_head_of_ne _ _ hh]
  intro hon
  obtain ⟨h, h1, h2⟩ := ha hon
  exact ⟨h, h1, by rw [cancel_due]; exact h2⟩

/-- Scheduling a timer that is not the head keeps the compare register at the due tick of the
head while the interrupt is enabled, in any state. -/
theorem schedule_armed_sparing (mii : Nat) (s : State) (this when : Nat)
    (hh : s.pendingList.head? ≠ some this)
    (ha : s.cpbsEnabled = true →
      ∃ h, s.pendingList.head? = some h ∧ s.tcRB % 2 ^ 32 = s.due h % 2 ^ 32) :
    (ScheduleCallbackFromIsr mii s this when).2.cpbsEnabled = true →
      ∃ h, (ScheduleCallbackFromIsr mii s this when).2.pendingList.head? = some h ∧
        (ScheduleCallbackFromIsr mii s this when).2.tcRB % 2 ^ 32
          = (ScheduleCallbackFromIsr mii s this when).2.due h % 2 ^ 32 := by
  have hpre : (if (s.timers this).active = true then CancelCallbackFromIsr s this
        else s).pendingList.head? ≠ some this ∧
      ((if (s.timers this).active = true then CancelCallbackFromIsr s this
        else s).cpbsEnabled = true →
      ∃ h, (if (s.timers this).active = true then CancelCallbackFromIsr s this
          else s).pendingList.head? = some h ∧
        (if (s.timers this).active = true then CancelCallbackFromIsr s this else s).tcRB
            % 2 ^ 32
          = (if (s.timers this).active = true then CancelCallbackFromIsr s this
              else s).due h % 2 ^ 32) := by
    split_ifs
    · refine ⟨?_, cancel_armed_sparing s this hh ha⟩
      rw [cancel_pendingList, erase_head_of_ne _ _ hh]
      exact hh
    · exact ⟨hh, ha⟩
  unfold ScheduleCallbackFromIsr
  simp only []
  generalize (if (s.timers this).active = true then CancelCallbackFromIsr s this else s) = c
    at hpre ⊢
  obtain ⟨hhc, hac⟩ := hpre
  have e1 : (GetTimerTicks (c.setWhenDue this when)).2.pendingList = c.pendingList := rfl
  have e2 : (GetTimerTicks (c.setWhenDue this when)).2.cpbsEnabled = c.cpbsEnabled := rfl
  have e3 : (GetTimerTicks (c.setWhenDue this when)).2.tcRB = c.tcRB := rfl
  have e4 : ∀ x, x ≠ this → (GetTimerTicks (c.setWhenDue this when)).2.due x = c.due x := by
    intro x hx
    show ((c.setWhenDue this when).timers x).whenDue = _
    rw [setWhenDue_timers_ne _ _ hx]
    rfl
  have e5 : (GetTimerTicks (c.setWhenDue this when)).2.due this = when := by
    show ((c.setWhenDue this when).timers this).whenDue = _
    simp
  generalize GetTimerTicks (c.setWhenDue this when) = r at e1 e2 e3 e4 e5 ⊢
  have hne : ∀ h, c.pendingList.head? = some h → h ≠ this :=
    fun h hhd e => hhc (e ▸ hhd)
  by_cases hd : dueBeforeHead r.2 (sdiff when r.1) r.1 = true
  · rw [if_pos hd]
    by_cases harm : sdiff when (r.2.tick 0) < toInt32 mii
    · rw [arm_true mii r.2 when harm]
      simp only [if_true]
      intro hon
      obtain ⟨h, hhd, ht⟩ := hac (e2 ▸ hon)
      exact ⟨h, by show r.2.pendingList.head? = _; rw [e1]; exact hhd, by
        show r.2.tcRB % 2 ^ 32 = r.2.due h % 2 ^ 32
        rw [e3, e4 h (hne h hhd)]; exact ht⟩
    · rw [arm_false mii r.2 when harm]
      simp only [Bool.false_eq_true, if_false]
      intro _
      refine ⟨this, rfl, ?_⟩
      show when % 2 ^ 32 = (State.due _ this) % 2 ^ 32
      simp only [State.due, setActive_timers_self]
      exact congrArg (· % 2 ^ 32) e5.symm
  · rw [if_neg hd]
    intro hon
    obtain ⟨y, hy, ht⟩ := hac (e2 ▸ hon)
    cases hl : c.pendingList with
    | nil => rw [hl] at hy; simp at hy
    | cons z zs =>
      have hz : z ≠ this := hne z (by rw [hl]; rfl)
      rw [hl] at hy
      simp only [List.head?_cons, Option.some.injEq] at hy
      subst hy
      have hdz : r.2.due z = c.due z := e4 z hz
      have hnb : ¬ sdiff when r.1 < sdiff (c.due z) r.1 := by
        intro hlt
        apply hd
        simp only [dueBeforeHead, e1, hl, hdz]
        exact decide_eq_true hlt
      rw [e1, hl]
      by_cases hq : sdiff (r.2.due z) r.1 < sdiff when r.1
      · refine ⟨z, ?_, ?_⟩
        · simp [linkAfterWalk, hq]
        · show r.2.tcRB % 2 ^ 32 = (State.due _ z) % 2 ^ 32
          simp only [State.due, setActive_timers_ne _ _ hz]
          rw [e3, ht]
          exact congrArg (· % 2 ^ 32) hdz.symm
      · refine ⟨this, ?_, ?_⟩
        · simp [linkAfterWalk, hq]
        · show r.2.tcRB % 2 ^ 32 = (State.due _ this) % 2 ^ 32
          simp only [State.due, setActive_timers_self]
          rw [e3, ht]
          have e5' : (r.2.timers this).whenDue = when := e5
          rw [e5']
          apply sdiff_eq_mod _ _ r.1
          rw [hdz] at hq
          omega

theorem dueInTurn_of_get (mii : Nat) (s : State) (l : List Nat) :
    ∀ k, (∀ i x, l.get? i = some x → sdiff (s.due x) (s.tick (k + i)) < toInt32 mii) →
      DueInTurn mii s k l := by
  induction l with
  | nil => intro k _; trivial
  | cons y ys ih =>
    intro k h
    refine ⟨h 0 y rfl, ih (k + 1) ?_⟩
    intro i x hx
    have := h (i + 1) x (by simpa using hx)
    rw [Nat.add_assoc, Nat.add_comm 1 i]
    exact this

/-! ## A pass that dispatches the head -/

/-- A pass that finds the head due and whose callback returns `false`: the head is unlinked
and inactive, the call is logged, everything else stays. -/
theorem interruptBody_dispatch_once (mii : Nat) (s : State) (tmr : Nat) (rest : List Nat)
    (cb : TimerCallbackFunction)
    (hl : s.pendingList = tmr :: rest)
    (h : sdiff (s.due tmr) (s.tick 0) < toInt32 mii)
    (hcb : (s.timers tmr).callback = some cb)
    (hc : (cb (s.timers tmr).cbParam (s.due tmr) s.world).1 = false) :
    (InterruptBody mii s).2 = true ∧
    (InterruptBody mii s).1.pendingList = rest ∧
    (InterruptBody mii s).1.calls = s.calls ++ [tmr] ∧
    (∀ x, x ≠ tmr → (InterruptBody mii s).1.timers x = s.timers x) ∧
    ((InterruptBody mii s).1.timers tmr).active = false ∧
    (InterruptBody mii s).1.reads = s.reads + 1 ∧
    (InterruptBody mii s).1.tcCV = s.tcCV := by
  have hc2 : (cb (s.timers tmr).cbParam (s.timers tmr).whenDue s.world).1 = false := hc
  simp only [InterruptBody, hl, arm_true mii s _ h]
  simp [hcb, hc2, State.due]
  intro x hx
  rw [setWhenDue_timers_ne _ _ hx]
  exact setActive_timers_ne _ _ hx

/-- A pass that finds the head due: the loop goes round again, one more reading of the
counter is used, the other timer objects stay, the call of a callback is logged, and the head
is either unlinked or linked again where the pairwise walk stops, active, with the due tick
its callback left. -/
theorem interruptBody_due (mii : Nat) (s : State) (tmr : Nat) (rest : List Nat)
    (hl : s.pendingList = tmr :: rest) (hn : tmr ∉ rest)
    (h : sdiff (s.due tmr) (s.tick 0) < toInt32 mii) :
    (InterruptBody mii s).2 = true ∧
    (InterruptBody mii s).1.reads = s.reads + 1 ∧
    (InterruptBody mii s).1.tcCV = s.tcCV ∧
    (∀ x, x ≠ tmr → (InterruptBody mii s).1.timers x = s.timers x) ∧
    (InterruptBody mii s).1.calls = s.calls ++ (if hasCallback s tmr then [tmr] else []) ∧
    ((InterruptBody mii s).1.pendingList = rest ∨
      ∃ cb, (s.timers tmr).callback = some cb ∧
        (cb (s.timers tmr).cbParam (s.due tmr) s.world).1 = true ∧
        (InterruptBody mii s).1.pendingList =
          linkAfterWalk (fun x => decide (sdiff
            (cb (s.timers tmr).cbParam (s.due tmr) s.world).2.1 (s.due x) > 0)) tmr rest ∧
        (InterruptBody mii s).1.due tmr = (cb (s.timers tmr).cbParam (s.due tmr) s.world).2.1 ∧
        ((InterruptBody mii s).1.timers tmr).active = true) := by
  cases hcb : (s.timers tmr).callback with
  | none =>
    rw [interruptBody_due_none mii s tmr rest hl h hcb]
    refine ⟨rfl, rfl, rfl, fun x hx => setActive_timers_ne _ _ hx, ?_, Or.inl rfl⟩
    simp [hasCallback, hcb]
  | some cb =>
    have hhas : hasCallback s tmr = true := by simp [hasCallback, hcb]
    cases hc : (cb (s.timers tmr).cbParam (s.due tmr) s.world).1 with
    | false =>
      obtain ⟨b1, b2, b3, b4, _, b6, b7⟩ :=
        interruptBody_dispatch_once mii s tmr rest cb hl h hcb hc
      exact ⟨b1, b6, b7, b4, by rw [b3, hhas]; rfl, Or.inl b2⟩
    | true =>
      obtain ⟨b1, b2, b3, b4, b5, b6, _, b8, b9, _⟩ :=
        interruptBody_dispatch_again mii s tmr rest cb hl hn h hcb hc
      exact ⟨b1, b8, b9, b4, by rw [b3, hhas]; rfl, Or.inr ⟨cb, rfl, hc, b2, b6, b5⟩⟩

theorem staysAhead_after_read (mii : Nat) (s s1 : State) (d : Nat)
    (htick : ∀ k, s1.tick k = s.tick (k + 1)) (k n : Nat)
    (h : StaysAhead mii s (k + 1) (n + 1) d) : StaysAhead mii s1 k n d := by
  intro i hi hn
  rw [htick i]
  exact h (i + 1) (by omega) (by omega)

theorem staysAhead_mono (mii : Nat) (s : State) (d : Nat) {j k m n : Nat} (hjk : j ≤ k)
    (hmn : m ≤ n) (h : StaysAhead mii s j n d) : StaysAhead mii s k m d :=
  fun i hi hm => h i (le_trans hjk hi) (le_trans hm hmn)

theorem leaves_congr (s s1 : State) (y : Nat) (P Q : Nat → Prop) (ht : s1.timers y = s.timers y)
    (hPQ : ∀ d, P d → Q d) (h : Leaves s y P) : Leaves s1 y Q := by
  intro cb hcb w hw
  have hd : s1.due y = s.due y := by simp only [State.due, ht]
  rw [ht] at hcb hw ⊢
  rw [hd] at hw ⊢
  exact hPQ _ (h cb hcb w hw)

/-- A timer that is pending with a due tick that stays ahead of the counter is not touched by
the rest of a run of the dispatch loop: when the loop returns within `n + 1` passes, the timer
is still linked, its object is as it was and its callback has not been invoked. -/
theorem interrupt_keeps (mii tmr : Nat) (T : Timer) (c : Nat) (n : Nat) :
    ∀ t s' : State, t.pendingList.Nodup → tmr ∈ t.pendingList → t.timers tmr = T →
      t.calls.count tmr = c → StaysAhead mii t 0 n T.whenDue →
      Interrupt mii (n + 1) t = some s' →
      s'.pendingList.Nodup ∧ tmr ∈ s'.pendingList ∧ s'.timers tmr = T ∧
        s'.calls.count tmr = c := by
  induction n with
  | zero =>
    intro t s' hnd hm hT hc hahead hrun
    rw [interrupt_succ] at hrun
    split_ifs at hrun with hflag
    · simp [Interrupt] at hrun
    · have hflag' : (InterruptBody mii t).2 = false := by simpa using hflag
      simp only [Option.some.injEq] at hrun
      subst hrun
      rcases interruptBody_return mii t hflag' with ⟨e, _⟩ | ⟨h, rest, _, e⟩
      · rw [e]; exact ⟨hnd, hm, hT, hc⟩
      · rw [e]; exact ⟨hnd, hm, hT, hc⟩
  | succ n ih =>
    intro t s' hnd hm hT hc hahead hrun
    rw [interrupt_succ] at hrun
    cases hl : t.pendingList with
    | nil => rw [hl] at hm; simp at hm
    | cons h rest =>
      by_cases hd : sdiff (t.due h) (t.tick 0) < toInt32 mii
      · have hnd' : (h :: rest).Nodup := hl ▸ hnd
        have hn : h ∉ rest := (List.nodup_cons.1 hnd').1
        have hne : tmr ≠ h := by
          intro e
          have := hahead 0 (le_refl _) (Nat.zero_le _)
          rw [← hT] at this
          rw [← e] at hd
          exact absurd hd (not_lt.2 this)
        have hmr : tmr ∈ rest := by
          rw [hl] at hm
          exact (List.mem_cons.1 hm).resolve_left hne
        obtain ⟨b1, b2, b3, b4, b5, b6⟩ := interruptBody_due mii t h rest hl hn hd
        rw [if_pos b1] at hrun
        have hnd1 : (InterruptBody mii t).1.pendingList.Nodup ∧
            tmr ∈ (InterruptBody mii t).1.pendingList := by
          rcases b6 with e | ⟨cb, _, _, e, _, _⟩
          · rw [e]; exact ⟨(List.nodup_cons.1 hnd').2, hmr⟩
          · rw [e]
            exact ⟨(linkAfterWalk_perm _ _ _).nodup_iff.2 hnd',
              (mem_linkAfterWalk _ _ _ _).2 (Or.inr hmr)⟩
        refine ih _ s' hnd1.1 hnd1.2 ((b4 tmr hne).trans hT) ?_ ?_ hrun
        · rw [b5, List.count_append, hc]
          split_ifs
          · rw [List.count_singleton]
            simp [hne.symm]
          · simp
        · exact staysAhead_after_read mii t _ _ (tick_after_read t _ b3 b2) 0 n
            (staysAhead_mono mii t _ (Nat.zero_le 1) (le_refl _) hahead)
      · rw [interruptBody_not_due mii t h rest hl hd] at hrun
        simp only [Bool.false_eq_true, if_false, Option.some.injEq] at hrun
        subst hrun
        exact ⟨hnd, hm, hT, hc⟩

theorem sortedAt_of_tail (s s1 : State) (r tmr : Nat) (rest : List Nat)
    (hl : s.pendingList = tmr :: rest) (hl1 : s1.pendingList = rest)
    (hdue : ∀ x ∈ rest, s1.due x = s.due x) (hs : SortedAt s r) : SortedAt s1 r := by
  unfold SortedAt at hs ⊢
  rw [hl] at hs
  rw [hl1]
  refine (List.pairwise_cons.1 hs).2.imp_of_mem ?_
  intro a b ha hb hab
  rw [hdue a ha, hdue b hb]
  exact hab

/-- The dispatch loop on a list of distinct timers each of which either has a due tick that
stays ahead of the counter for the next `n + 1` reads or is one of at most `n` timers whose
callback, when it asks for another schedule, leaves such a tick: the loop returns within
`n + 1` passes.  When moreover
the list is sorted relative to `r` and the pending due ticks and those the callbacks leave are
pairwise less than `2^31` apart, the list is sorted relative to `r` on return. -/
theorem interrupt_settles (mii : Nat) : ∀ (n : Nat) (t : State) (F : List Nat),
    F.length ≤ n → F.Nodup → t.pendingList.Nodup →
    (∀ x ∈ t.pendingList, StaysAhead mii t 0 n (t.due x) ∨
      (x ∈ F ∧ Leaves t x (StaysAhead mii t 0 n))) →
    ∃ s' : State, (∀ fuel, n < fuel → Interrupt mii fuel t = some s') ∧
      ∀ (r : Nat) (Tk : Nat → Prop),
        (∀ a b, Tk a → Tk b → sdiff a r - sdiff b r < 2 ^ 31) →
        SortedAt t r →
        (∀ x ∈ t.pendingList, Tk (t.due x) ∧ (x ∈ F → Leaves t x Tk)) → SortedAt s' r := by
  intro n
  induction n with
  | zero =>
    intro t F hF _ hnd hinv
    have hF0 : F = [] := List.length_eq_zero.1 (Nat.le_zero.1 hF)
    cases hl : t.pendingList with
    | nil =>
      refine ⟨t, ?_, fun r Tk _ hs _ => hs⟩
      intro fuel hf
      obtain ⟨m, rfl⟩ := Nat.exists_eq_succ_of_ne_zero (Nat.pos_iff_ne_zero.1 hf)
      rw [interrupt_succ, interruptBody_nil mii t hl]
      rfl
    | cons h rest =>
      have hd : ¬ sdiff (t.due h) (t.tick 0) < toInt32 mii := by
        rcases hinv h (by rw [hl]; exact List.mem_cons_self _ _) with hs | ⟨hf, _⟩
        · exact not_lt.2 (hs 0 (le_refl _) (Nat.zero_le _))
        · rw [hF0] at hf; simp at hf
      refine ⟨{ t with reads := t.reads + 1, tcRB := t.due h, cpbsEnabled := true }, ?_,
        fun r Tk _ hs _ => hs⟩
      intro fuel hf
      obtain ⟨m, rfl⟩ := Nat.exists_eq_succ_of_ne_zero (Nat.pos_iff_ne_zero.1 hf)
      rw [interrupt_succ, interruptBody_not_due mii t h rest hl hd]
      rfl
  | succ m ih =>
    intro t F hF hFnd hnd hinv
    cases hl : t.pendingList with
    | nil =>
      refine ⟨t, ?_, fun r Tk _ hs _ => hs⟩
      intro fuel hf
      obtain ⟨k, rfl⟩ : ∃ k, fuel = k + 1 := ⟨fuel - 1, by omega⟩
      rw [interrupt_succ, interruptBody_nil mii t hl]
      rfl
    | cons h rest =>
      by_cases hd : sdiff (t.due h) (t.tick 0) < toInt32 mii
      · have hnd' : (h :: rest).Nodup := hl ▸ hnd
        have hn : h ∉ rest := (List.nodup_cons.1 hnd').1
        have hhm : h ∈ t.pendingList := by rw [hl]; exact List.mem_cons_self _ _
        have hrm : ∀ x ∈ rest, x ∈ t.pendingList := fun x hx => by
          rw [hl]; exact List.mem_cons_of_mem _ hx
        obtain ⟨hhF, hhL⟩ : h ∈ F ∧ Leaves t h (StaysAhead mii t 0 (m + 1)) := by
          rcases hinv h hhm with hs | hf
          · exact absurd hd (not_lt.2 (hs 0 (le_refl _) (Nat.zero_le _)))
          · exact hf
        obtain ⟨b1, b2, b3, b4, _, b6⟩ := interruptBody_due mii t h rest hl hn hd
        have htick := tick_after_read t (InterruptBody mii t).1 b3 b2
        have hdue_ne : ∀ x, x ≠ h → (InterruptBody mii t).1.due x = t.due x := by
          intro x hx
          simp only [State.due, b4 x hx]
        have hne : ∀ x ∈ rest, x ≠ h := fun x hx e => hn (e ▸ hx)
        have hmem1 : ∀ x ∈ (InterruptBody mii t).1.pendingList, x = h ∨ x ∈ rest := by
          intro x hx
          rcases b6 with e | ⟨cb, _, _, e, _, _⟩
          · rw [e] at hx; exact Or.inr hx
          · rw [e] at hx; exact (mem_linkAfterWalk _ _ _ _).1 hx
        have hnd1 : (InterruptBody mii t).1.pendingList.Nodup := by
          rcases b6 with e | ⟨cb, _, _, e, _, _⟩
          · rw [e]; exact (List.nodup_cons.1 hnd').2
          · rw [e]; exact (linkAfterWalk_perm _ _ _).nodup_iff.2 hnd'
        have hlen : (F.erase h).length ≤ m := by
          rw [List.length_erase_of_mem hhF]
          omega
        have hinv1 : ∀ x ∈ (InterruptBody mii t).1.pendingList,
            StaysAhead mii (InterruptBody mii t).1 0 m ((InterruptBody mii t).1.due x) ∨
            (x ∈ F.erase h ∧
              Leaves (InterruptBody mii t).1 x (StaysAhead mii (InterruptBody mii t).1 0 m)) := by
          intro x hx
          by_cases hxh : x = h
          · subst hxh
            rcases b6 with e | ⟨cb, hcb, hc, _, e5, _⟩
            · rw [e] at hx; exact absurd hx hn
            · left
              rw [e5]
              exact staysAhead_after_read mii t _ _ htick 0 m
                (staysAhead_mono mii t _ (Nat.zero_le 1) (le_refl _) (hhL cb hcb t.world hc))
          · have hxr : x ∈ rest := (hmem1 x hx).resolve_left hxh
            rcases hinv x (hrm x hxr) with hs | ⟨hf, hL⟩
            · left
              rw [hdue_ne x hxh]
              exact staysAhead_after_read mii t _ _ htick 0 m
                (staysAhead_mono mii t _ (Nat.zero_le 1) (le_refl _) hs)
            · right
              refine ⟨(List.mem_erase_of_ne hxh).2 hf, ?_⟩
              exact leaves_congr t _ x _ _ (b4 x hxh)
                (fun d hd' => staysAhead_after_read mii t _ d htick 0 m
                  (staysAhead_mono mii t d (Nat.zero_le 1) (le_refl _) hd')) hL
        obtain ⟨s', c1, c2⟩ := ih (InterruptBody mii t).1 (F.erase h) hlen (hFnd.erase h) hnd1
          hinv1
        refine ⟨s', ?_, ?_⟩
        · intro fuel hf
          obtain ⟨k, rfl⟩ : ∃ k, fuel = k + 1 := ⟨fuel - 1, by omega⟩
          rw [interrupt_succ, if_pos b1]
          exact c1 k (by omega)
        · intro r Tk hTk hs hT
          apply c2 r Tk hTk
          · rcases b6 with e | ⟨cb, hcb, hc, _, _, _⟩
            · exact sortedAt_of_tail t _ r h rest hl e (fun x hx => hdue_ne x (hne x hx)) hs
            · apply interruptBody_again_sorted mii r t h rest cb hl hnd hd hcb hc hs
              intro x hx
              have hnew := (hT h (List.mem_cons_self _ _)).2 hhF cb hcb t.world hc
              have hold := (hT x (List.mem_cons_of_mem _ hx)).1
              have h1 := hTk _ _ hnew hold
              have h2 := hTk _ _ hold hnew
              constructor <;> omega
          · intro x hx
            by_cases hxh : x = h
            · subst hxh
              rcases b6 with e | ⟨cb, hcb, hc, _, e5, _⟩
              · rw [e] at hx; exact absurd hx hn
              · refine ⟨?_, fun hf => absurd hf (hFnd.not_mem_erase)⟩
                rw [e5]
                exact (hT x (List.mem_cons_self _ _)).2 hhF cb hcb t.world hc
            · have hxr : x ∈ rest := (hmem1 x hx).resolve_left hxh
              refine ⟨?_, fun hf => ?_⟩
              · rw [hdue_ne x hxh]; exact (hT x (List.mem_cons_of_mem _ hxr)).1
              · exact leaves_congr t _ x _ _ (b4 x hxh) (fun d hd' => hd')
                  ((hT x (List.mem_cons_of_mem _ hxr)).2 (List.mem_of_mem_erase hf))
      · refine ⟨{ t with reads := t.reads + 1, tcRB := t.due h, cpbsEnabled := true }, ?_,
          fun r Tk _ hs _ => hs⟩
        intro fuel hf
        obtain ⟨k, rfl⟩ : ∃ k, fuel = k + 1 := ⟨fuel - 1, by omega⟩
        rw [interrupt_succ, interruptBody_not_due mii t h rest hl hd]
        rfl

/-! ## The membership invariant under callbacks that use the scheduler -/

/-- A pass of the dispatch loop keeps the membership invariant when the callback keeps the
chain well formed. -/
theorem reentrant_body_membershipInv (run : CallbackEffect) (mii : Nat) (s : State)
    (hrun : KeepsChain run) (h : MembershipInv s) :
    MembershipInv (Reentrant.InterruptBody run mii s).1 := by
  cases hl : s.pendingList with
  | nil => rw [reentrant_body_nil run mii s hl]; exact h
  | cons tmr rest =>
    by_cases hd : sdiff (s.due tmr) (s.tick 0) < toInt32 mii
    · have hnd : (tmr :: rest).Nodup := hl ▸ h.1
      have hn : tmr ∉ rest := (List.nodup_cons.1 hnd).1
      have hpop : MembershipInv
          (({ s with reads := s.reads + 1, pendingList := rest }).setActive tmr false) :=
        membershipInv_congr rfl rfl (membershipInv_pop s tmr rest hl h)
      cases hcb : (s.timers tmr).callback with
      | none => rw [reentrant_body_due_none run mii s tmr rest hl hd hcb]; exact hpop
      | some cb =>
        have hcall : MembershipInv (Reentrant.atCall s tmr rest) :=
          membershipInv_congr rfl rfl hpop
        obtain ⟨k1, k2⟩ := hrun tmr (Reentrant.atCall s tmr rest) hcall hn
        rw [reentrant_body_due_some run mii s tmr rest cb hl hd hcb]
        split_ifs with hc
        · exact membershipInv_link _ tmr _ (k2 hc) k1
        · exact k1
    · rw [reentrant_body_not_due run mii s tmr rest hl hd]
      exact membershipInv_congr rfl rfl h

/-- A run of `StepTimer::Interrupt` keeps the membership invariant when the callbacks keep
the chain well formed. -/
theorem reentrant_interrupt_membershipInv (run : CallbackEffect) (mii : Nat)
    (hrun : KeepsChain run) (fuel : Nat) :
    ∀ s s' : State, MembershipInv s → Reentrant.Interrupt run mii fuel s = some s' →
      MembershipInv s' := by
  induction fuel with
  | zero => intro s s' _ h; simp [Reentrant.Interrupt] at h
  | succ n ih =>
    intro s s' hinv h
    rw [reentrant_interrupt_succ] at h
    have hb := reentrant_body_membershipInv run mii s hrun hinv
    split_ifs at h with hc
    · exact ih _ _ hb h
    · cases h; exact hb

/-- Calls of `ScheduleCallbackFromIsr` and `CancelCallbackFromIsr` by a callback that returns
`false` keep the chain well formed. -/
theorem keepsChain_of_calls (mii : Nat) (calls : Nat → List Call)
    : KeepsChain (fun tmr t => (false, (runCalls mii t 0 (calls tmr)).1)) := by
  intro x t hinv hx
  clear hx
  refine ⟨?_, fun h => Bool.noConfusion h⟩
  show MembershipInv (runCalls mii t 0 (calls x)).1
  generalize calls x = cs
  generalize (0 : Nat) = last
  induction cs generalizing t last with
  | nil => exact hinv
  | cons c cs ih =>
    cases c with
    | schedule this when => exact ih _ (schedule_membershipInv mii t this when hinv) _
    | cancel this => exact ih _ (cancel_membershipInv t this hinv) _

/-! ## Draining with callbacks that return false -/

/-- A pass that finds the head due and whose callback, if any, returns `false`: the head is
unlinked and inactive, everything else stays. -/
theorem interruptBody_dispatch_false (mii : Nat) (s : State) (tmr : Nat) (rest : List Nat)
    (hl : s.pendingList = tmr :: rest)
    (h : sdiff (s.due tmr) (s.tick 0) < toInt32 mii)
    (hq : ∀ cb, (s.timers tmr).callback = some cb →
      (cb (s.timers tmr).cbParam (s.due tmr) s.world).1 = false) :
    (InterruptBody mii s).2 = true ∧
    (InterruptBody mii s).1.pendingList = rest ∧
    (InterruptBody mii s).1.calls = s.calls ++ (if hasCallback s tmr then [tmr] else []) ∧
    (∀ x, x ≠ tmr → (InterruptBody mii s).1.timers x = s.timers x) ∧
    ((InterruptBody mii s).1.timers tmr).active = false ∧
    ((InterruptBody mii s).1.timers tmr).callback = (s.timers tmr).callback ∧
    (InterruptBody mii s).1.reads = s.reads + 1 ∧
    (InterruptBody mii s).1.tcCV = s.tcCV ∧
    (InterruptBody mii s).1.tcRB = s.tcRB ∧
    (InterruptBody mii s).1.cpbsEnabled = s.cpbsEnabled ∧
    (InterruptBody mii s).1.basePri = s.basePri := by
  cases hcb : (s.timers tmr).callback with
  | none =>
    rw [interruptBody_due_none mii s tmr rest hl h hcb]
    refine ⟨rfl, rfl, ?_, fun x hx => setActive_timers_ne _ _ hx, ?_, ?_, rfl, rfl, rfl, rfl, rfl⟩
    · simp [hasCallback, hcb]
    · simp
    · simp [hcb]
  | some cb =>
    have hf : (cb (s.timers tmr).cbParam (s.timers tmr).whenDue s.world).1 = false :=
      hq cb hcb
    simp only [InterruptBody, hl, arm_true mii s _ h]
    simp [hcb, hf, hasCallback, State.due]
    intro x hx
    rw [setWhenDue_timers_ne _ _ hx]
    exact setActive_timers_ne _ _ hx

/-- The dispatch loop on a list whose front is found due in turn, with callbacks that return
`false`, and whose remainder is empty or starts with a timer that the next arm check finds
not due: the loop returns after exactly one pass per timer of the front and one more; it
leaves the remainder as the list, has invoked the callbacks of the front in list order, and
has armed the interrupt for the head of the remainder. -/
theorem interrupt_drain_false (mii : Nat) (front back : List Nat) :
    ∀ s : State, s.pendingList = front ++ back → s.pendingList.Nodup →
      DueInTurn mii s 0 front → (∀ x ∈ front, ReturnsFalse s x) →
      (∀ h, back.head? = some h → toInt32 mii ≤ sdiff (s.due h) (s.tick front.length)) →
      ∃ s' : State,
        (∀ fuel, front.length < fuel → Interrupt mii fuel s = some s') ∧
        (∀ fuel, fuel ≤ front.length → Interrupt mii fuel s = none) ∧
        s'.pendingList = back ∧
        s'.calls = s.calls ++ front.filter (hasCallback s) ∧
        (∀ x ∈ front, (s'.timers x).active = false) ∧
        (∀ x, x ∉ front → s'.timers x = s.timers x) ∧
        (∀ h, back.head? = some h → s'.tcRB = s.due h ∧ s'.cpbsEnabled = true) := by
  induction front with
  | nil =>
    intro s hl _ _ _ hback
    simp only [List.nil_append] at hl
    cases back with
    | nil =>
      refine ⟨s, ?_, ?_, hl, by simp, by simp, fun _ _ => rfl, by simp⟩
      · intro fuel hf
        obtain ⟨n, rfl⟩ : ∃ n, fuel = n + 1 := ⟨fuel - 1, by simp at hf; omega⟩
        rw [interrupt_succ, interruptBody_nil mii s hl]
        rfl
      · intro fuel hf
        have : fuel = 0 := Nat.le_zero.1 hf
        subst this
        rfl
    | cons h t =>
      have hnd : ¬ sdiff (s.due h) (s.tick 0) < toInt32 mii := not_lt.2 (hback h rfl)
      refine ⟨{ s with reads := s.reads + 1, tcRB := s.due h, cpbsEnabled := true }, ?_, ?_, hl,
        by simp, by simp, fun _ _ => rfl, ?_⟩
      · intro fuel hf
        obtain ⟨n, rfl⟩ : ∃ n, fuel = n + 1 := ⟨fuel - 1, by simp at hf; omega⟩
        rw [interrupt_succ, interruptBody_not_due mii s h t hl hnd]
        rfl
      · intro fuel hf
        have : fuel = 0 := Nat.le_zero.1 hf
        subst this
        rfl
      · intro h' hh'
        simp only [List.head?_cons, Option.some.injEq] at hh'
        subst hh'
        exact ⟨rfl, rfl⟩
  | cons x xs ih =>
    intro s hl hnd hdue hquiet hback
    have hl' : s.pendingList = x :: (xs ++ back) := by rw [hl]; rfl
    have hnd' : (x :: (xs ++ back)).Nodup := hl' ▸ hnd
    have hx : x ∉ xs ++ back := (List.nodup_cons.1 hnd').1
    have hxxs : x ∉ xs := fun h => hx (List.mem_append_left _ h)
    obtain ⟨b2, b3, b4, b5, b6, _, b8, b9, _, _, _⟩ :=
      interruptBody_dispatch_false mii s x (xs ++ back) hl' hdue.1
        (fun cb hcb => hquiet x (List.mem_cons_self _ _) cb hcb s.world)
    have hne : ∀ y ∈ xs ++ back, y ≠ x := fun y hy e => hx (e ▸ hy)
    have hdue1 : ∀ y ∈ xs ++ back, (InterruptBody mii s).1.due y = s.due y := by
      intro y hy
      simp only [State.due, b5 y (hne y hy)]
    have htick := tick_after_read s (InterruptBody mii s).1 b9 b8
    obtain ⟨s', c1, c2, c3, c4, c5, c6, c7⟩ := ih (InterruptBody mii s).1 b3
      (b3 ▸ (List.nodup_cons.1 hnd').2)
      (dueInTurn_after_read mii s _ xs (fun y hy => hdue1 y (List.mem_append_left _ hy))
        htick 0 hdue.2)
      (by
        intro y hy cb hcb w
        have hym : y ∈ xs ++ back := List.mem_append_left _ hy
        have ht := b5 y (hne y hym)
        rw [ht] at hcb ⊢
        rw [hdue1 y hym]
        exact hquiet y (List.mem_cons_of_mem _ hy) cb hcb w)
      (by
        intro h hh
        have hm : h ∈ xs ++ back := List.mem_append_right _ (List.mem_of_mem_head? hh)
        rw [hdue1 h hm, htick]
        exact hback h hh)
    refine ⟨s', ?_, ?_, c3, ?_, ?_, ?_, ?_⟩
    · intro fuel hf
      cases fuel with
      | zero => exact absurd hf (Nat.not_lt_zero _)
      | succ n =>
        rw [interrupt_succ, if_pos b2]
        exact c1 n (by simpa using hf)
    · intro fuel hf
      cases fuel with
      | zero => rfl
      | succ n =>
        rw [interrupt_succ, if_pos b2]
        exact c2 n (by simpa using hf)
    · rw [c4, b4, List.append_assoc]
      congr 1
      have hfil : xs.filter (hasCallback (InterruptBody mii s).1) = xs.filter (hasCallback s) := by
        apply List.filter_congr
        intro y hy
        simp only [hasCallback, b5 y (hne y (List.mem_append_left _ hy))]
      rw [hfil, List.filter_cons]
      split_ifs <;> rfl
    · intro y hy
      rcases List.mem_cons.1 hy with e | hm
      · rw [e, c6 x hxxs]; exact b6
      · exact c5 y hm
    · intro y hy
      have hyx : y ≠ x := fun e => hy (e ▸ List.mem_cons_self _ _)
      have hyxs : y ∉ xs := fun h => hy (List.mem_cons_of_mem _ h)
      rw [c6 y hyxs, b5 y hyx]
    · intro h hh
      obtain ⟨r2, r3⟩ := c7 h hh
      have hm : h ∈ xs ++ back := List.mem_append_right _ (List.mem_of_mem_head? hh)
      exact ⟨r2.trans (hdue1 h hm), r3⟩

/-! # The claims -/

/-! ## C1: Contract of `ScheduleCallbackFromIsr` -/

/-- C1. With `now` the tick read by the call and `L` the pending list without the timer's own
prior schedule, `ScheduleCallbackFromIsr` returns `true` exactly when `L` is empty or the
signed difference of `when` from `now` is less than that of the head of `L`, and the arm
check `ScheduleTimerInterrupt(when)`, made in the state reached after that read, reports that
the tick is already due; the list is then `L` and the timer is inactive.  In every other case
it returns `false`, the timer is active, linked in the list, and its due tick is `when`. -/
theorem scheduleCallbackFromIsr_contract (mii : Nat) (s : State) (this when : Nat)
    (hinv : MembershipInv s) :
    ((ScheduleCallbackFromIsr mii s this when).1 = true ↔
      ((s.pendingList.erase this = [] ∨
          ∃ h, (s.pendingList.erase this).head? = some h ∧
            sdiff when (GetTimerTicks s).1 < sdiff (s.due h) (GetTimerTicks s).1) ∧
        (ScheduleTimerInterrupt mii
          (GetTimerTicks ((CancelCallbackFromIsr s this).setWhenDue this when)).2 when).1
            = true)) ∧
    ((ScheduleCallbackFromIsr mii s this when).1 = true →
      (ScheduleCallbackFromIsr mii s this when).2.pendingList = s.pendingList.erase this ∧
      ((ScheduleCallbackFromIsr mii s this when).2.timers this).active = false) ∧
    ((ScheduleCallbackFromIsr mii s this when).1 = false →
      ((ScheduleCallbackFromIsr mii s this when).2.timers this).active = true ∧
      this ∈ (ScheduleCallbackFromIsr mii s this when).2.pendingList ∧
      ((ScheduleCallbackFromIsr mii s this when).2.timers this).whenDue = when) := by
  have hres := schedule_result mii s this when hinv
  have hact := schedule_active_self mii s this when hinv
  have hdue := schedule_whenDue_self mii s this when hinv
  have hmem := schedule_mem_iff mii s this when hinv this
  have hpl := schedule_pendingList mii s this when hinv
  have hhead := dueBeforeHead_prepared s this when (sdiff when (s.tick 0)) (s.tick 0) hinv
  have harm : (ScheduleTimerInterrupt mii
      (GetTimerTicks ((CancelCallbackFromIsr s this).setWhenDue this when)).2 when).1
      = decide (sdiff when (s.tick 1) < toInt32 mii) := by
    rw [arm_result]
    have e1 : (GetTimerTicks ((CancelCallbackFromIsr s this).setWhenDue this when)).2.tick 0
        = s.tick 1 := by
      simp only [State.tick, GetTimerTicks, setWhenDue_tcCV, setWhenDue_reads, cancel_tcCV,
        cancel_reads, Nat.add_zero]
    rw [e1]
  have e0 : (GetTimerTicks s).1 = s.tick 0 := rfl
  rw [e0, harm]
  refine ⟨?_, ?_, ?_⟩
  · rw [hres, Bool.and_eq_true, hhead]
  · intro ht
    rw [hres, Bool.and_eq_true, decide_eq_true_iff] at ht
    refine ⟨?_, ?_⟩
    · rw [hpl, if_pos ht.1, if_pos ht.2]
    · rw [hact, hres]; simp [ht.1, ht.2]
  · intro hf
    refine ⟨?_, ?_, hdue⟩
    · rw [hact, hf]; rfl
    · rw [hmem]; exact Or.inl ⟨rfl, hf⟩

/-- The contract of C1 at the scenario A, B, C: scheduling a fourth timer for tick 3 at
tick 0 is refused as imminent. -/
theorem scheduleCallbackFromIsr_contract_witness :
    MembershipInv scenarioABC ∧
    (ScheduleCallbackFromIsr 6 scenarioABC 4 3).1 = true ∧
    (ScheduleCallbackFromIsr 6 scenarioABC 4 3).2.pendingList = [1, 3, 2] ∧
    ((ScheduleCallbackFromIsr 6 scenarioABC 4 3).2.timers 4).active = false :=
  have h := scheduleCallbackFromIsr_contract 6 scenarioABC 4 3 scenarioABC_membershipInv
  have ht : (ScheduleCallbackFromIsr 6 scenarioABC 4 3).1 = true := by decide
  ⟨scenarioABC_membershipInv, ht, (h.2.1 ht).1.trans (by decide), (h.2.1 ht).2⟩

/-! ## C2: Imminent deadlines -/

/-- C2, counterexample.  Timer `1` is pending for tick 1001 and the counter stands at 1000.
Tick 1003 is 3 ticks ahead, less than the minimum interval 6, yet scheduling timer `2` for it
returns `false` and leaves the timer active, linked behind the head. -/
theorem imminent_behind_head_is_queued :
    lateHead.pendingList = [1] ∧ lateHead.due 1 = 1001 ∧ (GetTimerTicks lateHead).1 = 1000 ∧
    sdiff 1003 (GetTimerTicks lateHead).1 < toInt32 6 ∧
    (ScheduleCallbackFromIsr 6 lateHead 2 1003).1 = false ∧
    ((ScheduleCallbackFromIsr 6 lateHead 2 1003).2.timers 2).active = true ∧
    (ScheduleCallbackFromIsr 6 lateHead 2 1003).2.pendingList = [1, 2] := by
  decide

/-- C2, amended.  In a state satisfying the membership invariant, when the pending list
without the timer is empty or `when` is sooner than its head, and the signed difference of
`when` from the tick read by the arm check is less than `MinInterruptInterval`,
`ScheduleCallbackFromIsr` returns `true` and the timer is not active afterwards. -/
theorem imminent_deadline_fires_now (mii : Nat) (s : State) (this when : Nat)
    (hinv : MembershipInv s)
    (hhead : s.pendingList.erase this = [] ∨
      ∃ h, (s.pendingList.erase this).head? = some h ∧
        sdiff when (GetTimerTicks s).1 < sdiff (s.due h) (GetTimerTicks s).1)
    (himm : sdiff when (GetTimerTicks (GetTimerTicks s).2).1 < toInt32 mii) :
    (ScheduleCallbackFromIsr mii s this when).1 = true ∧
    ((ScheduleCallbackFromIsr mii s this when).2.timers this).active = false := by
  have hres := schedule_result mii s this when hinv
  have hact := schedule_active_self mii s this when hinv
  have hh := (dueBeforeHead_prepared s this when (sdiff when (s.tick 0)) (s.tick 0) hinv).2 hhead
  have hi : sdiff when (s.tick 1) < toInt32 mii := himm
  have ht : (ScheduleCallbackFromIsr mii s this when).1 = true := by
    rw [hres, hh]; simp [hi]
  exact ⟨ht, by rw [hact, ht]; rfl⟩

/-- The scenario of C2: at tick 1000 with nothing pending, tick 1003 is refused when the
minimum interval is 6. -/
theorem imminent_deadline_fires_now_witness :
    (ScheduleCallbackFromIsr 6 (bootAt 1000) 1 1003).1 = true ∧
    ((ScheduleCallbackFromIsr 6 (bootAt 1000) 1 1003).2.timers 1).active = false :=
  imminent_deadline_fires_now 6 (bootAt 1000) 1 1003 (initial_membershipInv _ _)
    (Or.inl rfl) (by decide)

/-! ## C3: Sortedness of the pending list -/

/-- No signed difference wraps along `lateCalls`, where the counter moves from 900 to 1000. -/
theorem lateCalls_wrapFree :
    WrapFree 6 (initial lateClock (fun _ => rawTimer)) 0 (lateCalls ++ []) := by
  simp only [lateCalls, List.append_nil, WrapFree, NoWrap, and_true]
  decide

/-- C3. Along every sequence of schedule and cancel calls in which no signed difference
between a pending due tick and the clock wraps between consecutive snapshots, after every
call the pending list is in non-decreasing order of `(int32_t)(whenDue - now)` for the `now`
of the most recent schedule call; this holds from the empty list in particular.  A single
schedule call on a list sorted relative to its own `now` leaves it sorted relative to that
`now`, and cancel preserves sortedness relative to any tick. -/
theorem pendingList_stays_sorted (mii : Nat) :
    (∀ (s : State) (last : Nat) (cs cs' : List Call), MembershipInv s → SortedAt s last →
      WrapFree mii s last (cs ++ cs') →
        SortedAt (runCalls mii s last cs).1 (runCalls mii s last cs).2) ∧
    (∀ (s : State) (last : Nat) (cs cs' : List Call), s.pendingList = [] →
      (∀ x, (s.timers x).active = false) → WrapFree mii s last (cs ++ cs') →
        SortedAt (runCalls mii s last cs).1 (runCalls mii s last cs).2) ∧
    (∀ (s : State) (this when : Nat), MembershipInv s → SortedAt s (GetTimerTicks s).1 →
      SortedAt (ScheduleCallbackFromIsr mii s this when).2 (GetTimerTicks s).1) ∧
    (∀ (s : State) (this now : Nat), SortedAt s now →
      SortedAt (CancelCallbackFromIsr s this) now) := by
  refine ⟨?_, ?_, ?_, ?_⟩
  · intro s last cs cs' hinv hs hw
    exact (runCalls_sorted mii cs s last hinv hs (wrapFree_of_append mii cs cs' s last hw)).2
  · intro s last cs cs' hl ha hw
    refine (runCalls_sorted mii cs s last (membershipInv_of_empty s hl ha) ?_
      (wrapFree_of_append mii cs cs' s last hw)).2
    unfold SortedAt
    rw [hl]
    exact List.Pairwise.nil
  · intro s this when hinv hs
    exact schedule_sortedAt mii s this when hinv hs
  · intro s this now hs
    exact cancel_sortedAt s this now hs

/-- The sorted list after the calls `lateCalls`, during which the counter moves from 900 to
1000. -/
theorem pendingList_stays_sorted_witness :
    (runCalls 6 (initial lateClock (fun _ => rawTimer)) 0 lateCalls).1.pendingList = [3, 2] ∧
    (runCalls 6 (initial lateClock (fun _ => rawTimer)) 0 lateCalls).2 = 1000 ∧
    SortedAt (runCalls 6 (initial lateClock (fun _ => rawTimer)) 0 lateCalls).1
      (runCalls 6 (initial lateClock (fun _ => rawTimer)) 0 lateCalls).2 :=
  ⟨by decide, by decide,
    (pendingList_stays_sorted 6).2.1 (initial lateClock (fun _ => rawTimer)) 0 lateCalls []
      rfl (fun _ => rfl) lateCalls_wrapFree⟩

/-! ## C4: Membership invariant -/

/-- C4. The membership invariant (a timer is linked at most once, and is active exactly when
it is linked) holds when the list is empty and no timer is active, and is preserved by
`ScheduleCallbackFromIsr`, by `CancelCallbackFromIsr`, by every pass of the loop of
`StepTimer::Interrupt`, and so by `StepTimer::Interrupt` whenever it returns. -/
theorem membershipInv_preserved (mii : Nat) :
    (∀ s : State, s.pendingList = [] → (∀ x, (s.timers x).active = false) →
      MembershipInv s) ∧
    (∀ tcCV timers, MembershipInv (initial tcCV timers)) ∧
    (∀ (s : State) (this when : Nat), MembershipInv s →
      MembershipInv (ScheduleCallbackFromIsr mii s this when).2) ∧
    (∀ (s : State) (this : Nat), MembershipInv s →
      MembershipInv (CancelCallbackFromIsr s this)) ∧
    (∀ s : State, MembershipInv s → MembershipInv (InterruptBody mii s).1) ∧
    (∀ (fuel : Nat) (s s' : State), MembershipInv s → Interrupt mii fuel s = some s' →
      MembershipInv s') :=
  ⟨membershipInv_of_empty, initial_membershipInv,
    fun s this when h => schedule_membershipInv mii s this when h,
    fun s this h => cancel_membershipInv s this h,
    interruptBody_membershipInv mii, interrupt_membershipInv mii⟩

/-- The invariant after a dispatch in which timer `1` is rescheduled by its callback, timer
`3` fires once and timer `2` is armed; the dispatch returns after three passes. -/
theorem membershipInv_preserved_witness :
    (Interrupt 6 3 dispatchScenario).map (fun s => s.pendingList) = some [2, 1] ∧
    (∀ s', Interrupt 6 3 dispatchScenario = some s' → MembershipInv s') ∧
    MembershipInv (CancelCallbackFromIsr (ScheduleCallbackFromIsr 6 scenarioABC 1 130).2 3) :=
  ⟨by decide,
   fun s' h => (membershipInv_preserved 6).2.2.2.2.2 3 dispatchScenario s'
      dispatchScenario_membershipInv h,
   (membershipInv_preserved 6).2.2.2.1 _ 3
      ((membershipInv_preserved 6).2.2.1 scenarioABC 1 130 scenarioABC_membershipInv)⟩

/-! ## C5: Equal deadlines -/

/-- C5, counterexample.  Timer `1` is pending for tick 100; scheduling timer `2` for the same
tick links it in front of timer `1`.  With timers pending for 100, 120, 150, a timer scheduled
for tick 120 is linked in front of the one already pending for 120. -/
theorem equal_deadline_goes_first :
    oneAt100.pendingList = [1] ∧ oneAt100.due 1 = 100 ∧
    (ScheduleCallbackFromIsr 6 oneAt100 2 100).1 = false ∧
    (ScheduleCallbackFromIsr 6 oneAt100 2 100).2.pendingList = [2, 1] ∧
    scenarioABC.pendingList = [1, 3, 2] ∧ scenarioABC.due 3 = 120 ∧
    (ScheduleCallbackFromIsr 6 scenarioABC 4 120).2.pendingList = [1, 4, 3, 2] := by
  decide

/-- C5, amended.  When `ScheduleCallbackFromIsr` links a timer, it is placed behind timers
that are all strictly sooner and immediately in front of the first timer that is not sooner;
every pending timer with the same due tick comes after it. -/
theorem equal_deadline_linked_before (mii : Nat) (s : State) (this when : Nat)
    (hinv : MembershipInv s)
    (hf : (ScheduleCallbackFromIsr mii s this when).1 = false) :
    ∃ pre post, s.pendingList.erase this = pre ++ post ∧
      (ScheduleCallbackFromIsr mii s this when).2.pendingList = pre ++ this :: post ∧
      (∀ x ∈ pre, sdiff (s.due x) (GetTimerTicks s).1 < sdiff when (GetTimerTicks s).1) ∧
      (∀ y, post.head? = some y →
        sdiff when (GetTimerTicks s).1 ≤ sdiff (s.due y) (GetTimerTicks s).1) ∧
      (∀ y ∈ s.pendingList, y ≠ this → s.due y = when → y ∈ post) := by
  obtain ⟨pre, post, h1, h2, h3, h4⟩ := schedule_position mii s this when hinv hf
  refine ⟨pre, post, h1, h2, h3, h4, fun y hy hne hdue => ?_⟩
  have hyL : y ∈ s.pendingList.erase this := (List.mem_erase_of_ne hne).2 hy
  rw [h1, List.mem_append] at hyL
  rcases hyL with hp | hp
  · have := h3 y hp
    rw [hdue] at this
    exact absurd this (lt_irrefl _)
  · exact hp

/-- The amended C5 at the scenario A, B, C with a fourth timer for tick 120. -/
theorem equal_deadline_linked_before_witness :
    (ScheduleCallbackFromIsr 6 scenarioABC 4 120).1 = false ∧
    ∃ pre post, scenarioABC.pendingList.erase 4 = pre ++ post ∧
      (ScheduleCallbackFromIsr 6 scenarioABC 4 120).2.pendingList = pre ++ 4 :: post ∧
      (∀ y ∈ scenarioABC.pendingList, y ≠ 4 → scenarioABC.due y = 120 → y ∈ post) := by
  obtain ⟨pre, post, h1, h2, _, _, h5⟩ :=
    equal_deadline_linked_before 6 scenarioABC 4 120 scenarioABC_membershipInv (by decide)
  exact ⟨by decide, pre, post, h1, h2, h5⟩

/-! ## C6: Wraparound -/

/-- C6. With the counter standing at `now` and offsets `MinInterruptInterval <= p < d < 2^31`
such that `now + p` does not overflow 32 bits and `now + d` does, the post-wrap due tick is
numerically smaller than the pre-wrap one but its signed difference from `now` is `d`;
scheduling the two timers in either order returns `false` for both and leaves the post-wrap
timer behind the pre-wrap timer in the pending list; starting from the empty list the list is
the pre-wrap timer followed by the post-wrap timer. -/
theorem wraparound_order (mii now p d : Nat) (s : State) (a b : Nat)
    (hinv : MembershipInv s) (hab : a ≠ b) (hclock : ∀ k, s.tick k = now)
    (hp : mii ≤ p) (hpd : p < d) (hd : d < 2 ^ 31)
    (hnp : now + p < 2 ^ 32) (hnd : 2 ^ 32 ≤ now + d) :
    (now + d) % 2 ^ 32 < (now + p) % 2 ^ 32 ∧
    sdiff ((now + d) % 2 ^ 32) now = (d : Int) ∧
    (scheduleAll mii s [(a, (now + p) % 2 ^ 32), (b, (now + d) % 2 ^ 32)]).1 = [false, false] ∧
    (∃ l1 l2 l3, (scheduleAll mii s [(a, (now + p) % 2 ^ 32), (b, (now + d) % 2 ^ 32)]).2.pendingList
      = l1 ++ a :: l2 ++ b :: l3) ∧
    (scheduleAll mii s [(b, (now + d) % 2 ^ 32), (a, (now + p) % 2 ^ 32)]).1 = [false, false] ∧
    (∃ l1 l2 l3, (scheduleAll mii s [(b, (now + d) % 2 ^ 32), (a, (now + p) % 2 ^ 32)]).2.pendingList
      = l1 ++ a :: l2 ++ b :: l3) ∧
    (s.pendingList = [] →
      (scheduleAll mii s [(a, (now + p) % 2 ^ 32), (b, (now + d) % 2 ^ 32)]).2.pendingList = [a, b] ∧
      (scheduleAll mii s [(b, (now + d) % 2 ^ 32), (a, (now + p) % 2 ^ 32)]).2.pendingList = [a, b]) := by
  have hwa : sdiff ((now + p) % 2 ^ 32) now = (p : Int) := sdiff_add_of_lt (by omega)
  have hwb : sdiff ((now + d) % 2 ^ 32) now = (d : Int) := sdiff_add_of_lt hd
  obtain ⟨hr1, l1, l2, l3, ho1⟩ := sooner_then_later mii now s a b ((now + p) % 2 ^ 32)
    ((now + d) % 2 ^ 32) p d hinv hab hclock hp hpd hd hwa hwb
  obtain ⟨hr2, m1, m2, m3, ho2⟩ := later_then_sooner mii now s a b ((now + p) % 2 ^ 32)
    ((now + d) % 2 ^ 32) p d hinv hab hclock hp hpd hd hwa hwb
  refine ⟨by omega, hwb, hr1, ⟨l1, l2, l3, ho1⟩, hr2, ⟨m1, m2, m3, ho2⟩, fun hl => ⟨?_, ?_⟩⟩
  · exact eq_pair_of_split a b _ l1 l2 l3 ho1
      (scheduleAll_pair_length mii s a b _ _ hinv hl hr1 hab)
  · exact eq_pair_of_split a b _ m1 m2 m3 ho2
      (scheduleAll_pair_length mii s b a _ _ hinv hl hr2 (Ne.symm hab))

/-- The scenario of C6: with the counter at `0xFFFFFFF0`, the tick `0x00000010` is `0x20`
ahead and is linked behind the tick `0xFFFFFFF8`, whichever is scheduled first. -/
theorem wraparound_order_witness :
    sdiff 0x00000010 0xFFFFFFF0 = 0x20 ∧
    (scheduleAll 6 (bootAt 0xFFFFFFF0) [(1, 0xFFFFFFF8), (2, 0x00000010)]).1 = [false, false] ∧
    (scheduleAll 6 (bootAt 0xFFFFFFF0) [(1, 0xFFFFFFF8), (2, 0x00000010)]).2.pendingList
      = [1, 2] ∧
    (scheduleAll 6 (bootAt 0xFFFFFFF0) [(2, 0x00000010), (1, 0xFFFFFFF8)]).1 = [false, false] ∧
    (scheduleAll 6 (bootAt 0xFFFFFFF0) [(2, 0x00000010), (1, 0xFFFFFFF8)]).2.pendingList
      = [1, 2] := by
  have h := wraparound_order 6 0xFFFFFFF0 8 0x20 (bootAt 0xFFFFFFF0) 1 2
    (initial_membershipInv _ _) (by decide) (bootAt_tick _ (by decide)) (by decide)
    (by decide) (by decide) (by decide) (by decide)
  exact ⟨h.2.1, h.2.2.1, (h.2.2.2.2.2.2 rfl).1, h.2.2.2.2.1, (h.2.2.2.2.2.2 rfl).2⟩

/-! ## C7: Ordered insertion -/

/-- C7. With the counter standing at `now`, distinct timers scheduled one after another onto
the empty pending list, for pairwise distinct ticks whose offsets from `now` lie between
`MinInterruptInterval` and `2^31`: every call returns `false`, and the pending list holds
exactly those timers, each once, in strictly increasing order of offset; every timer is
active with its due tick stored. -/
theorem ordered_insertion (mii now : Nat) (s : State) (es : List (Nat × Nat))
    (hl : s.pendingList = []) (ha : ∀ x, (s.timers x).active = false)
    (hclock : ∀ k, s.tick k = now)
    (hids : (es.map Prod.fst).Nodup) (hoffs : (es.map Prod.snd).Nodup)
    (hrange : ∀ e ∈ es, mii ≤ e.2 ∧ e.2 < 2 ^ 31) :
    (∀ b ∈ (scheduleAll mii s (es.map (fun e => (e.1, (now + e.2) % 2 ^ 32)))).1,
      b = false) ∧
    (scheduleAll mii s (es.map (fun e => (e.1, (now + e.2) % 2 ^ 32)))).1.length
      = es.length ∧
    (∃ sorted : List (Nat × Nat), sorted.Perm es ∧ sorted.Pairwise (fun x y => x.2 < y.2) ∧
      (scheduleAll mii s (es.map (fun e => (e.1, (now + e.2) % 2 ^ 32)))).2.pendingList
        = sorted.map Prod.fst) ∧
    (∀ e ∈ es,
      (scheduleAll mii s (es.map (fun e => (e.1, (now + e.2) % 2 ^ 32)))).2.due e.1
        = (now + e.2) % 2 ^ 32 ∧
      sdiff ((scheduleAll mii s (es.map (fun e => (e.1, (now + e.2) % 2 ^ 32)))).2.due e.1)
        now = (e.2 : Int) ∧
      ((scheduleAll mii s (es.map (fun e => (e.1, (now + e.2) % 2 ^ 32)))).2.timers
        e.1).active = true) := by
  obtain ⟨r1, r2, r3, r4, r5, r6⟩ := scheduleAll_ordered mii now es s []
    (membershipInv_of_empty s hl ha) hclock (by rw [hl]; exact List.Perm.refl _)
    (by rw [hl]; exact List.Pairwise.nil) (by simp) (by simpa using hids)
    (by simpa using hoffs) (by simpa using hrange)
  simp only [List.nil_append] at r4 r6
  have hkey : ∀ e ∈ es,
      sdiff ((scheduleAll mii s (es.map (fun e => (e.1, (now + e.2) % 2 ^ 32)))).2.due e.1)
        now = (e.2 : Int) := by
    intro e he
    rw [r6 e he]
    exact sdiff_add_of_lt (hrange e he).2
  refine ⟨r1, r2, ?_, fun e he => ⟨r6 e he, hkey e he, ?_⟩⟩
  · refine ⟨(scheduleAll mii s (es.map (fun e => (e.1, (now + e.2) % 2 ^ 32)))).2.pendingList.map
      (fun x => (x, (sdiff ((scheduleAll mii s
        (es.map (fun e => (e.1, (now + e.2) % 2 ^ 32)))).2.due x) now).toNat)), ?_, ?_, ?_⟩
    · refine (r4.map _).trans ?_
      rw [List.map_map]
      have : es.map ((fun x => (x, (sdiff ((scheduleAll mii s
          (es.map (fun e => (e.1, (now + e.2) % 2 ^ 32)))).2.due x) now).toNat)) ∘ Prod.fst)
          = es.map id := by
        apply List.map_congr_left
        intro e he
        simp only [Function.comp, hkey e he, Int.toNat_ofNat, id]
      rw [this, List.map_id]
    · rw [List.pairwise_map]
      refine r5.imp_of_mem ?_
      intro a b ha hb hab
      obtain ⟨ea, hea, rfl⟩ := List.mem_map.1 (r4.mem_iff.1 ha)
      obtain ⟨eb, heb, rfl⟩ := List.mem_map.1 (r4.mem_iff.1 hb)
      rw [hkey ea hea, hkey eb heb] at hab ⊢
      simpa using hab
    · rw [List.map_map]
      have : (Prod.fst ∘ fun x => (x, (sdiff ((scheduleAll mii s
          (es.map (fun e => (e.1, (now + e.2) % 2 ^ 32)))).2.due x) now).toNat)) = id := rfl
      rw [this, List.map_id]
  · exact (r3.2 e.1).2 (r4.mem_iff.2 (List.mem_map.2 ⟨e, he, rfl⟩))

/-- The scenario of C7: A (due 100), B (due 150), C (due 120) scheduled in that order at
tick 0 give the list A, C, B. -/
theorem ordered_insertion_witness :
    (scheduleAll 6 (bootAt 0) [(1, 100), (2, 150), (3, 120)]).2.pendingList = [1, 3, 2] ∧
    (∀ b ∈ (scheduleAll 6 (bootAt 0) [(1, 100), (2, 150), (3, 120)]).1, b = false) :=
  ⟨by decide,
    (ordered_insertion 6 0 (bootAt 0) [(1, 100), (2, 150), (3, 120)] rfl (fun _ => rfl)
      (bootAt_tick 0 (by decide)) (by decide) (by decide) (by decide)).1⟩

/-! ## C8: Frame of `CancelCallbackFromIsr` -/

/-- C8. `CancelCallbackFromIsr` on a linked timer unlinks exactly that timer, keeps the others
in order, clears its active flag, and leaves every other timer object, the other fields of
the timer itself, the compare register and the interrupt enable as they were. -/
theorem cancelCallbackFromIsr_frame (s : State) (this : Nat) (hmem : this ∈ s.pendingList) :
    (∃ pre post, s.pendingList = pre ++ this :: post ∧ this ∉ pre ∧
        (CancelCallbackFromIsr s this).pendingList = pre ++ post) ∧
    (s.pendingList.Nodup → this ∉ (CancelCallbackFromIsr s this).pendingList) ∧
    ((CancelCallbackFromIsr s this).timers this).active = false ∧
    (∀ x, x ≠ this → (CancelCallbackFromIsr s this).timers x = s.timers x) ∧
    ((CancelCallbackFromIsr s this).timers this).whenDue = (s.timers this).whenDue ∧
    ((CancelCallbackFromIsr s this).timers this).callback = (s.timers this).callback ∧
    ((CancelCallbackFromIsr s this).timers this).cbParam = (s.timers this).cbParam ∧
    (CancelCallbackFromIsr s this).tcRB = s.tcRB ∧
    (CancelCallbackFromIsr s this).cpbsEnabled = s.cpbsEnabled := by
  refine ⟨?_, ?_, cancel_active_self s this hmem, fun x hx => cancel_timers_ne s hx,
    ?_, ?_, ?_, cancel_tcRB s this, cancel_cpbsEnabled s this⟩
  · obtain ⟨pre, post, h1, h2, h3⟩ := List.exists_erase_eq hmem
    exact ⟨pre, post, h2, h1, by rw [cancel_pendingList, h3]⟩
  · intro hnd
    rw [cancel_pendingList]
    exact hnd.not_mem_erase
  · rw [cancel_of_mem s this hmem]; simp
  · rw [cancel_of_mem s this hmem]; simp
  · rw [cancel_of_mem s this hmem]; simp

/-- Cancelling the middle timer of the scenario A, B, C. -/
theorem cancelCallbackFromIsr_frame_witness :
    (CancelCallbackFromIsr scenarioABC 3).pendingList = [1, 2] ∧
    ((CancelCallbackFromIsr scenarioABC 3).timers 3).active = false ∧
    (CancelCallbackFromIsr scenarioABC 3).timers 1 = scenarioABC.timers 1 := by
  have h := cancelCallbackFromIsr_frame scenarioABC 3 (by decide)
  exact ⟨by decide, h.2.2.1, h.2.2.2.1 1 (by decide)⟩

/-! ## C9: Cancel is idempotent -/

/-- C9. In a state satisfying the membership invariant, cancelling an inactive timer leaves
the whole state unchanged, and cancelling any timer twice gives the same state as cancelling
it once. -/
theorem cancelCallbackFromIsr_idempotent (s : State) (this : Nat) (hinv : MembershipInv s) :
    ((s.timers this).active = false → CancelCallbackFromIsr s this = s) ∧
    (this ∉ s.pendingList → CancelCallbackFromIsr s this = s) ∧
    CancelCallbackFromIsr (CancelCallbackFromIsr s this) this = CancelCallbackFromIsr s this := by
  refine ⟨fun ha => ?_, fun hm => cancel_of_not_mem s this hm, ?_⟩
  · apply cancel_of_not_mem
    intro hm
    have := (hinv.2 this).2 hm
    rw [ha] at this
    exact Bool.false_ne_true this
  · apply cancel_of_not_mem
    rw [cancel_pendingList]
    exact hinv.1.not_mem_erase

/-- Cancelling timer `4`, which is not pending in the scenario A, B, C, and cancelling timer
`3` twice. -/
theorem cancelCallbackFromIsr_idempotent_witness :
    CancelCallbackFromIsr scenarioABC 4 = scenarioABC ∧
    CancelCallbackFromIsr (CancelCallbackFromIsr scenarioABC 3) 3 =
      CancelCallbackFromIsr scenarioABC 3 :=
  have h := cancelCallbackFromIsr_idempotent scenarioABC 4 scenarioABC_membershipInv
  have h3 := cancelCallbackFromIsr_idempotent scenarioABC 3 scenarioABC_membershipInv
  ⟨h.1 (by decide), h3.2.2⟩

/-! ## C10: Re-scheduling a pending timer -/

/-- C10. In a state satisfying the membership invariant, `ScheduleCallbackFromIsr` on a
timer that is already pending leaves it linked at most once with due tick `when`, keeps the
other timers in their order, and when it returns `true` the timer is not pending at all: it
is inactive and the list has lost one link.  When it returns `false` the timer is linked once and the list has as
many links as before. -/
theorem reschedule_replaces_prior (mii : Nat) (s : State) (this when : Nat)
    (hinv : MembershipInv s) (hmem : this ∈ s.pendingList) :
    (ScheduleCallbackFromIsr mii s this when).2.pendingList.count this ≤ 1 ∧
    ((ScheduleCallbackFromIsr mii s this when).2.timers this).whenDue = when ∧
    (ScheduleCallbackFromIsr mii s this when).2.pendingList.filter (fun x => x != this)
      = s.pendingList.filter (fun x => x != this) ∧
    ((ScheduleCallbackFromIsr mii s this when).1 = true →
      this ∉ (ScheduleCallbackFromIsr mii s this when).2.pendingList ∧
      ((ScheduleCallbackFromIsr mii s this when).2.timers this).active = false) ∧
    ((ScheduleCallbackFromIsr mii s this when).1 = false →
      (ScheduleCallbackFromIsr mii s this when).2.pendingList.count this = 1 ∧
      (ScheduleCallbackFromIsr mii s this when).2.pendingList.length = s.pendingList.length) ∧
    ((ScheduleCallbackFromIsr mii s this when).1 = true →
      (ScheduleCallbackFromIsr mii s this when).2.pendingList.length + 1
        = s.pendingList.length) := by
  have hnd := schedule_nodup mii s this when hinv
  have hmi := schedule_mem_iff mii s this when hinv this
  have hlen : (s.pendingList.erase this).length + 1 = s.pendingList.length := by
    rw [List.length_erase_of_mem hmem]
    have := List.length_pos_of_mem hmem
    omega
  refine ⟨List.nodup_iff_count_le_one.1 hnd this, schedule_whenDue_self mii s this when hinv,
    ?_, ?_, ?_, ?_⟩
  · rw [← hnd.erase_eq_filter, ← hinv.1.erase_eq_filter]
    have hn := not_mem_erase_of_inv s this hinv
    rw [schedule_pendingList mii s this when hinv]
    split_ifs
    · exact List.erase_of_not_mem hn
    · simp
    · exact erase_linkAfterWalk _ this _ hn
  · intro ht
    refine ⟨fun hm => ?_, by rw [schedule_active_self mii s this when hinv, ht]; rfl⟩
    rw [hmi] at hm
    rcases hm with ⟨_, hf⟩ | ⟨hne, _⟩
    · rw [ht] at hf; exact Bool.noConfusion hf
    · exact hne rfl
  · intro hf
    refine ⟨List.count_eq_one_of_mem hnd (hmi.2 (Or.inl ⟨rfl, hf⟩)), ?_⟩
    rw [(schedule_perm_of_false mii s this when hinv hf).length_eq, List.length_cons, hlen]
  · intro ht
    rw [schedule_list_of_true mii s this when hinv ht, hlen]

/-- Re-scheduling the head of the scenario A, B, C for tick 130 moves it between the other
two; re-scheduling it for tick 3 drops it. -/
theorem reschedule_replaces_prior_witness :
    (ScheduleCallbackFromIsr 6 scenarioABC 1 130).2.pendingList = [3, 1, 2] ∧
    (ScheduleCallbackFromIsr 6 scenarioABC 1 130).2.pendingList.count 1 ≤ 1 ∧
    (ScheduleCallbackFromIsr 6 scenarioABC 1 3).1 = true ∧
    1 ∉ (ScheduleCallbackFromIsr 6 scenarioABC 1 3).2.pendingList :=
  have h := reschedule_replaces_prior 6 scenarioABC 1 130 scenarioABC_membershipInv (by decide)
  have h3 := reschedule_replaces_prior 6 scenarioABC 1 3 scenarioABC_membershipInv (by decide)
  ⟨by decide, h.1, by decide, (h3.2.2.2.1 (by decide)).1⟩

/-! ## C11: Contract of `ScheduleTimerInterrupt` -/

/-- C11. `ScheduleTimerInterrupt(tim)` returns `true` exactly when the signed difference
`(int32_t)(tim - now)`, taken modulo `2^32`, is less than `(int32_t)MinInterruptInterval`;
then the compare register and the interrupt enable are unchanged.  When it returns `false`
the compare register is `tim` and the compare interrupt is enabled.  A tick `2^31` or more
ahead of `now` counts as passed. -/
theorem scheduleTimerInterrupt_contract (mii : Nat) (s : State) (tim : Nat) :
    ((ScheduleTimerInterrupt mii s tim).1 = true ↔
      sdiff tim (GetTimerTicks s).1 < toInt32 mii) ∧
    sdiff tim (GetTimerTicks s).1
      = toInt32 ((tim % 2 ^ 32 + 2 ^ 32 - (GetTimerTicks s).1 % 2 ^ 32) % 2 ^ 32) ∧
    ((ScheduleTimerInterrupt mii s tim).1 = true →
      (ScheduleTimerInterrupt mii s tim).2.tcRB = s.tcRB ∧
      (ScheduleTimerInterrupt mii s tim).2.cpbsEnabled = s.cpbsEnabled) ∧
    ((ScheduleTimerInterrupt mii s tim).1 = false →
      (ScheduleTimerInterrupt mii s tim).2.tcRB = tim ∧
      (ScheduleTimerInterrupt mii s tim).2.cpbsEnabled = true) ∧
    (∀ k : Nat, 2 ^ 31 ≤ k → k < 2 ^ 32 → 0 ≤ toInt32 mii →
      (ScheduleTimerInterrupt mii s (((GetTimerTicks s).1 + k) % 2 ^ 32)).1 = true) := by
  have e0 : (GetTimerTicks s).1 = s.tick 0 := rfl
  rw [e0]
  refine ⟨?_, rfl, ?_, ?_, ?_⟩
  · rw [arm_result]; exact decide_eq_true_iff
  · intro h
    rw [arm_result, decide_eq_true_iff] at h
    rw [arm_true mii s tim h]
    exact ⟨rfl, rfl⟩
  · intro h
    rw [arm_result, decide_eq_false_iff_not] at h
    rw [arm_false mii s tim h]
    exact ⟨rfl, rfl⟩
  · intro k h1 h2 h3
    rw [arm_result, decide_eq_true_iff]
    have hneg : sdiff ((s.tick 0 + k) % 2 ^ 32) (s.tick 0) < 0 := by
      have hlt : (s.tick 0 : Nat) < 2 ^ 32 := Nat.mod_lt _ (by norm_num)
      unfold sdiff toInt32 sub32
      split_ifs <;> omega
    exact lt_of_lt_of_le hneg h3

/-- The arm check at tick 1000 with a minimum interval of 6: tick 1003 is refused and leaves
the hardware alone, tick 1006 is armed, and the tick `2^31` ahead counts as passed. -/
theorem scheduleTimerInterrupt_contract_witness :
    (ScheduleTimerInterrupt 6 (bootAt 1000) 1003).1 = true ∧
    (ScheduleTimerInterrupt 6 (bootAt 1000) 1003).2.cpbsEnabled = false ∧
    (ScheduleTimerInterrupt 6 (bootAt 1000) 1006).1 = false ∧
    (ScheduleTimerInterrupt 6 (bootAt 1000) 1006).2.tcRB = 1006 ∧
    (ScheduleTimerInterrupt 6 (bootAt 1000) 1006).2.cpbsEnabled = true ∧
    (ScheduleTimerInterrupt 6 (bootAt 1000) ((1000 + 2 ^ 31) % 2 ^ 32)).1 = true :=
  have h3 := scheduleTimerInterrupt_contract 6 (bootAt 1000) 1003
  have h6 := scheduleTimerInterrupt_contract 6 (bootAt 1000) 1006
  ⟨by decide, (h3.2.2.1 (by decide)).2, by decide, (h6.2.2.2.1 (by decide)).1,
    (h6.2.2.2.1 (by decide)).2,
    h3.2.2.2.2 (2 ^ 31) (le_refl _) (by norm_num) (by decide)⟩

/-! ## C12: Drain -/

/-- C12, counterexample.  Timers `1` and `2`, whose callbacks return `false`, are pending for
ticks 100 and 110, and `StepTimer::Interrupt` is entered at tick 100: the list is sorted, its
first entry is due and the other is 10 ticks, more than `MinInterruptInterval`, in the
future.  The second pass of the loop reads tick 120, so the callback of timer `2` is invoked
as well and the list is left empty.  With timers `1` and `2` pending for ticks 100 and 150 and
the counter standing at 130, a callback of timer `1` that schedules its own timer for tick 200
and returns `false` leaves timer `1` active and linked behind timer `2`. -/
theorem drain_depends_on_clock_and_callbacks :
    (creepScenario.pendingList = [1, 2] ∧ creepScenario.tick 0 = 100 ∧
      creepScenario.tick 1 = 120 ∧
      SortedAt creepScenario 100 ∧
      sdiff (creepScenario.due 1) 100 = 0 ∧ sdiff (creepScenario.due 2) 100 = 10 ∧
      toInt32 6 ≤ 10 ∧ ReturnsFalse creepScenario 1 ∧ ReturnsFalse creepScenario 2 ∧
      ∃ s' : State, Interrupt 6 3 creepScenario = some s' ∧
        s'.calls = [1, 2] ∧ s'.pendingList = [] ∧ (s'.timers 2).active = false) ∧
    (selfScenario.pendingList = [1, 2] ∧ (∀ k, selfScenario.tick k = 130) ∧
      SortedAt selfScenario 130 ∧
      sdiff (selfScenario.due 1) 130 = -30 ∧ sdiff (selfScenario.due 2) 130 = 20 ∧
      (∀ t : State, (selfScheduling 1 t).1 = false) ∧
      ∃ s' : State, Reentrant.Interrupt selfScheduling 6 2 selfScenario = some s' ∧
        s'.calls = [1] ∧ s'.pendingList = [2, 1] ∧ (s'.timers 1).active = true ∧
        s'.cpbsEnabled = true ∧ s'.tcRB = 150) := by
  have hq : ∀ x, (creepScenario.timers x).callback = some oneShot →
      ReturnsFalse creepScenario x := by
    intro x e cb hcb w
    rw [e] at hcb
    cases hcb
    rfl
  refine ⟨⟨by decide, by decide, by decide, by unfold SortedAt; decide, by decide, by decide,
      by decide,
      hq 1 rfl, hq 2 rfl, (Interrupt 6 3 creepScenario).get (by decide),
      (Option.some_get _).symm, by decide, by decide, by decide⟩,
    by decide, ?_, by unfold SortedAt; decide, by decide, by decide, fun _ => rfl,
    (Reentrant.Interrupt selfScheduling 6 2 selfScenario).get (by decide),
    (Option.some_get _).symm, by decide, by decide, by decide, by decide, by decide⟩
  intro k
  show (fun k => if k < 3 then 0 else 130) (3 + k) % 2 ^ 32 = 130
  simp

/-- C12, amended.  Let the pending list hold distinct timers, let the arm check of each of the
first `N` passes of the loop of `StepTimer::Interrupt` find the timer it examines, the first,
the second, ... of the list, less than `MinInterruptInterval` ahead of the tick it reads, and
let the arm check of the pass after them find the next timer, if there is one, at least
`MinInterruptInterval` ahead; let the callbacks of the first `N` timers be absent or return
`false` when handed the due tick of their timer, change nothing of the scheduler but their
own timer's due tick and call neither schedule nor cancel.  Then one run of
`StepTimer::Interrupt` returns after exactly `N + 1` passes: it has invoked the callbacks of
exactly those `N` timers, once each in list order, left them inactive and unlinked, left the
remaining timers untouched as the list, and the list is empty or the compare interrupt is
armed at the due tick of its head. -/
theorem interrupt_drains_due (mii : Nat) (s : State) (due rest : List Nat)
    (hl : s.pendingList = due ++ rest) (hnd : s.pendingList.Nodup)
    (hdue : ∀ i x, due.get? i = some x → sdiff (s.due x) (s.tick i) < toInt32 mii)
    (hrest : ∀ h, rest.head? = some h → toInt32 mii ≤ sdiff (s.due h) (s.tick due.length))
    (hquiet : ∀ x ∈ due, ReturnsFalse s x) :
    ∃ s' : State,
      (∀ fuel, due.length < fuel → Interrupt mii fuel s = some s') ∧
      (∀ fuel, fuel ≤ due.length → Interrupt mii fuel s = none) ∧
      s'.calls = s.calls ++ due.filter (hasCallback s) ∧
      (∀ x ∈ due, (s'.timers x).active = false ∧ x ∉ s'.pendingList) ∧
      s'.pendingList = rest ∧
      (∀ y ∈ rest, s'.timers y = s.timers y) ∧
      (s'.pendingList = [] ∨
        ∃ h, s'.pendingList.head? = some h ∧ s'.cpbsEnabled = true ∧ s'.tcRB = s'.due h) := by
  have hdisj : ∀ x ∈ due, x ∉ rest := by
    intro x hx hr
    rw [hl] at hnd
    exact (List.nodup_append.1 hnd).2.2 hx hr
  obtain ⟨s', c1, c2, c3, c4, c5, c6, c7⟩ := interrupt_drain_false mii due rest s hl hnd
    (dueInTurn_of_get mii s due 0 (fun i x hx => by rw [Nat.zero_add]; exact hdue i x hx))
    hquiet hrest
  refine ⟨s', c1, c2, c4, fun x hx => ⟨c5 x hx, by rw [c3]; exact hdisj x hx⟩, c3,
    fun y hy => c6 y (fun hd => hdisj y hd hy), ?_⟩
  rw [c3]
  cases rest with
  | nil => exact Or.inl rfl
  | cons h t =>
    obtain ⟨r2, r3⟩ := c7 h rfl
    refine Or.inr ⟨h, rfl, r3, ?_⟩
    rw [r2]
    show _ = (s'.timers h).whenDue
    rw [c6 h (fun hd => hdisj h hd (List.mem_cons_self _ _))]
    rfl

/-- The drain with a counter that moves: the first pass reads tick 100 and finds timer `1`
due, the second reads tick 120 and finds timer `2` due; both callbacks are invoked and the
list is left empty. -/
theorem interrupt_drains_due_witness :
    ∃ s' : State, Interrupt 6 3 creepScenario = some s' ∧ Interrupt 6 2 creepScenario = none ∧
      s'.calls = [1, 2] ∧ s'.pendingList = [] := by
  have hq : ∀ x ∈ [1, 2], ReturnsFalse creepScenario x := by
    intro x hx cb hcb w
    simp only [List.mem_cons, List.mem_singleton, List.not_mem_nil, or_false] at hx
    rcases hx with rfl | rfl
    · have e : (creepScenario.timers 1).callback = some oneShot := rfl
      rw [e] at hcb
      cases hcb
      rfl
    · have e : (creepScenario.timers 2).callback = some oneShot := rfl
      rw [e] at hcb
      cases hcb
      rfl
  obtain ⟨s', h1, h2, h3, _, h5, _⟩ := interrupt_drains_due 6 creepScenario [1, 2] []
    (by decide) (by decide)
    (by
      intro i x hx
      match i, hx with
      | 0, hx => cases hx; decide
      | 1, hx => cases hx; decide
      | n + 2, hx => simp at hx)
    (by simp) hq
  exact ⟨s', h1 3 (by decide), h2 2 (by decide), h3.trans (by decide), h5⟩

/-! ## C13: Rescheduling from the dispatch loop -/

/-- C13, counterexample.  In each of three runs the head, timer `1`, is due and its callback
returns `true` with a new due tick at least `MinInterruptInterval` after the tick at which it
is dispatched.  Timers `1` and `2` are pending for ticks 100 and 101 and the counter stands
at 102; the new due tick is `2^31 - 1` ticks after 102: the loop returns with timer `1` linked
in front of timer `2`, which is one tick overdue, so the list is not sorted.  Timer `1` is
dispatched at tick 130 with the new due tick 200 and the next pass reads tick 250: the timer
is dispatched a second time, its callback now returns `false`, and on return the timer is
neither active nor linked.  Timers `1` and `2` are pending for ticks 100 and 101 with the
counter at 130, the callback of timer `1` leaves the due tick 200 and the callback of timer
`2` cancels timer `1`: on return timer `1` is neither active nor linked. -/
theorem reinsert_can_unsort :
    (SortedAt starveScenario 102 ∧ starveScenario.pendingList = [1, 2] ∧
      (∀ k, starveScenario.tick k = 102) ∧
      sdiff (starveScenario.due 1) 102 < toInt32 6 ∧
      toInt32 6 ≤ sdiff (farAhead 0 100 0).2.1 102 ∧
      ∃ s' : State, Interrupt 6 2 starveScenario = some s' ∧
        s'.pendingList = [1, 2] ∧ s'.calls = [1] ∧
        sdiff (s'.due 1) 102 = 2 ^ 31 - 1 ∧ sdiff (s'.due 2) 102 = -1 ∧
        ¬ SortedAt s' 102) ∧
    (overtakenScenario.pendingList = [1] ∧ overtakenScenario.tick 0 = 130 ∧
      overtakenScenario.tick 1 = 250 ∧ overtakenScenario.tick 2 = 250 ∧
      sdiff (overtakenScenario.due 1) 130 < toInt32 6 ∧
      (overtakenScenario.timers 1).cbParam = 0 ∧ overtakenScenario.world = 0 ∧
      (onceMore 0 100 0).1 = true ∧ (onceMore 0 100 0).2.1 = 200 ∧
      toInt32 6 ≤ sdiff 200 130 ∧
      ∃ s' : State, Interrupt 6 3 overtakenScenario = some s' ∧
        s'.pendingList = [] ∧ (s'.timers 1).active = false ∧ s'.calls = [1, 1]) ∧
    (peerScenario.pendingList = [1, 2] ∧ (∀ k, peerScenario.tick k = 130) ∧
      sdiff (peerScenario.due 1) 130 < toInt32 6 ∧
      (∀ t : State, (cancelPeer 1 t).1 = true ∧ (cancelPeer 1 t).2.due 1 = 200) ∧
      toInt32 6 ≤ sdiff 200 130 ∧
      ∃ s' : State, Reentrant.Interrupt cancelPeer 6 3 peerScenario = some s' ∧
        s'.calls = [1, 2] ∧ (s'.timers 1).active = false ∧ s'.pendingList = []) := by
  refine ⟨⟨by unfold SortedAt; decide, by decide, ?_, by decide, by decide,
      (Interrupt 6 2 starveScenario).get (by decide), (Option.some_get _).symm, by decide,
      by decide, by decide, by decide, by unfold SortedAt; decide⟩,
    ⟨by decide, by decide, by decide, by decide, by decide, by decide, by decide, by decide,
      by decide, by decide,
      (Interrupt 6 3 overtakenScenario).get (by decide), (Option.some_get _).symm, by decide,
      by decide, by decide⟩,
    by decide, ?_, by decide, ?_, by decide,
    (Reentrant.Interrupt cancelPeer 6 3 peerScenario).get (by decide),
    (Option.some_get _).symm, by decide, by decide, by decide⟩
  · intro k
    show (fun k => if k < 3 then 0 else 102) (3 + k) % 2 ^ 32 = 102
    simp
  · intro k
    show (fun k => if k < 3 then 0 else 130) (3 + k) % 2 ^ 32 = 130
    simp
  · intro t
    refine ⟨rfl, ?_⟩
    show ((t.setWhenDue 1 200).timers 1).whenDue = 200
    simp

/-- C13, amended.  Let the pending list hold distinct timers and let the loop of
`StepTimer::Interrupt` dispatch its head, found less than `MinInterruptInterval` ahead, whose
callback returns `true` with a new due tick; let the callbacks change nothing of the scheduler
but their own timer's due tick and call neither schedule nor cancel.

The dispatching pass leaves the timer active, linked exactly once, with the new due tick,
its callback invoked once, and the list sorted relative to any tick `r` relative to which it
was sorted, provided the new due tick is less than `2^31` ticks apart from every other
pending due tick.

Whenever the loop returns and the later reads of the counter up to the return have found the
new due tick at least `MinInterruptInterval` ahead, the timer is active, linked exactly once,
with the new due tick, and its callback has been invoked exactly once in the run.

The loop returns, within as many passes as there are timers and one more, when the reads of
the counter of these passes after the first find the new due tick at least
`MinInterruptInterval` ahead and the callbacks of the other pending timers, whenever they
return `true`, also leave a due tick that these reads find at least `MinInterruptInterval`
ahead; the list is then sorted on return provided it was sorted on entry and the new due
tick, the other pending due ticks and the due ticks the other callbacks leave are pairwise
less than `2^31` apart. -/
theorem reschedule_from_interrupt (mii : Nat) (s : State) (tmr : Nat) (rest : List Nat)
    (cb : TimerCallbackFunction)
    (hl : s.pendingList = tmr :: rest) (hnd : s.pendingList.Nodup)
    (hdue : sdiff (s.due tmr) (s.tick 0) < toInt32 mii)
    (hcb : (s.timers tmr).callback = some cb)
    (hc : (cb (s.timers tmr).cbParam (s.due tmr) s.world).1 = true) :
    ((InterruptBody mii s).2 = true ∧
      ((InterruptBody mii s).1.timers tmr).active = true ∧
      (InterruptBody mii s).1.pendingList.count tmr = 1 ∧
      (InterruptBody mii s).1.due tmr = (cb (s.timers tmr).cbParam (s.due tmr) s.world).2.1 ∧
      (InterruptBody mii s).1.calls = s.calls ++ [tmr] ∧
      ∀ r : Nat, SortedAt s r →
        (∀ x ∈ rest,
          -(2 ^ 31 : Int) < sdiff (cb (s.timers tmr).cbParam (s.due tmr) s.world).2.1 r
              - sdiff (s.due x) r ∧
          sdiff (cb (s.timers tmr).cbParam (s.due tmr) s.world).2.1 r - sdiff (s.due x) r
            < 2 ^ 31) →
        SortedAt (InterruptBody mii s).1 r) ∧
    (∀ (fuel : Nat) (s' : State), Interrupt mii (fuel + 1) s = some s' →
      StaysAhead mii s 1 fuel (cb (s.timers tmr).cbParam (s.due tmr) s.world).2.1 →
      (s'.timers tmr).active = true ∧ s'.pendingList.count tmr = 1 ∧
      s'.due tmr = (cb (s.timers tmr).cbParam (s.due tmr) s.world).2.1 ∧
      s'.calls.count tmr = s.calls.count tmr + 1) ∧
    (StaysAhead mii s 1 (rest.length + 1)
        (cb (s.timers tmr).cbParam (s.due tmr) s.world).2.1 →
      (∀ y ∈ rest, Leaves s y (StaysAhead mii s 1 (rest.length + 1))) →
      ∃ s' : State, (∀ fuel, rest.length + 1 < fuel → Interrupt mii fuel s = some s') ∧
        ∀ (r : Nat) (Tk : Nat → Prop),
          (∀ a b, Tk a → Tk b → sdiff a r - sdiff b r < 2 ^ 31) →
          SortedAt s r → Tk (cb (s.timers tmr).cbParam (s.due tmr) s.world).2.1 →
          (∀ y ∈ rest, Tk (s.due y) ∧ Leaves s y Tk) → SortedAt s' r) := by
  have hnd' : (tmr :: rest).Nodup := hl ▸ hnd
  have hn : tmr ∉ rest := (List.nodup_cons.1 hnd').1
  obtain ⟨b1, b2, b3, b4, b5, b6, _, b8, b9, _, _, _⟩ :=
    interruptBody_dispatch_again mii s tmr rest cb hl hn hdue hcb hc
  have htick := tick_after_read s (InterruptBody mii s).1 b9 b8
  have hperm : (InterruptBody mii s).1.pendingList.Perm (tmr :: rest) := by
    rw [b2]; exact linkAfterWalk_perm _ _ _
  have hnd1 : (InterruptBody mii s).1.pendingList.Nodup := hperm.nodup_iff.2 hnd'
  have hmem1 : tmr ∈ (InterruptBody mii s).1.pendingList :=
    hperm.mem_iff.2 (List.mem_cons_self _ _)
  have hdue1 : (InterruptBody mii s).1.due tmr
      = (cb (s.timers tmr).cbParam (s.due tmr) s.world).2.1 := b6
  have hahead1 : ∀ n, StaysAhead mii s 1 (n + 1)
      (cb (s.timers tmr).cbParam (s.due tmr) s.world).2.1 →
      StaysAhead mii (InterruptBody mii s).1 0 n
        ((InterruptBody mii s).1.timers tmr).whenDue := by
    intro n hnew
    rw [b6]
    exact staysAhead_after_read mii s _ _ htick 0 n hnew
  have hsorted1 : ∀ r : Nat, SortedAt s r →
      (∀ x ∈ rest,
        -(2 ^ 31 : Int) < sdiff (cb (s.timers tmr).cbParam (s.due tmr) s.world).2.1 r
            - sdiff (s.due x) r ∧
        sdiff (cb (s.timers tmr).cbParam (s.due tmr) s.world).2.1 r - sdiff (s.due x) r
          < 2 ^ 31) →
      SortedAt (InterruptBody mii s).1 r :=
    fun r hs hwin => interruptBody_again_sorted mii r s tmr rest cb hl hnd hdue hcb hc hs hwin
  refine ⟨⟨b1, b5, List.count_eq_one_of_mem hnd1 hmem1, hdue1, b3, hsorted1⟩, ?_, ?_⟩
  · intro fuel s' hrun hnew
    rw [interrupt_succ, if_pos b1] at hrun
    cases fuel with
    | zero => simp [Interrupt] at hrun
    | succ n =>
      obtain ⟨k1, k2, k3, k4⟩ := interrupt_keeps mii tmr ((InterruptBody mii s).1.timers tmr)
        (s.calls.count tmr + 1) n (InterruptBody mii s).1 s' hnd1 hmem1 rfl
        (by rw [b3, List.count_append, List.count_singleton]; simp) (hahead1 n hnew) hrun
      refine ⟨by rw [k3]; exact b5, List.count_eq_one_of_mem k1 k2, ?_, k4⟩
      show (s'.timers tmr).whenDue = _
      rw [k3]; exact b6
  · intro hnew hothers
    have hinv1 : ∀ x ∈ (InterruptBody mii s).1.pendingList,
        StaysAhead mii (InterruptBody mii s).1 0 rest.length ((InterruptBody mii s).1.due x) ∨
        (x ∈ rest ∧ Leaves (InterruptBody mii s).1 x
          (StaysAhead mii (InterruptBody mii s).1 0 rest.length)) := by
      intro x hx
      rcases List.mem_cons.1 (hperm.mem_iff.1 hx) with e | hm
      · left; rw [e]; exact hahead1 rest.length hnew
      · right
        have hne : x ≠ tmr := fun e => hn (e ▸ hm)
        exact ⟨hm, leaves_congr s _ x _ _ (b4 x hne)
          (fun d hd => staysAhead_after_read mii s _ d htick 0 rest.length hd) (hothers x hm)⟩
    obtain ⟨s', c1, c2⟩ := interrupt_settles mii rest.length (InterruptBody mii s).1 rest
      (le_refl _) (List.nodup_cons.1 hnd').2 hnd1 hinv1
    refine ⟨s', ?_, ?_⟩
    · intro fuel hf
      obtain ⟨k, rfl⟩ : ∃ k, fuel = k + 1 := ⟨fuel - 1, by omega⟩
      rw [interrupt_succ, if_pos b1]
      exact c1 k (by omega)
    · intro r Tk hTk hs hTnew hTrest
      apply c2 r Tk hTk
      · apply hsorted1 r hs
        intro x hx
        have h1 := hTk _ _ hTnew (hTrest x hx).1
        have h2 := hTk _ _ (hTrest x hx).1 hTnew
        constructor <;> omega
      · intro x hx
        rcases List.mem_cons.1 (hperm.mem_iff.1 hx) with e | hm
        · refine ⟨by rw [e, hdue1]; exact hTnew, fun hf => absurd (e ▸ hf) hn⟩
        · have hne : x ≠ tmr := fun e => hn (e ▸ hm)
          refine ⟨?_, fun _ => leaves_congr s _ x _ _ (b4 x hne) (fun d hd => hd)
            (hTrest x hm).2⟩
          have hd : (InterruptBody mii s).1.due x = s.due x := by
            simp only [State.due, b4 x hne]
          rw [hd]
          exact (hTrest x hm).1

/-- Timers `1` and `3` both repeat every 100 ticks and are due when the loop is entered at
tick 130, with the counter one tick further at every read: timer `1` is dispatched first and
scheduled again for tick 200, then timer `3` for tick 220; the third pass arms the interrupt
for timer `2` and the loop returns with the list `2, 1, 3`, sorted, and the callback of
timer `1` invoked once. -/
theorem reschedule_from_interrupt_witness :
    repeatScenario.tick 0 = 130 ∧ repeatScenario.tick 1 = 131 ∧ repeatScenario.tick 2 = 132 ∧
    ∃ s' : State, Interrupt 6 4 repeatScenario = some s' ∧ (s'.timers 1).active = true ∧
      s'.pendingList.count 1 = 1 ∧ s'.due 1 = 200 ∧ s'.calls.count 1 = 1 ∧
      SortedAt s' 130 ∧ s'.pendingList = [2, 1, 3] ∧ s'.calls = [1, 3] := by
  have hahead : ∀ d : Nat, toInt32 6 ≤ sdiff d 131 → toInt32 6 ≤ sdiff d 132 →
      toInt32 6 ≤ sdiff d 133 → StaysAhead 6 repeatScenario 1 3 d := by
    intro d h1 h2 h3 i hi1 hi3
    have hi : i = 1 ∨ i = 2 ∨ i = 3 := by omega
    rcases hi with rfl | rfl | rfl
    · exact h1
    · exact h2
    · exact h3
  have hothers : ∀ y ∈ [3, 2], Leaves repeatScenario y (StaysAhead 6 repeatScenario 1 3) := by
    intro y hy cb hcb w _
    simp only [List.mem_cons, List.mem_singleton, List.not_mem_nil, or_false] at hy
    rcases hy with rfl | rfl
    · have e : (repeatScenario.timers 3).callback = some everyHundred := rfl
      rw [e] at hcb
      cases hcb
      exact hahead 220 (by decide) (by decide) (by decide)
    · have e : (repeatScenario.timers 2).callback = none := rfl
      rw [e] at hcb
      cases hcb
  have hnew : StaysAhead 6 repeatScenario 1 3 200 :=
    hahead 200 (by decide) (by decide) (by decide)
  obtain ⟨_, p2, p3⟩ := reschedule_from_interrupt 6 repeatScenario 1 [3, 2] everyHundred
    (by decide) (by decide) (by decide) rfl rfl
  obtain ⟨s', hret, hsort⟩ := p3 hnew hothers
  have hrun4 := hret 4 (by decide)
  obtain ⟨a1, a2, a3, a4⟩ := p2 3 s' hrun4 hnew
  refine ⟨by decide, by decide, by decide, s', hrun4, a1, a2, a3.trans (by decide),
    a4.trans (by decide), ?_, ?_, ?_⟩
  · apply hsort 130 (fun d => d ∈ [200, 120, 150, 220])
    · intro a b ha hb
      simp only [List.mem_cons, List.mem_singleton, List.not_mem_nil, or_false] at ha hb
      rcases ha with rfl | rfl | rfl | rfl <;> rcases hb with rfl | rfl | rfl | rfl <;> decide
    · unfold SortedAt; decide
    · decide
    · intro y hy
      simp only [List.mem_cons, List.mem_singleton, List.not_mem_nil, or_false] at hy
      rcases hy with rfl | rfl
      · refine ⟨by decide, ?_⟩
        intro cb hcb w _
        have e : (repeatScenario.timers 3).callback = some everyHundred := rfl
        rw [e] at hcb
        cases hcb
        show 220 ∈ [200, 120, 150, 220]
        decide
      · refine ⟨by decide, ?_⟩
        intro cb hcb w _
        have e : (repeatScenario.timers 2).callback = none := rfl
        rw [e] at hcb
        cases hcb
  · have e := Option.some.inj (hrun4.symm)
    rw [e]
    decide
  · have e := Option.some.inj (hrun4.symm)
    rw [e]
    decide

/-! ## C14: Re-validation -/

/-- C14. When the pending list is not empty and its head is `MinInterruptInterval` or more
ahead of the tick read on entry, `StepTimer::Interrupt` returns after one pass: no callback
has been invoked, the list, every timer object and the outside state are unchanged, and the
compare interrupt is armed at the due tick of the head.  Any pass of the loop that invokes a
callback invokes that of the head, which its arm check has found less than
`MinInterruptInterval` ahead. -/
theorem interrupt_revalidates (mii : Nat) (s : State) (h : Nat) (rest : List Nat)
    (hl : s.pendingList = h :: rest)
    (hfar : toInt32 mii ≤ sdiff (s.due h) (GetTimerTicks s).1) :
    (∃ s' : State, (∀ fuel, Interrupt mii (fuel + 1) s = some s') ∧
      s'.calls = s.calls ∧ s'.pendingList = s.pendingList ∧ s'.timers = s.timers ∧
      s'.world = s.world ∧ s'.cpbsEnabled = true ∧ s'.tcRB = s.due h) ∧
    (∀ s0 : State, (InterruptBody mii s0).1.calls ≠ s0.calls →
      ∃ tmr rest0, s0.pendingList = tmr :: rest0 ∧
        sdiff (s0.due tmr) (GetTimerTicks s0).1 < toInt32 mii ∧
        (InterruptBody mii s0).1.calls = s0.calls ++ [tmr]) := by
  have hnd : ¬ sdiff (s.due h) (s.tick 0) < toInt32 mii := not_lt.2 hfar
  refine ⟨⟨{ s with reads := s.reads + 1, tcRB := s.due h, cpbsEnabled := true }, ?_,
    rfl, rfl, rfl, rfl, rfl, rfl⟩, fun s0 h0 => interruptBody_calls mii s0 h0⟩
  intro fuel
  rw [interrupt_succ, interruptBody_not_due mii s h rest hl hnd]
  rfl

/-- Re-validation at the scenario A, B, C: at tick 0 the head is 100 ticks ahead. -/
theorem interrupt_revalidates_witness :
    ∃ s' : State, Interrupt 6 1 scenarioABC = some s' ∧ s'.calls = scenarioABC.calls ∧
      s'.pendingList = [1, 3, 2] ∧ s'.cpbsEnabled = true ∧ s'.tcRB = 100 := by
  obtain ⟨⟨s', h1, h2, h3, _, _, h6, h7⟩, _⟩ :=
    interrupt_revalidates 6 scenarioABC 1 [3, 2] (by decide) (by decide)
  exact ⟨s', h1 0, h2, h3.trans (by decide), h6, h7.trans (by decide)⟩

/-! ## C15: The compare register and the head of the list -/

/-- C15, counterexample.  Each of the three states is reached from boot by
`ScheduleCallbackFromIsr`, `CancelCallbackFromIsr` and the interrupt handler, and has the
compare interrupt enabled.  Timer `1` is scheduled for tick 100 and cancelled: the pending
list is empty.  In the scenario A, B, C the head is cancelled: the compare register is still
100 and the new head is due at 120.  In the scenario A, B, C the head, which is active, is
scheduled again for tick 200: the compare register is still 100 and the new head is due at
120.  Timer `1` is due at tick 100 and its callback schedules the timer again for tick 106,
which arms the interrupt; the next pass of the loop reads tick 101, finds the timer less than
`MinInterruptInterval` ahead and unlinks it: the handler returns with the list empty and the
compare register at 106. -/
theorem cancel_leaves_compare_armed :
    (Reentrant.Reachable 6 (CancelCallbackFromIsr oneAt100 1) ∧
      (CancelCallbackFromIsr oneAt100 1).cpbsEnabled = true ∧
      (CancelCallbackFromIsr oneAt100 1).pendingList = []) ∧
    (Reentrant.Reachable 6 (CancelCallbackFromIsr scenarioABC 1) ∧
      (CancelCallbackFromIsr scenarioABC 1).cpbsEnabled = true ∧
      (CancelCallbackFromIsr scenarioABC 1).pendingList = [3, 2] ∧
      (CancelCallbackFromIsr scenarioABC 1).tcRB = 100 ∧
      (CancelCallbackFromIsr scenarioABC 1).due 3 = 120) ∧
    ((scenarioABC.timers 1).active = true ∧
      Reentrant.Reachable 6 (ScheduleCallbackFromIsr 6 scenarioABC 1 200).2 ∧
      (ScheduleCallbackFromIsr 6 scenarioABC 1 200).2.cpbsEnabled = true ∧
      (ScheduleCallbackFromIsr 6 scenarioABC 1 200).2.pendingList = [3, 2, 1] ∧
      (ScheduleCallbackFromIsr 6 scenarioABC 1 200).2.tcRB = 100 ∧
      (ScheduleCallbackFromIsr 6 scenarioABC 1 200).2.due 3 = 120) ∧
    (rearmScenario.pendingList = [1] ∧ rearmScenario.cpbsEnabled = true ∧
      rearmScenario.tcRB = 100 ∧
      rearmScenario.tick 0 = 100 ∧ rearmScenario.tick 1 = 100 ∧ rearmScenario.tick 2 = 100 ∧
      rearmScenario.tick 3 = 101 ∧
      ∃ s' : State, Reentrant.STEP_TC_HANDLER rearmOnce 6 3 rearmScenario true = some s' ∧
        Reentrant.Reachable 6 s' ∧
        s'.cpbsEnabled = true ∧ s'.pendingList = [] ∧ s'.tcRB = 106 ∧ s'.calls = [1, 1]) := by
  have hABC : Reentrant.Reachable 6 scenarioABC :=
    Reentrant.Reachable.schedule _ 3 120
      (Reentrant.Reachable.schedule _ 2 150
        (Reentrant.Reachable.schedule _ 1 100 (Reentrant.Reachable.boot _ _)))
  have hone : Reentrant.Reachable 6 oneAt100 :=
    Reentrant.Reachable.schedule _ 1 100 (Reentrant.Reachable.boot _ _)
  have hre : Reentrant.Reachable 6 rearmScenario :=
    Reentrant.Reachable.schedule _ 1 100
      (Reentrant.Reachable.setCallback _ 1 _ 0 (Reentrant.Reachable.boot _ _))
  refine ⟨⟨Reentrant.Reachable.cancel _ 1 hone, by decide, by decide⟩,
    ⟨Reentrant.Reachable.cancel _ 1 hABC, by decide, by decide, by decide, by decide⟩,
    ⟨by decide, Reentrant.Reachable.schedule _ 1 200 hABC, by decide, by decide, by decide,
      by decide⟩,
    by decide, by decide, by decide, by decide, by decide, by decide, by decide,
    (Reentrant.STEP_TC_HANDLER rearmOnce 6 3 rearmScenario true).get (by decide),
    (Option.some_get _).symm,
    Reentrant.Reachable.handler rearmOnce rearmScenario _ 3 true hre
      (Option.some_get _).symm,
    by decide, by decide, by decide, by decide⟩

/-- C15, amended.  In every state reached from boot by setting callbacks, by
`ScheduleCallbackFromIsr` and `CancelCallbackFromIsr` on timers other than the current head of
the pending list, and by complete runs of the interrupt handler whose callbacks leave a
disabled compare interrupt disabled (they may cancel timers and change due ticks, but not arm
the interrupt as a call of `ScheduleCallbackFromIsr` can), if the compare interrupt is enabled
then the pending list is not empty and the compare register equals the due tick of its head,
as 32-bit values. -/
theorem head_holds_compare (mii : Nat) (s : State)
    (h : Reentrant.ReachableSparingHead mii s) (hon : s.cpbsEnabled = true) :
    ∃ x, s.pendingList.head? = some x ∧ s.tcRB % 2 ^ 32 = s.due x % 2 ^ 32 := by
  revert hon
  induction h with
  | boot tcCV timers => intro hon; exact Bool.noConfusion hon
  | setCallback s this cb param _ ih =>
    intro hon
    obtain ⟨x, hx, ht⟩ := ih hon
    exact ⟨x, hx, by rw [setCallback_due]; exact ht⟩
  | schedule s this when _ hh ih => exact schedule_armed_sparing mii s this when hh ih
  | cancel s this _ hh ih => exact cancel_armed_sparing s this hh ih
  | handler run s s' fuel b _ hrun hr ih =>
    exact reentrant_handler_armed run mii fuel s s' b hrun ih hr

/-- Three timers are pending and the last of the list, timer `2`, is scheduled again for tick
140; then the handler dispatches timer `1`, whose callback cancels timer `3`.  On return the
interrupt is enabled and the compare register holds the due tick of the head, timer `2`. -/
theorem head_holds_compare_witness :
    ∃ s' : State,
      Reentrant.STEP_TC_HANDLER cancelThird 6 2
        (ScheduleCallbackFromIsr 6 cancelScenario 2 140).2 true = some s' ∧
      s'.cpbsEnabled = true ∧ s'.pendingList = [2] ∧ s'.calls = [1] ∧ s'.tcRB = 140 ∧
      ∃ x, s'.pendingList.head? = some x ∧ s'.tcRB % 2 ^ 32 = s'.due x % 2 ^ 32 := by
  have hreach : Reentrant.ReachableSparingHead 6 (ScheduleCallbackFromIsr 6 cancelScenario 2 140).2 :=
    Reentrant.ReachableSparingHead.schedule _ 2 140
      (Reentrant.ReachableSparingHead.schedule _ 3 120
        (Reentrant.ReachableSparingHead.schedule _ 2 150
          (Reentrant.ReachableSparingHead.schedule _ 1 100
            (Reentrant.ReachableSparingHead.setCallback _ 1 _ 0
              (Reentrant.ReachableSparingHead.boot _ _))
            (by decide))
          (by decide))
        (by decide))
      (by decide)
  have hrun : ∀ x t, t.cpbsEnabled = false → (cancelThird x t).2.cpbsEnabled = false := by
    intro x t ht
    show (CancelCallbackFromIsr t 3).cpbsEnabled = false
    rw [cancel_cpbsEnabled]; exact ht
  exact ⟨(Reentrant.STEP_TC_HANDLER cancelThird 6 2
      (ScheduleCallbackFromIsr 6 cancelScenario 2 140).2 true).get (by decide),
    (Option.some_get _).symm, by decide, by decide, by decide, by decide,
    head_holds_compare 6 _
      (Reentrant.ReachableSparingHead.handler cancelThird _ _ 2 true hreach hrun
        (Option.some_get _).symm)
      (by decide)⟩

/-! ## C16: Tear-free read of the chained counter -/

/-- C16. Let the chained counter be a non-decreasing 32-bit value `c k` at the `k`-th register
read, the upper channel holding its high and the lower channel its low 16 bits.  Whenever the
chained `GetTimerTicks` returns, after `n` register reads, the value is the counter at the
last read of the low word, `c (n - 2)`; the high word was read identically immediately before
and after it, and the value is `(high << 16) | low`.  When the first two reads of the high
word agree the function returns after exactly three register reads.  When the counter
advances by less than `2^14` ticks between reads it returns after at most five. -/
theorem getTimerTicks_tear_free (c : Nat → Nat) (hmono : ∀ k, c k ≤ c (k + 1))
    (h32 : ∀ k, c k < 2 ^ 32) :
    (∀ fuel v n,
      Chained.GetTimerTicks (Chained.upperOf c) (Chained.lowerOf c) fuel = some (v, n) →
        3 ≤ n ∧ v = c (n - 2) ∧
        Chained.upperOf c (n - 3) = Chained.upperOf c (n - 1) ∧
        v = (Chained.upperOf c (n - 1) <<< 16) ||| Chained.lowerOf c (n - 2)) ∧
    (Chained.upperOf c 0 = Chained.upperOf c 2 → ∀ fuel,
      Chained.GetTimerTicks (Chained.upperOf c) (Chained.lowerOf c) (fuel + 1)
        = some (c 1, 3)) ∧
    ((∀ k, c (k + 1) - c k < 2 ^ 14) → ∃ v n, n ≤ 5 ∧ ∀ fuel,
      Chained.GetTimerTicks (Chained.upperOf c) (Chained.lowerOf c) (fuel + 2)
        = some (v, n)) := by
  have hu : ∀ j, Chained.upperOf c j % 2 ^ 16 = Chained.upperOf c j := by
    intro j
    unfold Chained.upperOf
    omega
  have hlo : ∀ j, Chained.lowerOf c j % 2 ^ 16 = c j % 2 ^ 16 := by
    intro j
    unfold Chained.lowerOf
    omega
  have hmid : ∀ j, Chained.upperOf c j = Chained.upperOf c (j + 2) →
      c (j + 1) / 2 ^ 16 = Chained.upperOf c j := by
    intro j he
    rw [upperOf_eq c h32 j] at he ⊢
    rw [upperOf_eq c h32 (j + 2)] at he
    have d1 : c j / 2 ^ 16 ≤ c (j + 1) / 2 ^ 16 := Nat.div_le_div_right (hmono j)
    have d2 : c (j + 1) / 2 ^ 16 ≤ c (j + 2) / 2 ^ 16 := Nat.div_le_div_right (hmono (j + 1))
    omega
  refine ⟨?_, ?_, ?_⟩
  · intro fuel v n h
    unfold Chained.GetTimerTicks at h
    rw [hu] at h
    obtain ⟨r1, r2, r3⟩ := readLoop_spec c hmono h32 fuel 0 _ v n rfl h
    refine ⟨by omega, r2, r3, ?_⟩
    have e : n - 3 + 1 = n - 2 := by omega
    have e' : n - 3 + 2 = n - 1 := by omega
    have hm := hmid (n - 3) (by rw [e']; exact r3)
    rw [e] at hm
    rw [← r3, r2]
    unfold Chained.lowerOf
    exact (assemble_eq_or _ _ (h32 _) hm).symm
  · intro he fuel
    unfold Chained.GetTimerTicks
    simp only [Chained.readLoop, hu, hlo]
    rw [if_pos he.symm]
    have hm := hmid 0 he
    rw [assemble_eq _ _ (h32 1) hm]
  · intro hstep
    by_cases he : Chained.upperOf c 2 = Chained.upperOf c 0
    · refine ⟨c 1, 3, by omega, fun fuel => ?_⟩
      unfold Chained.GetTimerTicks
      simp only [Chained.readLoop, hu, hlo]
      rw [if_pos he, assemble_eq _ _ (h32 1) (hmid 0 he.symm)]
    · have he2 : Chained.upperOf c 4 = Chained.upperOf c 2 := by
        rw [upperOf_eq c h32 0, upperOf_eq c h32 2] at he
        rw [upperOf_eq c h32 4, upperOf_eq c h32 2]
        have s0 := hstep 0
        have s1 := hstep 1
        have s2 := hstep 2
        have s3 := hstep 3
        have m0 := hmono 0
        have m1 := hmono 1
        have m2 := hmono 2
        have m3 := hmono 3
        simp only [Nat.zero_add, Nat.reduceAdd] at s0 s1 s2 s3 m0 m1 m2 m3
        omega
      refine ⟨c 3, 5, by omega, fun fuel => ?_⟩
      unfold Chained.GetTimerTicks
      simp only [Chained.readLoop, hu, hlo]
      rw [if_neg he, if_pos he2, assemble_eq _ _ (h32 3) (hmid 2 he2.symm)]

/-- A rollover of the low word between the first two reads of the high word: the loop goes
round once more and returns the counter at its second read of the low word. -/
theorem getTimerTicks_tear_free_witness :
    Chained.GetTimerTicks (Chained.upperOf rolloverCounter) (Chained.lowerOf rolloverCounter) 2
      = some (65537, 5) ∧
    rolloverCounter 3 = 65537 ∧
    (∀ v n, Chained.GetTimerTicks (Chained.upperOf rolloverCounter)
        (Chained.lowerOf rolloverCounter) 2 = some (v, n) → v = rolloverCounter (n - 2)) := by
  have hmono : ∀ k, rolloverCounter k ≤ rolloverCounter (k + 1) := by
    intro k
    unfold rolloverCounter
    split_ifs <;> omega
  have h32 : ∀ k, rolloverCounter k < 2 ^ 32 := by
    intro k
    unfold rolloverCounter
    split_ifs <;> omega
  exact ⟨by decide, by decide,
    fun v n h => ((getTimerTicks_tear_free rolloverCounter hmono h32).1 2 v n h).2.1⟩

/-! ## C17: The reinsertion rule and the ordering walk -/

/-- C17, counterexample.  The counter stands at `now = 100 + 2^30`; timer `2` is pending for
tick 100, which is `2^30` ticks before `now`, and the callback of the head, timer `1`, leaves
the due tick `100 + 2^31`, which is `2^30` ticks after `now`.  The reinsertion of
`StepTimer::Interrupt` links timer `1` in front of timer `2`; `ScheduleCallbackFromIsr` for
the same tick, on the list without timer `1`, links it behind timer `2`. -/
theorem reinsertion_differs_at_edge :
    edgeScenario.pendingList = [1, 2] ∧
    (GetTimerTicks edgeScenario).1 = 100 + 2 ^ 30 ∧
    sdiff (edgeScenario.due 2) (100 + 2 ^ 30) = -(2 ^ 30) ∧
    sdiff (100 + 2 ^ 31) (100 + 2 ^ 30) = 2 ^ 30 ∧
    (InterruptBody 6 edgeScenario).1.pendingList = [1, 2] ∧
    (InterruptBody 6 edgeScenario).1.due 1 = 100 + 2 ^ 31 ∧
    (ScheduleCallbackFromIsr 6 (CancelCallbackFromIsr edgeScenario 1) 1
      (100 + 2 ^ 31)).2.pendingList = [2, 1] ∧
    linkAfterWalk (fun x => decide (sdiff ((InterruptBody 6 edgeScenario).1.due x)
        (100 + 2 ^ 30) < sdiff ((InterruptBody 6 edgeScenario).1.due 1) (100 + 2 ^ 30)))
      1 [2] = [2, 1] := by
  decide

/-- C17, amended.  When the signed differences from `now` of the due tick of the timer and of
every due tick in the list are at least `-2^30` and less than `2^30`, the pairwise test of the
reinsertion in `StepTimer::Interrupt` and the test of the ordering walk of
`ScheduleCallbackFromIsr` stop at the same link, ties included; so the list that a
reinserting pass of the loop leaves is the one the ordering walk builds. -/
theorem reinsertion_matches_walk :
    (∀ (s : State) (tmr now : Nat) (l : List Nat),
      (-(2 ^ 30 : Int) ≤ sdiff (s.due tmr) now ∧ sdiff (s.due tmr) now < 2 ^ 30) →
      (∀ x ∈ l, -(2 ^ 30 : Int) ≤ sdiff (s.due x) now ∧ sdiff (s.due x) now < 2 ^ 30) →
      linkAfterWalk (fun x => decide (sdiff (s.due tmr) (s.due x) > 0)) tmr l =
        linkAfterWalk (fun x => decide (sdiff (s.due x) now < sdiff (s.due tmr) now)) tmr l) ∧
    (∀ (mii : Nat) (s : State) (tmr now : Nat) (rest : List Nat) (cb : TimerCallbackFunction),
      s.pendingList = tmr :: rest → s.pendingList.Nodup →
      sdiff (s.due tmr) (GetTimerTicks s).1 < toInt32 mii →
      (s.timers tmr).callback = some cb →
      (cb (s.timers tmr).cbParam (s.due tmr) s.world).1 = true →
      (-(2 ^ 30 : Int) ≤ sdiff (cb (s.timers tmr).cbParam (s.due tmr) s.world).2.1 now ∧
        sdiff (cb (s.timers tmr).cbParam (s.due tmr) s.world).2.1 now < 2 ^ 30) →
      (∀ x ∈ rest, -(2 ^ 30 : Int) ≤ sdiff (s.due x) now ∧ sdiff (s.due x) now < 2 ^ 30) →
      (InterruptBody mii s).1.pendingList =
        linkAfterWalk (fun x => decide (sdiff (s.due x) now <
          sdiff (cb (s.timers tmr).cbParam (s.due tmr) s.world).2.1 now)) tmr rest) := by
  refine ⟨?_, ?_⟩
  · intro s tmr now l ht hl
    apply reinsert_walk_eq s tmr (s.due tmr) now l
    intro x hx
    have := hl x hx
    constructor <;> omega
  · intro mii s tmr now rest cb hl hnd hdue hcb hc ht hr
    have hnd' : (tmr :: rest).Nodup := hl ▸ hnd
    have hn : tmr ∉ rest := (List.nodup_cons.1 hnd').1
    obtain ⟨_, b2, _⟩ := interruptBody_dispatch_again mii s tmr rest cb hl hn hdue hcb hc
    rw [b2]
    apply reinsert_walk_eq s tmr _ now rest
    intro x hx
    have := hr x hx
    constructor <;> omega

/-- The reinsertion of the repeating timer of the dispatch scenario, tick 200 with the counter
at 130, is where the ordering walk puts it: behind timers `3` and `2`. -/
theorem reinsertion_matches_walk_witness :
    (InterruptBody 6 dispatchScenario).1.pendingList = [3, 2, 1] ∧
    (InterruptBody 6 dispatchScenario).1.pendingList =
      linkAfterWalk (fun x => decide (sdiff (dispatchScenario.due x) 130 < sdiff 200 130))
        1 [3, 2] :=
  ⟨by decide,
    reinsertion_matches_walk.2 6 dispatchScenario 1 130 [3, 2] everyHundred (by decide)
      (by decide) (by decide) rfl rfl (by decide) (by decide)⟩

/-! ## C18: The normal-context wrappers -/

/-- C19. In every state reached from boot by setting callbacks, `ScheduleCallbackFromIsr`,
`CancelCallbackFromIsr` and complete runs of the interrupt handler, whatever the callbacks do
to the scheduler state, calls of `ScheduleCallbackFromIsr` and `CancelCallbackFromIsr`
included, if the pending list is not empty then the compare interrupt is enabled. -/
theorem no_lost_wakeup (mii : Nat) (s : State) (h : Reentrant.Reachable mii s)
    (hne : s.pendingList ≠ []) : s.cpbsEnabled = true := by
  revert hne
  induction h with
  | boot tcCV timers => intro hne; exact absurd rfl hne
  | setCallback s this cb param _ ih => intro hne; exact ih hne
  | schedule s this when _ ih => exact schedule_wake_any mii s this when ih
  | cancel s this _ ih => exact cancel_wake s this ih
  | handler run s s' fuel b _ hr ih => exact reentrant_handler_wake run mii fuel s s' b ih hr

/-- The handler dispatches timer `1`, whose callback schedules timer `2` for tick 500: on
return timer `2` is pending and the interrupt is enabled. -/
theorem no_lost_wakeup_witness :
    ∃ s' : State, Reentrant.STEP_TC_HANDLER chainCallback 6 2 chainScenario true = some s' ∧
      s'.pendingList = [2] ∧ s'.calls = [1] ∧ s'.cpbsEnabled = true := by
  have hreach : Reentrant.Reachable 6 chainScenario :=
    Reentrant.Reachable.schedule _ 1 100
      (Reentrant.Reachable.setCallback _ 1 _ 0 (Reentrant.Reachable.boot _ _))
  exact ⟨(Reentrant.STEP_TC_HANDLER chainCallback 6 2 chainScenario true).get (by decide),
    (Option.some_get _).symm, by decide, by decide,
    no_lost_wakeup 6 _
      (Reentrant.Reachable.handler chainCallback chainScenario _ 2 true hreach
        (Option.some_get _).symm)
      (by decide)⟩

/-! ## C20: Termination of the dispatch loop -/

/-- C20. On a pending list of `n` distinct timers none of whose callbacks asks for another
schedule, whatever the counter does, `StepTimer::Interrupt` returns: there is `k ≤ n` such
that the loop makes exactly `k` passes that unlink the head and one more that returns; the
callbacks invoked are at most `k`, each timer's at most once, all among the first `k` timers
of the list.  A callback that always asks for another schedule and leaves an overdue tick is
dispatched again on every pass, and the loop does not return. -/
theorem interrupt_terminates :
    (∀ (mii : Nat) (s : State), s.pendingList.Nodup → (∀ x ∈ s.pendingList, Quiet s x) →
      ∃ (k : Nat) (s' : State) (invoked : List Nat),
        k ≤ s.pendingList.length ∧
        (∀ fuel, k < fuel → Interrupt mii fuel s = some s') ∧
        (∀ fuel, fuel ≤ k → Interrupt mii fuel s = none) ∧
        s'.pendingList = s.pendingList.drop k ∧
        s'.calls = s.calls ++ invoked ∧
        invoked.length ≤ k ∧ invoked.Nodup ∧
        invoked.Sublist (s.pendingList.take k)) ∧
    (∀ fuel, Interrupt 6 fuel stuckScenario = none) := by
  refine ⟨?_, ?_⟩
  · intro mii s hnd hquiet
    obtain ⟨back, h1, h2⟩ := dueFront_split mii s s.pendingList 0
    generalize hf : dueFront mii s 0 s.pendingList = front at h1 h2
    have hdt : DueInTurn mii s 0 front := hf ▸ dueInTurn_dueFront mii s s.pendingList 0
    obtain ⟨s', c1, c2, c3, c4, _⟩ := interrupt_drain mii front back s h1 hnd hdt
      (fun x hx => hquiet x (by rw [h1]; exact List.mem_append_left _ hx))
      (fun h hh => by simpa using h2 h hh)
    have htake : s.pendingList.take front.length = front := by
      rw [h1]; exact List.take_left _ _
    have hdrop : s.pendingList.drop front.length = back := by
      rw [h1]; exact List.drop_left _ _
    have hfnd : front.Nodup := by
      rw [h1] at hnd; exact (List.nodup_append.1 hnd).1
    refine ⟨front.length, s', front.filter (hasCallback s), ?_, c1, c2, c3.trans hdrop.symm,
      c4, List.length_filter_le _ _, hfnd.filter _, ?_⟩
    · have := congrArg List.length h1
      rw [List.length_append] at this
      omega
    · rw [htake]; exact List.filter_sublist _
  · intro fuel
    apply interrupt_stuck 6 1 stubborn (fun _ _ _ => ⟨rfl, rfl⟩) fuel stuckScenario
      (by decide) rfl
    intro k
    have ht : stuckScenario.tick k = 130 := by
      show (fun k => if k < 2 then 0 else 130) (2 + k) % 2 ^ 32 = 130
      simp
    rw [ht]
    decide

/-- Termination at the drain scenario: two passes unlink timers `1` and `3`, the third
returns. -/
theorem interrupt_terminates_witness :
    ∃ (k : Nat) (s' : State), k ≤ 3 ∧ Interrupt 6 (k + 1) drainScenario = some s' := by
  have hq : ∀ x ∈ drainScenario.pendingList, Quiet drainScenario x := by
    intro x hx cb hcb p d w
    have hx' : x ∈ [1, 3, 2] := hx
    simp only [List.mem_cons, List.mem_singleton, List.not_mem_nil, or_false] at hx'
    rcases hx' with rfl | rfl | rfl
    · have e : (drainScenario.timers 1).callback = some oneShot := rfl
      rw [e] at hcb
      cases hcb
      rfl
    · have e : (drainScenario.timers 3).callback = none := rfl
      rw [e] at hcb
      cases hcb
    · have e : (drainScenario.timers 2).callback = none := rfl
      rw [e] at hcb
      cases hcb
  obtain ⟨k, s', _, hk, h1, _⟩ := interrupt_terminates.1 6 drainScenario (by decide) hq
  exact ⟨k, s', hk, h1 (k + 1) (Nat.lt_succ_self k)⟩

end StepTimer
